import Mathlib

/-!
Verification of the Nifty red-black tree (`nft_rbtree.c`).

The tree stores key/data pairs in a growable arena of nodes addressed by
small integer indices; index 0 is the NIL sentinel and the root is stored
as the sentinel's left child.  This file gives a shallow embedding of the
arena, the red-black core (rotation, the two fixup loops, deletion with
arena compaction), the public operations, and the validator, and proves
the specification claims about them.

Modelling conventions:
- C machine integers indexing the arena are `Nat`; comparator results
  (C `long`) are `Int`.
- The arena pointer `nft_rbnode * nodes` is `Option (Array (Rbnode α β))`,
  `none` standing for a NULL (never-allocated) arena.  Operations that
  dereference a NULL arena in C return `none` (undefined behavior).
- In-bounds array reads mirror C reads; reads are total via a default
  node, which is never observable in well-formed executions.
- `realloc` outcomes are threaded as an explicit `allocOk : Bool`
  parameter (each operation performs at most one allocation).
- The comparison function, stored in the C struct at creation, is passed
  explicitly to each operation; the pthread lock is modelled as a no-op
  (single-threaded semantics), so the `locking` flag only sits in the
  structure.
- C `while`/`for` loops and the recursive validator run on explicit fuel;
  the operations pass a fuel that is provably sufficient on well-formed
  trees (the loops of the C code terminate for exactly the same reason).
-/

namespace Nifty

/-- One arena slot (C `struct nft_rbnode`): key, data, `child[2]`,
parent index, red bit. -/
structure Rbnode (α β : Type) where
  key    : α
  data   : β
  child0 : Nat
  child1 : Nat
  parent : Nat
  red    : Bool
deriving Repr, DecidableEq

instance {α β : Type} [Inhabited α] [Inhabited β] : Inhabited (Rbnode α β) :=
  ⟨⟨default, default, 0, 0, 0, false⟩⟩

/-- The tree header (C `struct nft_rbtree`): shrink floor `min_nodes`,
arena capacity `num_nodes`, first unused slot `next_free`, the tree-owned
walk cursor `current`, the locking flag, and the arena itself. -/
structure Rbtree (α β : Type) where
  min_nodes : Nat
  num_nodes : Nat
  next_free : Nat
  current   : Nat
  locking   : Nat
  nodes     : Option (Array (Rbnode α β))
deriving Repr, DecidableEq

variable {α β : Type} [Inhabited α] [Inhabited β]

/-- Arena read `nodes[i]`. -/
def nd (nodes : Array (Rbnode α β)) (i : Nat) : Rbnode α β :=
  nodes.getD i default

/-- Arena write `nodes[i] = v` (no-op out of bounds; writes are in bounds
in well-formed executions). -/
def wr (nodes : Array (Rbnode α β)) (i : Nat) (v : Rbnode α β) :
    Array (Rbnode α β) :=
  nodes.setD i v

/-- C `CHILD(n,w)`: `child[0]` is the left child, `child[1]` the right. -/
def childW (n : Rbnode α β) (w : Nat) : Nat :=
  if w = 0 then n.child0 else n.child1

/-- C `CHILD(i,w) = c`. -/
def setChild (nodes : Array (Rbnode α β)) (i w c : Nat) :
    Array (Rbnode α β) :=
  if w = 0 then wr nodes i { nd nodes i with child0 := c }
  else wr nodes i { nd nodes i with child1 := c }

/-- C `SET_PARENT(i,p)`. -/
def setParent (nodes : Array (Rbnode α β)) (i p : Nat) :
    Array (Rbnode α β) :=
  wr nodes i { nd nodes i with parent := p }

/-- C `SET_RED(i)` / `RESET_RED(i)`. -/
def setRed (nodes : Array (Rbnode α β)) (i : Nat) (b : Bool) :
    Array (Rbnode α β) :=
  wr nodes i { nd nodes i with red := b }

/-- C `KEY(i) = k; DATA(i) = d`. -/
def setKeyData (nodes : Array (Rbnode α β)) (i : Nat) (k : α) (d : β) :
    Array (Rbnode α β) :=
  wr nodes i { nd nodes i with key := k, data := d }

/-- The descent `while (!IS_NIL(LEFT(node))) node = LEFT(node)` used by
`node_first` and `node_successor`. -/
def leftmost (nodes : Array (Rbnode α β)) : Nat → Nat → Nat
  | 0, i => i
  | fuel + 1, i =>
    if (nd nodes i).child0 = 0 then i else leftmost nodes fuel (nd nodes i).child0

/-- First (leftmost) node of the tree, or NIL; guards a NULL arena
(C `node_first`). -/
def node_first (tree : Rbtree α β) : Nat :=
  match tree.nodes with
  | none => 0
  | some nodes =>
    let node := (nd nodes 0).child0
    if node = 0 then 0 else leftmost nodes nodes.size node

/-- The ascent loop of `node_successor`:
`while ((parent = PARENT(node)) != NIL && node == RIGHT(parent)) node = parent;
return parent`. -/
def ascend (nodes : Array (Rbnode α β)) : Nat → Nat → Nat
  | 0, node => (nd nodes node).parent
  | fuel + 1, node =>
    let parent := (nd nodes node).parent
    if parent ≠ 0 ∧ node = (nd nodes parent).child1 then ascend nodes fuel parent
    else parent

/-- In-order successor of a non-NIL node (C `node_successor`): leftmost
node of the right subtree if there is one, otherwise the first ancestor
of which the node is in the left subtree. -/
def node_successor (nodes : Array (Rbnode α β)) (fuel node : Nat) : Nat :=
  if (nd nodes node).child1 ≠ 0 then leftmost nodes fuel (nd nodes node).child1
  else ascend nodes fuel node

/-- Attach a new leaf at `tree.next_free` under `parent` as child `which`
(C `attach_leaf`); the caller guarantees `next_free < num_nodes`. -/
def attach_leaf (tree : Rbtree α β) (parent : Nat) (key : α) (data : β)
    (which : Nat) : Nat × Rbtree α β :=
  let nodes := tree.nodes.getD #[]
  let node := tree.next_free
  let nodes := wr nodes node ⟨key, data, 0, 0, parent, false⟩
  let nodes := setChild nodes parent which node
  (node, { tree with nodes := some nodes, next_free := node + 1 })

/-- C `rotate(nodes, node, s, gs)`: promote the grandson `gs`, demote the
son `s`, under `node`.  The writes follow the C statement order, each
read seeing the preceding writes. -/
def rotate (nodes : Array (Rbnode α β)) (node s gs : Nat) :
    Array (Rbnode α β) :=
  let left : Nat := if gs = (nd nodes s).child0 then 0 else 1
  let right : Nat := 1 - left
  let n1 := setChild nodes s left (childW (nd nodes gs) right)
  let n2 := setParent n1 (childW (nd n1 gs) right) s
  let n3 := setChild n2 gs right s
  let n4 := setParent n3 s gs
  let n5 := if s = (nd n4 node).child0 then setChild n4 node 0 gs
            else setChild n4 node 1 gs
  setParent n5 gs node

/-- The `while` loop of C `insert_fixup` (CLR p268 with the left/right
symmetry folded into the `right` flag). -/
def insert_fixup_go (nodes : Array (Rbnode α β)) :
    Nat → Nat → Array (Rbnode α β)
  | 0, _ => nodes
  | fuel + 1, x =>
    let root := (nd nodes 0).child0
    if x ≠ root ∧ (nd nodes (nd nodes x).parent).red then
      let p := (nd nodes x).parent
      let gp := (nd nodes p).parent
      let right : Nat := if p = (nd nodes gp).child0 then 1 else 0
      let left : Nat := 1 - right
      let y := childW (nd nodes gp) right
      if (nd nodes y).red then
        let nodes := setRed nodes y false
        let nodes := setRed nodes p false
        let nodes := setRed nodes gp true
        insert_fixup_go nodes fuel gp
      else
        let a :=
          if x = childW (nd nodes p) right then
            let nodes := rotate nodes gp p x
            let x := childW (nd nodes x) left
            let p := (nd nodes x).parent
            let gp := (nd nodes p).parent
            (nodes, x, p, gp)
          else (nodes, x, p, gp)
        let nodes := a.1
        let x := a.2.1
        let p := a.2.2.1
        let gp := a.2.2.2
        let nodes := setRed nodes p false
        let nodes := setRed nodes gp true
        let nodes := rotate nodes (nd nodes gp).parent gp p
        insert_fixup_go nodes fuel x
    else nodes

/-- C `insert_fixup`: run the loop, then force the root black. -/
def insert_fixup (nodes : Array (Rbnode α β)) (x : Nat) :
    Array (Rbnode α β) :=
  let nodes := insert_fixup_go nodes nodes.size x
  setRed nodes (nd nodes 0).child0 false

/-- The descent of C `insert_node`: find the attachment point, returning
the final `node` and the last comparison result. -/
def insert_descend (cmp : α → α → β → β → Int) (nodes : Array (Rbnode α β))
    (key : α) (data : β) : Nat → Nat → Nat × Int
  | 0, x => (x, 0)
  | fuel + 1, x =>
    let node := x
    let comp := cmp key (nd nodes node).key data (nd nodes node).data
    let next := if comp < 0 then (nd nodes node).child0 else (nd nodes node).child1
    if next = 0 then (node, comp)
    else insert_descend cmp nodes key data fuel next

/-- C `insert_node` (never called on an empty tree): descend, attach a
red leaf (`comp >= 0` goes right), rebalance. -/
def insert_node (cmp : α → α → β → β → Int) (tree : Rbtree α β)
    (key : α) (data : β) : Rbtree α β :=
  let nodes0 := tree.nodes.getD #[]
  let root := (nd nodes0 0).child0
  let a := insert_descend cmp nodes0 key data nodes0.size root
  let node := a.1
  let comp := a.2
  let b := attach_leaf tree node key data (if comp ≥ 0 then 1 else 0)
  let leaf := b.1
  let tree := b.2
  let nodes := setRed (tree.nodes.getD #[]) leaf true
  { tree with nodes := some (insert_fixup nodes leaf) }

/-- The `while` loop of C `delete_fixup` (CLR p272, symmetric via the
`right` flag); returns the arena and the final `x` (the C `break` sets
`x = ROOT` first). -/
def delete_fixup_go (nodes : Array (Rbnode α β)) :
    Nat → Nat → Array (Rbnode α β) × Nat
  | 0, x => (nodes, x)
  | fuel + 1, x =>
    let root := (nd nodes 0).child0
    if x ≠ root ∧ (nd nodes x).red = false then
      let p := (nd nodes x).parent
      let right : Nat := if x = (nd nodes p).child0 then 1 else 0
      let a :=
        if (nd nodes (childW (nd nodes p) right)).red then
          let w := childW (nd nodes p) right
          let nodes := setRed nodes w false
          let nodes := setRed nodes p true
          let nodes := rotate nodes (nd nodes p).parent p w
          (nodes, childW (nd nodes p) right)
        else (nodes, childW (nd nodes p) right)
      let nodes := a.1
      let w := a.2
      if (nd nodes (nd nodes w).child0).red = false ∧
         (nd nodes (nd nodes w).child1).red = false then
        let nodes := setRed nodes w true
        delete_fixup_go nodes fuel p
      else
        let b :=
          if (nd nodes (childW (nd nodes w) right)).red = false then
            let left := 1 - right
            let nodes := setRed nodes (childW (nd nodes w) left) false
            let nodes := setRed nodes w true
            let nodes := rotate nodes p w (childW (nd nodes w) left)
            (nodes, childW (nd nodes p) right)
          else (nodes, w)
        let nodes := b.1
        let w := b.2
        let nodes := setRed nodes w (nd nodes p).red
        let nodes := setRed nodes p false
        let nodes := setRed nodes (childW (nd nodes w) right) false
        let nodes := rotate nodes (nd nodes p).parent p w
        (nodes, (nd nodes 0).child0)
    else (nodes, x)

/-- C `delete_fixup`: run the loop, then force the final `x` black. -/
def delete_fixup (nodes : Array (Rbnode α β)) (x : Nat) :
    Array (Rbnode α β) :=
  let a := delete_fixup_go nodes nodes.size x
  setRed a.1 a.2 false

/-- C `delete_node`: remove node `z` (CLR RB-Delete), keeping the
tree-owned cursor on a live node, then compact the arena by moving the
node at `next_free - 1` into the freed slot. -/
def delete_node (tree : Rbtree α β) (z : Nat) : Rbtree α β :=
  let nodes := tree.nodes.getD #[]
  let fuel := nodes.size
  let a :=
    if (nd nodes z).child0 = 0 ∨ (nd nodes z).child1 = 0 then
      -- z itself is spliced out; advance the cursor to its successor first.
      let y := z
      let current := if tree.current = y then node_successor nodes fuel y
                     else tree.current
      (nodes, y, current)
    else
      -- copy the successor's key/data into z and splice out the successor;
      -- a cursor on the successor moves to z, where its key/data now live.
      let y := node_successor nodes fuel z
      let nodes := setKeyData nodes z (nd nodes y).key (nd nodes y).data
      let current := if tree.current = y then z else tree.current
      (nodes, y, current)
  let nodes := a.1
  let y := a.2.1
  let current := a.2.2
  let x := if (nd nodes y).child0 ≠ 0 then (nd nodes y).child0
           else (nd nodes y).child1
  let p := (nd nodes y).parent
  let nodes := setParent nodes x p
  let nodes := if (nd nodes p).child0 = y then setChild nodes p 0 x
               else setChild nodes p 1 x
  let nodes := if (nd nodes y).red = false then delete_fixup nodes x else nodes
  let L := tree.next_free - 1
  let b :=
    if y ≠ L then
      let nodes := wr nodes y (nd nodes L)
      let nodes := setParent nodes (nd nodes L).child0 y
      let nodes := setParent nodes (nd nodes L).child1 y
      let p2 := (nd nodes L).parent
      let nodes := if (nd nodes p2).child0 = L then setChild nodes p2 0 y
                   else setChild nodes p2 1 y
      let current := if current = L then y else current
      (nodes, current)
    else (nodes, current)
  { tree with nodes := some b.1, next_free := L, current := b.2 }

/-- C `resize_nodes`: realloc the arena to `new_size` (at least 2, slot 0
being the sentinel); on the first allocation initialize the sentinel.
`allocOk` is the outcome of the single `realloc` call. -/
def resize_nodes (tree : Rbtree α β) (allocOk : Bool) (new_size : Nat) :
    Int × Rbtree α β :=
  let new_size := if new_size < 2 then 2 else new_size
  if allocOk = false then (0, tree)
  else
    match tree.nodes with
    | none =>
      let arr := Array.mkArray new_size (default : Rbnode α β)
      let arr := wr arr 0 ⟨default, default, 0, 0, 0, false⟩
      (1, { tree with nodes := some arr, num_nodes := new_size })
    | some arr =>
      let arr := if arr.size ≤ new_size then
                   arr ++ Array.mkArray (new_size - arr.size) default
                 else arr.extract 0 new_size
      (1, { tree with nodes := some arr, num_nodes := new_size })

/-- C `rbtree_create` (the constructor): reject a negative `min_nodes` or
a missing comparator, allocate the initial arena when requested.
`hasCompare` models the non-NULLness of the function pointer. -/
def rbtree_create (min_nodes : Int) (hasCompare : Bool) (allocOk : Bool) :
    Option (Rbtree α β) :=
  if min_nodes < 0 then none
  else if hasCompare = false then none
  else
    let tree : Rbtree α β :=
      { min_nodes := min_nodes.toNat, num_nodes := 0, next_free := 1,
        current := 0, locking := 0, nodes := none }
    if min_nodes > 0 then
      let a := resize_nodes tree allocOk min_nodes.toNat
      if a.1 = 0 then none else some a.2
    else some tree

/-- Everything `rbtree_insert` does after its NULL-tree check: grow the
arena if full, then attach the first node under NIL or run the ordinary
descent-and-fixup insertion. -/
def rbtree_insert_body (cmp : α → α → β → β → Int) (allocOk : Bool)
    (tree : Rbtree α β) (key : α) (data : β) : Int × Rbtree α β :=
  let tree := if tree.next_free ≥ tree.num_nodes then
                (resize_nodes tree allocOk (2 * tree.num_nodes)).2
              else tree
  if tree.next_free < tree.num_nodes then
    if tree.next_free = 1 then (1, (attach_leaf tree 0 key data 0).2)
    else (1, insert_node cmp tree key data)
  else (0, tree)

/-- C `rbtree_insert`: 0 and no change on a NULL tree. -/
def rbtree_insert (cmp : α → α → β → β → Int) (allocOk : Bool)
    (tree : Option (Rbtree α β)) (key : α) (data : β) :
    Int × Option (Rbtree α β) :=
  match tree with
  | none => (0, none)
  | some t =>
    let a := rbtree_insert_body cmp allocOk t key data
    (a.1, some a.2)

/-- The key-lookup descent shared verbatim by `rbtree_replace`,
`rbtree_delete` and `rbtree_search`:
`for (node = ROOT; node != NIL && (comp = compare(...)); node = comp<0 ? LEFT : RIGHT);`
returning the final `node` and `comp` (initially `-1`). -/
def find_loop (cmp : α → α → β → β → Int) (nodes : Array (Rbnode α β))
    (key : α) (token : β) : Nat → Nat → Int → Nat × Int
  | 0, node, comp => (node, comp)
  | fuel + 1, node, comp =>
    if node ≠ 0 then
      let c := cmp key (nd nodes node).key token (nd nodes node).data
      if c ≠ 0 then
        find_loop cmp nodes key token fuel
          (if c < 0 then (nd nodes node).child0 else (nd nodes node).child1) c
      else (node, c)
    else (node, comp)

/-- Everything `rbtree_search` does after its NULL-tree check.  `none`:
the C code reads `ROOT` out of a NULL arena (undefined behavior).
`dataPtr` models the `void **data` in/out parameter (NULL or pointing at
the duplex token). -/
def rbtree_search_body (cmp : α → α → β → β → Int) (tree : Rbtree α β)
    (key : α) (dataPtr : Option β) : Option (Int × Option β) :=
  match tree.nodes with
  | none => none
  | some nodes =>
    let token := dataPtr.getD default
    let a := find_loop cmp nodes key token nodes.size (nd nodes 0).child0 (-1)
    if a.2 = 0 then some (1, dataPtr.map fun _ => (nd nodes a.1).data)
    else some (0, dataPtr)

/-- C `rbtree_search`. -/
def rbtree_search (cmp : α → α → β → β → Int) (tree : Option (Rbtree α β))
    (key : α) (dataPtr : Option β) : Option (Int × Option β) :=
  match tree with
  | none => some (0, dataPtr)
  | some t => rbtree_search_body cmp t key dataPtr

/-- Everything `rbtree_delete` does after its NULL-tree check: find the
key, store the data through `dataPtr`, remove the node, and halve the
arena when `next_free` has dropped below a quarter of the capacity (not
below the `min_nodes` floor).  `none`: NULL-arena dereference. -/
def rbtree_delete_body (cmp : α → α → β → β → Int) (allocOk : Bool)
    (tree : Rbtree α β) (key : α) (dataPtr : Option β) :
    Option (Int × Option β × Rbtree α β) :=
  match tree.nodes with
  | none => none
  | some nodes =>
    let token := dataPtr.getD default
    let a := find_loop cmp nodes key token nodes.size (nd nodes 0).child0 (-1)
    if a.2 = 0 then
      let dataPtr := dataPtr.map fun _ => (nd nodes a.1).data
      let tree := delete_node tree a.1
      let tree := if tree.next_free < tree.num_nodes / 4 ∧
                     tree.min_nodes ≤ tree.num_nodes / 2 then
                    (resize_nodes tree allocOk (tree.num_nodes / 2)).2
                  else tree
      some (1, dataPtr, tree)
    else some (0, dataPtr, tree)

/-- C `rbtree_delete`. -/
def rbtree_delete (cmp : α → α → β → β → Int) (allocOk : Bool)
    (tree : Option (Rbtree α β)) (key : α) (dataPtr : Option β) :
    Option (Int × Option β × Option (Rbtree α β)) :=
  match tree with
  | none => some (0, dataPtr, none)
  | some t =>
    match rbtree_delete_body cmp allocOk t key dataPtr with
    | none => none
    | some (r, dp, t) => some (r, dp, some t)

/-- Everything `rbtree_replace` does after its NULL-tree check: find the
key; overwrite key/data in place returning the old data (result 2), or
insert as `rbtree_insert` does (result 1, or 0 when the arena could not
grow).  `none`: NULL-arena dereference.  `data` models the required
`void **data` in/out parameter. -/
def rbtree_replace_body (cmp : α → α → β → β → Int) (allocOk : Bool)
    (tree : Rbtree α β) (key : α) (data : β) :
    Option (Int × β × Rbtree α β) :=
  match tree.nodes with
  | none => none
  | some nodes =>
    let a := find_loop cmp nodes key data nodes.size (nd nodes 0).child0 (-1)
    if a.2 = 0 then
      let node := a.1
      let save := (nd nodes node).data
      let nodes := setKeyData nodes node key data
      some (2, save, { tree with nodes := some nodes })
    else
      let tree := if tree.next_free ≥ tree.num_nodes then
                    (resize_nodes tree allocOk (2 * tree.num_nodes)).2
                  else tree
      if tree.next_free < tree.num_nodes then
        if tree.next_free = 1 then
          some (1, data, (attach_leaf tree 0 key data 0).2)
        else some (1, data, insert_node cmp tree key data)
      else some (0, data, tree)

/-- C `rbtree_replace`. -/
def rbtree_replace (cmp : α → α → β → β → Int) (allocOk : Bool)
    (tree : Option (Rbtree α β)) (key : α) (data : β) :
    Option (Int × β × Option (Rbtree α β)) :=
  match tree with
  | none => some (0, data, none)
  | some t =>
    match rbtree_replace_body cmp allocOk t key data with
    | none => none
    | some (r, d, t) => some (r, d, some t)

/-- C `rbtree_count`: `next_free - 1`, 0 on a NULL tree. -/
def rbtree_count (tree : Option (Rbtree α β)) : Nat :=
  match tree with
  | none => 0
  | some t => t.next_free - 1

/-- C `rbtree_walk_first_r`: yield the minimum node's key/data and set
the cursor to its successor.  `kp`/`dp` model the optional out
pointers (`none` = NULL; a write replaces the pointee). -/
def rbtree_walk_first_r (tree : Option (Rbtree α β)) (kp : Option α)
    (dp : Option β) (walk : Nat) : Int × Option α × Option β × Nat :=
  match tree with
  | none => (0, kp, dp, walk)
  | some t =>
    let node := node_first t
    if node ≠ 0 then
      let nodes := t.nodes.getD #[]
      (1, kp.map fun _ => (nd nodes node).key,
          dp.map fun _ => (nd nodes node).data,
          node_successor nodes nodes.size node)
    else (0, kp, dp, walk)

/-- C `rbtree_walk_next_r`: yield the node addressed by the cursor, if
any, and advance the cursor to its successor; "no more" once the cursor
is NIL (the guard also rejects a cursor beyond `next_free`). -/
def rbtree_walk_next_r (tree : Option (Rbtree α β)) (kp : Option α)
    (dp : Option β) (walk : Nat) : Int × Option α × Option β × Nat :=
  match tree with
  | none => (0, kp, dp, walk)
  | some t =>
    let node := walk
    if node ≥ t.next_free then (0, kp, dp, walk)
    else if node ≠ 0 then
      let nodes := t.nodes.getD #[]
      (1, kp.map fun _ => (nd nodes node).key,
          dp.map fun _ => (nd nodes node).data,
          node_successor nodes nodes.size node)
    else (0, kp, dp, walk)

/-- C `rbtree_walk_first`: the tree-owned-cursor walk, `walk` being
`&tree->current`. -/
def rbtree_walk_first (tree : Option (Rbtree α β)) (kp : Option α)
    (dp : Option β) : Int × Option α × Option β × Option (Rbtree α β) :=
  match tree with
  | none => (0, kp, dp, none)
  | some t =>
    let a := rbtree_walk_first_r (some t) kp dp t.current
    (a.1, a.2.1, a.2.2.1, some { t with current := a.2.2.2 })

/-- C `rbtree_walk_next`: the tree-owned-cursor walk. -/
def rbtree_walk_next (tree : Option (Rbtree α β)) (kp : Option α)
    (dp : Option β) : Int × Option α × Option β × Option (Rbtree α β) :=
  match tree with
  | none => (0, kp, dp, none)
  | some t =>
    let a := rbtree_walk_next_r (some t) kp dp t.current
    (a.1, a.2.1, a.2.2.1, some { t with current := a.2.2.2 })

/-- C `check_pointers`: every reachable non-NIL index lies in
`[1, next_free)`, the children's parent pointers agree, and no red node
has a red child. -/
def check_pointers (nodes : Array (Rbnode α β)) (next_free : Nat) :
    Nat → Nat → Bool
  | _, 0 => true
  | 0, _ => false
  | fuel + 1, node =>
    if node ≥ next_free then false
    else if ((nd nodes node).child1 ≠ 0 ∧
             (nd nodes (nd nodes node).child1).parent ≠ node) ∨
            ((nd nodes node).child0 ≠ 0 ∧
             (nd nodes (nd nodes node).child0).parent ≠ node) then false
    else if (nd nodes node).red ∧
            ((nd nodes (nd nodes node).child0).red ∨
             (nd nodes (nd nodes node).child1).red) then false
    else check_pointers nodes next_free fuel (nd nodes node).child0 &&
         check_pointers nodes next_free fuel (nd nodes node).child1

/-- The key-order loop of `rbtree_validate`: walk the successor chain and
check that no key compares below its predecessor. -/
def order_chain (cmp : α → α → β → β → Int) (nodes : Array (Rbnode α β)) :
    Nat → Nat → Nat → Bool
  | _, _, 0 => true
  | 0, _, _ => false
  | fuel + 1, prev, node =>
    if prev ≠ 0 ∧ cmp (nd nodes node).key (nd nodes prev).key
                      (nd nodes node).data (nd nodes prev).data < 0 then false
    else order_chain cmp nodes fuel node (node_successor nodes nodes.size node)

/-- C `rbtree_validate`: root's parent is NIL, `check_pointers` passes,
and the in-order walk is non-decreasing.  `none`: the C code reads the
sentinel out of a NULL (never-allocated) arena. -/
def rbtree_validate (cmp : α → α → β → β → Int) (tree : Rbtree α β) :
    Option Bool :=
  match tree.nodes with
  | none => none
  | some nodes =>
    let root := (nd nodes 0).child0
    some (decide ((nd nodes root).parent = 0) &&
          check_pointers nodes tree.next_free tree.next_free root &&
          order_chain cmp nodes tree.next_free 0 (node_first tree))

/-- The two ready-made comparators, on `Int` stand-ins for the C
pointers: `rbtree_compare_pointers` returns 1 when `h2 > h1`. -/
def rbtree_compare_pointers (h1 h2 : Int) (d1 d2 : β) : Int :=
  let _ := d1
  let _ := d2
  if h1 < h2 then 1 else if h2 < h1 then -1 else 0

end Nifty

namespace Nifty

/-! ### Example data used by witnesses and counterexamples -/

/-- A plain strict comparator on `Int` keys, ignoring the duplex data
arguments: example input data for the theorems below ("a simple
comparator" in the spec's words). -/
def cmpInt : Int → Int → Int → Int → Int := fun a b _ _ =>
  if a < b then -1 else if b < a then 1 else 0

/-- The tree produced by `rbtree_create(0, compare)`: a zero-capacity
tree whose arena was never allocated. -/
def exFresh : Rbtree Int Int :=
  { min_nodes := 0, num_nodes := 0, next_free := 1, current := 0,
    locking := 0, nodes := none }

/-- An allocated but empty tree (capacity 2, no live nodes), as produced
by `rbtree_create(2, compare)`. -/
def exEmptyAlloc : Rbtree Int Int :=
  { min_nodes := 2, num_nodes := 2, next_free := 1, current := 0,
    locking := 0,
    nodes := some #[⟨0, 0, 0, 0, 0, false⟩, ⟨0, 0, 0, 0, 0, false⟩] }

/-- A valid tree with capacity 8 and two live nodes (keys 1 and 2),
as produced by inserting 1 then 2 into a capacity-8 arena. -/
def cexTree : Rbtree Int Int :=
  { min_nodes := 0, num_nodes := 8, next_free := 3, current := 0,
    locking := 0,
    nodes := some #[
      ⟨0, 0, 1, 0, 0, false⟩,
      ⟨1, 10, 0, 2, 0, false⟩,
      ⟨2, 20, 0, 0, 1, true⟩,
      ⟨0, 0, 0, 0, 0, false⟩,
      ⟨0, 0, 0, 0, 0, false⟩,
      ⟨0, 0, 0, 0, 0, false⟩,
      ⟨0, 0, 0, 0, 0, false⟩,
      ⟨0, 0, 0, 0, 0, false⟩] }

/-- A valid tree with capacity 8 and one live node (key 1). -/
def cexTree2 : Rbtree Int Int :=
  { min_nodes := 0, num_nodes := 8, next_free := 2, current := 0,
    locking := 0,
    nodes := some #[
      ⟨0, 0, 1, 0, 0, false⟩,
      ⟨1, 10, 0, 0, 0, false⟩,
      ⟨0, 0, 0, 0, 0, false⟩,
      ⟨0, 0, 0, 0, 0, false⟩,
      ⟨0, 0, 0, 0, 0, false⟩,
      ⟨0, 0, 0, 0, 0, false⟩,
      ⟨0, 0, 0, 0, 0, false⟩,
      ⟨0, 0, 0, 0, 0, false⟩] }

variable {α β : Type} [Inhabited α] [Inhabited β]

/-! ### Field-preservation lemmas for the core operations -/

theorem resize_nodes_next_free (t : Rbtree α β) (ok : Bool) (n : Nat) :
    (resize_nodes t ok n).2.next_free = t.next_free := by
  unfold resize_nodes
  cases ok <;> cases h : t.nodes <;> simp

theorem resize_nodes_min_nodes (t : Rbtree α β) (ok : Bool) (n : Nat) :
    (resize_nodes t ok n).2.min_nodes = t.min_nodes := by
  unfold resize_nodes
  cases ok <;> cases h : t.nodes <;> simp

theorem resize_nodes_true_num_nodes (t : Rbtree α β) (n : Nat) :
    (resize_nodes t true n).2.num_nodes = if n < 2 then 2 else n := by
  unfold resize_nodes
  cases h : t.nodes <;> simp

theorem resize_nodes_false (t : Rbtree α β) (n : Nat) :
    resize_nodes t false n = (0, t) := by
  unfold resize_nodes
  simp

theorem attach_leaf_next_free (t : Rbtree α β) (p : Nat) (k : α) (d : β)
    (w : Nat) : (attach_leaf t p k d w).2.next_free = t.next_free + 1 := rfl

theorem insert_node_next_free (cmp : α → α → β → β → Int) (t : Rbtree α β)
    (k : α) (d : β) : (insert_node cmp t k d).next_free = t.next_free + 1 := rfl

theorem delete_node_num_nodes (t : Rbtree α β) (z : Nat) :
    (delete_node t z).num_nodes = t.num_nodes := rfl

theorem delete_node_min_nodes (t : Rbtree α β) (z : Nat) :
    (delete_node t z).min_nodes = t.min_nodes := rfl

theorem delete_node_next_free (t : Rbtree α β) (z : Nat) :
    (delete_node t z).next_free = t.next_free - 1 := rfl

end Nifty

namespace Nifty

variable {α β : Type} [Inhabited α] [Inhabited β]

/-! ### C10: public operations on a NULL tree -/

/-- C10: every public operation called with a NULL tree pointer — insert,
replace, delete, search, count, walk_first, walk_next — returns 0
(failure / not-found / zero count) and performs no mutation. -/
theorem null_tree_safety (cmp : α → α → β → β → Int) (allocOk : Bool)
    (key : α) (data : β) (kp : Option α) (dp : Option β) :
    rbtree_insert cmp allocOk none key data = (0, none) ∧
    rbtree_replace cmp allocOk none key data = some (0, data, none) ∧
    rbtree_delete cmp allocOk none key dp = some (0, dp, none) ∧
    rbtree_search cmp none key dp = some (0, dp) ∧
    rbtree_count (none : Option (Rbtree α β)) = 0 ∧
    rbtree_walk_first (none : Option (Rbtree α β)) kp dp = (0, kp, dp, none) ∧
    rbtree_walk_next (none : Option (Rbtree α β)) kp dp = (0, kp, dp, none) :=
  ⟨rfl, rfl, rfl, rfl, rfl, rfl, rfl⟩

/-! ### C9: walk termination at NIL -/

/-- C9: once the cursor has reached NIL, `walk_next` (re-entrant or
tree-owned) returns "no more" (0), leaves the caller's key/value outputs
unwritten, and leaves the cursor at NIL, so every subsequent call again
returns "no more". -/
theorem walk_next_at_nil (t : Rbtree α β) (kp : Option α) (dp : Option β)
    (h : t.current = 0) :
    rbtree_walk_next_r (some t) kp dp 0 = (0, kp, dp, 0) ∧
    rbtree_walk_next (some t) kp dp = (0, kp, dp, some t) := by
  have ht : ({ t with current := 0 } : Rbtree α β) = t := by rw [← h]
  have h1 : rbtree_walk_next_r (some t) kp dp 0 = (0, kp, dp, 0) := by
    simp only [rbtree_walk_next_r]
    by_cases hge : (0 : Nat) ≥ t.next_free
    · simp [hge]
    · simp [hge]
  refine ⟨h1, ?_⟩
  simp only [rbtree_walk_next, h, h1, ht]

/-- Witness for `walk_next_at_nil` at a concrete tree with its cursor at
NIL. -/
theorem walk_next_at_nil_witness :
    rbtree_walk_next_r (some cexTree) (some 7) (some 8) 0 = (0, some 7, some 8, 0) ∧
    rbtree_walk_next (some cexTree) (some 7) (some 8) = (0, some 7, some 8, some cexTree) :=
  walk_next_at_nil cexTree (some 7) (some 8) rfl

end Nifty

namespace Nifty

variable {α β : Type} [Inhabited α] [Inhabited β]

/-! ### C7: search/delete against an absent key, including the
never-allocated arena -/

/-- C7: against the code.  On a freshly created tree with zero initial
capacity the arena was never allocated (`nodes = none`), and
`rbtree_search` / `rbtree_delete` immediately read `ROOT` — that is,
`nodes[0].child[0]` — out of the NULL arena before any emptiness check:
undefined behavior (`none`), not the claimed normal not-found result.
(On any tree whose arena is allocated, the same calls do return 0, as the
last two conjuncts show on the allocated empty tree.) -/
theorem search_delete_fresh_ub :
    rbtree_create 0 true true = some exFresh ∧
    exFresh.nodes = none ∧
    rbtree_search cmpInt (some exFresh) 1 (some 0) = none ∧
    rbtree_delete cmpInt true (some exFresh) 1 (some 0) = none ∧
    (rbtree_search cmpInt (some exEmptyAlloc) 1 (some 0) = some (0, some 0)) ∧
    (rbtree_delete cmpInt true (some exEmptyAlloc) 1 (some 0) =
      some (0, some 0, some exEmptyAlloc)) := by
  refine ⟨rfl, rfl, rfl, rfl, by decide, by decide⟩

/-! ### C8: the successor function, against the spec's description -/

/-- Modelled from the spec (§4.2 Successor): "return the leftmost node of
that subtree". -/
def succ_spec_leftmost (nodes : Array (Rbnode α β)) : Nat → Nat → Nat
  | 0, i => i
  | fuel + 1, i =>
    if (nd nodes i).child0 ≠ 0 then succ_spec_leftmost nodes fuel (nd nodes i).child0
    else i

/-- Modelled from the spec (§4.2 Successor): "ascend through parents
while the current node is a right child, returning the first ancestor for
which that is false (NIL if none)". -/
def succ_spec_ascend (nodes : Array (Rbnode α β)) : Nat → Nat → Nat
  | 0, node => (nd nodes node).parent
  | fuel + 1, node =>
    let p := (nd nodes node).parent
    if p = 0 then 0
    else if node = (nd nodes p).child1 then succ_spec_ascend nodes fuel p
    else p

/-- Modelled from the spec (§4.2 Successor): "given a non-NIL node, if it
has a right child, return the leftmost node of that subtree; otherwise
ascend through parents while the current node is a right child". -/
def node_successor_spec (nodes : Array (Rbnode α β)) (fuel node : Nat) : Nat :=
  if (nd nodes node).child1 = 0 then succ_spec_ascend nodes fuel node
  else succ_spec_leftmost nodes fuel (nd nodes node).child1

theorem leftmost_eq_spec (nodes : Array (Rbnode α β)) :
    ∀ fuel i, leftmost nodes fuel i = succ_spec_leftmost nodes fuel i := by
  intro fuel
  induction fuel with
  | zero => intro i; rfl
  | succ fuel ih =>
    intro i
    simp only [leftmost, succ_spec_leftmost]
    by_cases h : (nd nodes i).child0 = 0
    · simp [h]
    · simp [h, ih]

theorem ascend_eq_spec (nodes : Array (Rbnode α β)) :
    ∀ fuel node, ascend nodes fuel node = succ_spec_ascend nodes fuel node := by
  intro fuel
  induction fuel with
  | zero => intro node; rfl
  | succ fuel ih =>
    intro node
    show (if (nd nodes node).parent ≠ 0 ∧ node = (nd nodes (nd nodes node).parent).child1
          then ascend nodes fuel (nd nodes node).parent
          else (nd nodes node).parent) =
         (if (nd nodes node).parent = 0 then 0
          else if node = (nd nodes (nd nodes node).parent).child1
          then succ_spec_ascend nodes fuel (nd nodes node).parent
          else (nd nodes node).parent)
    by_cases hp : (nd nodes node).parent = 0
    · rw [if_pos hp, if_neg (by simp [hp]), hp]
    · rw [if_neg hp]
      by_cases hr : node = (nd nodes (nd nodes node).parent).child1
      · rw [if_pos ⟨hp, hr⟩, if_pos hr, ih]
      · rw [if_neg (by simp [hr]), if_neg hr]

/-- C8: `node_successor` computes exactly the successor the spec
describes — the leftmost node of the right subtree when the right child
is non-NIL, otherwise the first ancestor reached by ascending while the
node is a right child (NIL if none, i.e. the node held the maximum). -/
theorem node_successor_meets_spec (nodes : Array (Rbnode α β))
    (fuel node : Nat) :
    node_successor nodes fuel node = node_successor_spec nodes fuel node := by
  simp only [node_successor, node_successor_spec]
  by_cases h : (nd nodes node).child1 = 0
  · simp [h, ascend_eq_spec]
  · simp [h, leftmost_eq_spec]

end Nifty

namespace Nifty

variable {α β : Type} [Inhabited α] [Inhabited β]

/-! ### C5: insert always adds an entry; failure only on allocation
failure, leaving the tree unchanged -/

/-- Case equation for `rbtree_insert_body` when the arena has room. -/
theorem insert_body_eq_nogrow (cmp : α → α → β → β → Int) (allocOk : Bool)
    (t : Rbtree α β) (key : α) (data : β)
    (h : t.next_free < t.num_nodes) :
    rbtree_insert_body cmp allocOk t key data =
      if t.next_free = 1 then ((1 : Int), (attach_leaf t 0 key data 0).2)
      else (1, insert_node cmp t key data) := by
  have hng : ¬ (t.next_free ≥ t.num_nodes) := by omega
  simp only [rbtree_insert_body, if_neg hng, if_pos h]

/-- Case equation for `rbtree_insert_body` when the arena is full and
must grow first. -/
theorem insert_body_eq_grow (cmp : α → α → β → β → Int) (allocOk : Bool)
    (t : Rbtree α β) (key : α) (data : β)
    (h : t.next_free ≥ t.num_nodes) :
    rbtree_insert_body cmp allocOk t key data =
      if (resize_nodes t allocOk (2 * t.num_nodes)).2.next_free <
         (resize_nodes t allocOk (2 * t.num_nodes)).2.num_nodes then
        if (resize_nodes t allocOk (2 * t.num_nodes)).2.next_free = 1 then
          ((1 : Int),
           (attach_leaf (resize_nodes t allocOk (2 * t.num_nodes)).2 0 key data 0).2)
        else (1, insert_node cmp (resize_nodes t allocOk (2 * t.num_nodes)).2 key data)
      else (0, (resize_nodes t allocOk (2 * t.num_nodes)).2) := by
  simp only [rbtree_insert_body, if_pos h]

/-- C5: `insert` always adds a new entry — the live count grows by one
regardless of the key, even when an equal-comparing key is present — and
fails only if the allocation performed to grow a full arena fails; in
that case it returns 0 and the tree is unchanged.  The hypotheses are the
code's own assertions (`next_free > 0`,
`next_free <= num_nodes || num_nodes == 0`, plus `next_free = 1` for the
never-allocated arena). -/
theorem insert_adds_fails_only_on_alloc (cmp : α → α → β → β → Int)
    (t : Rbtree α β) (key : α) (data : β)
    (h1 : 0 < t.next_free)
    (h2 : t.num_nodes = 0 → t.next_free = 1)
    (h3 : t.num_nodes ≠ 0 → t.next_free ≤ t.num_nodes) :
    (rbtree_insert_body cmp true t key data).1 = 1 ∧
    (rbtree_insert_body cmp true t key data).2.next_free = t.next_free + 1 ∧
    (t.next_free < t.num_nodes →
      ∀ allocOk, (rbtree_insert_body cmp allocOk t key data).1 = 1 ∧
        (rbtree_insert_body cmp allocOk t key data).2.next_free = t.next_free + 1) ∧
    (t.num_nodes ≤ t.next_free →
      rbtree_insert_body cmp false t key data = (0, t)) := by
  have hroom : t.next_free < t.num_nodes →
      ∀ allocOk, (rbtree_insert_body cmp allocOk t key data).1 = 1 ∧
        (rbtree_insert_body cmp allocOk t key data).2.next_free = t.next_free + 1 := by
    intro hlt allocOk
    rw [insert_body_eq_nogrow cmp allocOk t key data hlt]
    by_cases hone : t.next_free = 1
    · rw [if_pos hone]
      refine ⟨rfl, ?_⟩
      show (attach_leaf t 0 key data 0).2.next_free = t.next_free + 1
      exact attach_leaf_next_free t 0 key data 0
    · rw [if_neg hone]
      refine ⟨rfl, ?_⟩
      show (insert_node cmp t key data).next_free = t.next_free + 1
      exact insert_node_next_free cmp t key data
  have hfail : t.num_nodes ≤ t.next_free →
      rbtree_insert_body cmp false t key data = (0, t) := by
    intro hge
    rw [insert_body_eq_grow cmp false t key data hge, resize_nodes_false]
    have hns : ¬ (((0 : Int), t).2.next_free < ((0 : Int), t).2.num_nodes) := by
      show ¬ (t.next_free < t.num_nodes)
      omega
    rw [if_neg hns]
  have hsucc : (rbtree_insert_body cmp true t key data).1 = 1 ∧
      (rbtree_insert_body cmp true t key data).2.next_free = t.next_free + 1 := by
    by_cases hlt : t.next_free < t.num_nodes
    · exact hroom hlt true
    · have hge : t.next_free ≥ t.num_nodes := by omega
      rw [insert_body_eq_grow cmp true t key data hge]
      have e1 : (resize_nodes t true (2 * t.num_nodes)).2.next_free = t.next_free :=
        resize_nodes_next_free t true (2 * t.num_nodes)
      have e2 : (resize_nodes t true (2 * t.num_nodes)).2.num_nodes =
          if 2 * t.num_nodes < 2 then 2 else 2 * t.num_nodes :=
        resize_nodes_true_num_nodes t (2 * t.num_nodes)
      have hfits : (resize_nodes t true (2 * t.num_nodes)).2.next_free <
          (resize_nodes t true (2 * t.num_nodes)).2.num_nodes := by
        rw [e1, e2]
        by_cases h0 : t.num_nodes = 0
        · rw [if_pos (by omega)]
          omega
        · have := h3 h0
          rw [if_neg (by omega)]
          omega
      rw [if_pos hfits]
      by_cases hone : (resize_nodes t true (2 * t.num_nodes)).2.next_free = 1
      · rw [if_pos hone]
        refine ⟨rfl, ?_⟩
        show (attach_leaf (resize_nodes t true (2 * t.num_nodes)).2 0 key data 0).2.next_free =
          t.next_free + 1
        rw [attach_leaf_next_free, e1]
      · rw [if_neg hone]
        refine ⟨rfl, ?_⟩
        show (insert_node cmp (resize_nodes t true (2 * t.num_nodes)).2 key data).next_free =
          t.next_free + 1
        rw [insert_node_next_free, e1]
  exact ⟨hsucc.1, hsucc.2, hroom, hfail⟩

/-- Witness for `insert_adds_fails_only_on_alloc` on the concrete fresh
tree: with the allocation succeeding the insert succeeds and adds an
entry; with it failing, the insert returns 0 and the tree is unchanged. -/
theorem insert_adds_witness :
    ((rbtree_insert_body cmpInt true exFresh 5 50).1 = 1 ∧
     (rbtree_insert_body cmpInt true exFresh 5 50).2.next_free =
       exFresh.next_free + 1) ∧
    rbtree_insert_body cmpInt false exFresh 5 50 = (0, exFresh) := by
  have h := insert_adds_fails_only_on_alloc cmpInt exFresh 5 50
    (by decide) (fun _ => rfl) (by decide)
  exact ⟨⟨h.1, h.2.1⟩, h.2.2.2 (by decide)⟩

end Nifty

namespace Nifty

variable {α β : Type} [Inhabited α] [Inhabited β]

/-! ### C6: the shrink policy after a successful delete -/

/-- The result of deleting key 2 from `cexTree` (capacity 8, live count
2). -/
def cexDelete : Option (Int × Option Int × Rbtree Int Int) :=
  rbtree_delete_body cmpInt true cexTree 2 (some 0)

/-- The tree left behind by `cexDelete`. -/
def cexAfter : Rbtree Int Int := (cexDelete.getD (0, none, cexTree)).2.2

/-- C6 counterexample: after successfully deleting key 2 from `cexTree`
the live-node count `next_free - 1 = 1` is below a quarter of the
capacity (8 / 4 = 2) and half the capacity is at least `min_nodes`, yet
the capacity is not halved — the code tests `next_free < num_nodes / 4`,
not `next_free - 1 < num_nodes / 4`. -/
theorem delete_shrink_threshold_cex :
    cexDelete = some (1, some 20, cexAfter) ∧
    cexAfter.next_free - 1 < cexTree.num_nodes / 4 ∧
    cexTree.min_nodes ≤ cexTree.num_nodes / 2 ∧
    cexTree.num_nodes = 8 ∧
    cexAfter.num_nodes = 8 := by decide

/-- C6 (amended): after a successful delete the capacity is halved if
and only if `next_free` (one more than the live count) has fallen below a
quarter of the capacity while half the capacity is at least `min_nodes`
(assuming the halving reallocation succeeds); otherwise it is
unchanged. -/
theorem delete_shrinks_iff (cmp : α → α → β → β → Int) (t : Rbtree α β)
    (key : α) (dp dp2 : Option β) (t2 : Rbtree α β)
    (hn : 4 ≤ t.num_nodes)
    (h : rbtree_delete_body cmp true t key dp = some (1, dp2, t2)) :
    t2.num_nodes =
      if t2.next_free < t.num_nodes / 4 ∧ t.min_nodes ≤ t.num_nodes / 2
      then t.num_nodes / 2 else t.num_nodes := by
  cases hnod : t.nodes with
  | none =>
    rw [rbtree_delete_body.eq_def, hnod] at h
    exact Option.noConfusion h
  | some nodes =>
    simp only [rbtree_delete_body, hnod] at h
    by_cases hc : (find_loop cmp nodes key (dp.getD default) nodes.size
        (nd nodes 0).child0 (-1)).2 = 0
    · rw [if_pos hc] at h
      rw [Option.some.injEq, Prod.mk.injEq, Prod.mk.injEq] at h
      obtain ⟨-, -, hS⟩ := h
      rw [← hS]
      rw [delete_node_num_nodes, delete_node_min_nodes]
      by_cases hcond : (delete_node t (find_loop cmp nodes key (dp.getD default)
          nodes.size (nd nodes 0).child0 (-1)).1).next_free < t.num_nodes / 4 ∧
          t.min_nodes ≤ t.num_nodes / 2
      · rw [if_pos hcond, resize_nodes_next_free, resize_nodes_true_num_nodes,
            if_pos hcond]
        rw [if_neg (by omega)]
      · rw [if_neg hcond, if_neg hcond, delete_node_num_nodes]
    · rw [if_neg hc] at h
      simp at h

/-- The result of deleting key 1 from `cexTree2` (capacity 8, live count
1): the shrink condition holds and the capacity halves to 4. -/
def shrinkDelete : Option (Int × Option Int × Rbtree Int Int) :=
  rbtree_delete_body cmpInt true cexTree2 1 (some 0)

/-- The tree left behind by `shrinkDelete`. -/
def shrinkAfter : Rbtree Int Int := (shrinkDelete.getD (0, none, cexTree2)).2.2

set_option maxHeartbeats 1000000 in
/-- Witness for `delete_shrinks_iff` on the concrete `cexTree2`. -/
theorem delete_shrinks_iff_witness :
    shrinkAfter.num_nodes =
      if shrinkAfter.next_free < cexTree2.num_nodes / 4 ∧
         cexTree2.min_nodes ≤ cexTree2.num_nodes / 2
      then cexTree2.num_nodes / 2 else cexTree2.num_nodes :=
  delete_shrinks_iff cmpInt cexTree2 1 (some 0) (some 10) shrinkAfter
    (by decide) rfl

end Nifty

namespace Nifty

variable {α β : Type} [Inhabited α] [Inhabited β]

/-! ### Abstract shape of the pointer structure

`BT` is the tree of arena indices reachable from a root index;
`Extracts nodes i t` says the child pointers below `i` describe the
finite tree `t` (in particular they are acyclic). -/

/-- Binary tree of arena indices. -/
inductive BT where
  | leaf : BT
  | node : BT → Nat → BT → BT
deriving Repr, DecidableEq

/-- In-order list of the indices of a `BT`. -/
def BT.inorder : BT → List Nat
  | .leaf => []
  | .node l i r => l.inorder ++ i :: r.inorder

/-- Height of a `BT`. -/
def BT.height : BT → Nat
  | .leaf => 0
  | .node l _ r => max l.height r.height + 1

/-- Index at the root of a `BT` (0 for the empty tree). -/
def BT.rootIdx : BT → Nat
  | .leaf => 0
  | .node _ i _ => i

/-- The child pointers below index `i` describe the tree `t`. -/
inductive Extracts (nodes : Array (Rbnode α β)) : Nat → BT → Prop where
  | nil : Extracts nodes 0 .leaf
  | node {i : Nat} {l r : BT} :
      i ≠ 0 →
      Extracts nodes (nd nodes i).child0 l →
      Extracts nodes (nd nodes i).child1 r →
      Extracts nodes i (.node l i r)

/-- Executable extraction on fuel; `none` when the fuel runs out. -/
def toBT (nodes : Array (Rbnode α β)) : Nat → Nat → Option BT
  | _, 0 => some .leaf
  | 0, _ + 1 => none
  | fuel + 1, i + 1 =>
    match toBT nodes fuel (nd nodes (i + 1)).child0,
          toBT nodes fuel (nd nodes (i + 1)).child1 with
    | some l, some r => some (.node l (i + 1) r)
    | _, _ => none

theorem toBT_sound (nodes : Array (Rbnode α β)) :
    ∀ fuel i t, toBT nodes fuel i = some t → Extracts nodes i t := by
  intro fuel
  induction fuel with
  | zero =>
    intro i t h
    cases i with
    | zero => cases h; exact Extracts.nil
    | succ j => cases h
  | succ fuel ih =>
    intro i t h
    cases i with
    | zero => cases h; exact Extracts.nil
    | succ j =>
      revert h
      show (match toBT nodes fuel (nd nodes (j + 1)).child0,
                  toBT nodes fuel (nd nodes (j + 1)).child1 with
            | some l, some r => some (BT.node l (j + 1) r)
            | _, _ => none) = some t → Extracts nodes (j + 1) t
      cases hl : toBT nodes fuel (nd nodes (j + 1)).child0 with
      | none => intro h; cases h
      | some l =>
        cases hr : toBT nodes fuel (nd nodes (j + 1)).child1 with
        | none => intro h; cases h
        | some r =>
          intro h
          cases h
          exact Extracts.node (Nat.succ_ne_zero j) (ih _ _ hl) (ih _ _ hr)

theorem Extracts.rootIdx_eq {nodes : Array (Rbnode α β)} {i : Nat} {t : BT}
    (h : Extracts nodes i t) : t.rootIdx = i := by
  cases h with
  | nil => rfl
  | node hne hl hr => rfl

theorem Extracts.deterministic {nodes : Array (Rbnode α β)} {i : Nat} {t : BT}
    (h : Extracts nodes i t) :
    ∀ {u : BT}, Extracts nodes i u → t = u := by
  induction h with
  | nil =>
    intro u hu
    cases hu with
    | nil => rfl
    | node hne _ _ => exact absurd rfl hne
  | node hne hl hr ihl ihr =>
    intro u hu
    cases hu with
    | nil => exact absurd rfl hne
    | node hne2 hl2 hr2 => rw [ihl hl2, ihr hr2]

theorem Extracts.toBT_eq {nodes : Array (Rbnode α β)} {i : Nat} {t : BT}
    (h : Extracts nodes i t) :
    ∀ fuel, t.height ≤ fuel → toBT nodes fuel i = some t := by
  induction h with
  | nil =>
    intro fuel hf
    cases fuel with
    | zero => rfl
    | succ f => rfl
  | node hne hl hr ihl ihr =>
    intro fuel hf
    rename_i i l r
    have hht : BT.height (.node l i r) = max l.height r.height + 1 := rfl
    cases fuel with
    | zero => omega
    | succ f =>
      obtain ⟨j, hj⟩ : ∃ j, i = j + 1 := ⟨i - 1, by omega⟩
      subst hj
      have hlf : l.height ≤ f := by omega
      have hrf : r.height ≤ f := by omega
      show (match toBT nodes f (nd nodes (j + 1)).child0,
                  toBT nodes f (nd nodes (j + 1)).child1 with
            | some a, some b => some (BT.node a (j + 1) b)
            | _, _ => none) = some (BT.node l (j + 1) r)
      rw [ihl f hlf, ihr f hrf]

/-- The height is at most the number of nodes. -/
theorem BT.height_le_length_inorder : ∀ t : BT, t.height ≤ t.inorder.length := by
  intro t
  induction t with
  | leaf => exact Nat.le_refl 0
  | node l i r ihl ihr =>
    simp only [BT.height, BT.inorder, List.length_append, List.length_cons]
    omega

end Nifty

namespace Nifty

variable {α β : Type} [Inhabited α] [Inhabited β]

/-! ### The comparator protocol

A usable (possibly duplex) comparator must order key/data pairs
consistently: the sign flips when the arguments are swapped, and
non-strict comparison is transitive.  Both ready-made comparators and
`strcmp`-style comparators satisfy these laws. -/

/-- Ordering laws for a (possibly duplex) comparison function. -/
structure CmpLaws (cmp : α → α → β → β → Int) : Prop where
  asym : ∀ a da b db, cmp a b da db < 0 ↔ cmp b a db da > 0
  trans_le : ∀ a da b db c dc,
    cmp a b da db ≤ 0 → cmp b c db dc ≤ 0 → cmp a c da dc ≤ 0

theorem CmpLaws.eq_symm {cmp : α → α → β → β → Int} (laws : CmpLaws cmp)
    (a : α) (da : β) (b : α) (db : β)
    (h : cmp a b da db = 0) : cmp b a db da = 0 := by
  have h1 := laws.asym a da b db
  have h2 := laws.asym b db a da
  omega

theorem CmpLaws.lt_of_lt_of_le {cmp : α → α → β → β → Int}
    (laws : CmpLaws cmp) (a : α) (da : β) (b : α) (db : β) (c : α) (dc : β)
    (h1 : cmp a b da db < 0) (h2 : cmp b c db dc ≤ 0) :
    cmp a c da dc < 0 := by
  have hle : cmp a c da dc ≤ 0 := laws.trans_le a da b db c dc (by omega) h2
  by_contra hnot
  have heq : cmp a c da dc = 0 := by omega
  have hca : cmp c a dc da = 0 := laws.eq_symm a da c dc heq
  have hba : cmp b a db da ≤ 0 := laws.trans_le b db c dc a da h2 (by omega)
  have := (laws.asym a da b db).mp h1
  omega

theorem cmpInt_laws : CmpLaws (α := Int) (β := Int) cmpInt := by
  constructor
  · intro a da b db
    simp only [cmpInt]
    split_ifs <;> omega
  · intro a da b db c dc
    simp only [cmpInt]
    split_ifs <;> omega

/-! ### Keys of a subtree and sortedness -/

/-- Key/data pairs of a `BT`, in order. -/
def keysBT (nodes : Array (Rbnode α β)) (t : BT) : List (α × β) :=
  t.inorder.map fun i => ((nd nodes i).key, (nd nodes i).data)

/-- Non-decreasing (pairwise, per the comparator) list of key/data
pairs. -/
def sortedKV (cmp : α → α → β → β → Int) (l : List (α × β)) : Prop :=
  l.Pairwise fun a b => cmp a.1 b.1 a.2 b.2 ≤ 0

/-! ### The lookup descent against the abstract tree -/

/-- `find_loop` replayed on the extracted tree. -/
def searchBT (cmp : α → α → β → β → Int) (nodes : Array (Rbnode α β))
    (key : α) (token : β) : BT → Int → Nat × Int
  | .leaf, comp => (0, comp)
  | .node l i r, comp =>
    let c := cmp key (nd nodes i).key token (nd nodes i).data
    if c ≠ 0 then
      if c < 0 then searchBT cmp nodes key token l c
      else searchBT cmp nodes key token r c
    else (i, c)

/-- On an extracted tree, `find_loop` computes `searchBT` whenever the
fuel covers the height. -/
theorem find_loop_extract (cmp : α → α → β → β → Int)
    (nodes : Array (Rbnode α β)) (key : α) (token : β) {i : Nat} {t : BT}
    (hex : Extracts nodes i t) :
    ∀ fuel comp, t.height ≤ fuel →
      find_loop cmp nodes key token fuel i comp =
        searchBT cmp nodes key token t comp := by
  induction hex with
  | nil =>
    intro fuel comp hf
    cases fuel with
    | zero => rfl
    | succ f => simp [find_loop, searchBT]
  | node hne hl hr ihl ihr =>
    intro fuel comp hf
    rename_i i l r
    have hht : BT.height (.node l i r) = max l.height r.height + 1 := rfl
    cases fuel with
    | zero => omega
    | succ f =>
      have hstep : find_loop cmp nodes key token (f + 1) i comp =
          (if i ≠ 0 then
            (if cmp key (nd nodes i).key token (nd nodes i).data ≠ 0 then
              find_loop cmp nodes key token f
                (if cmp key (nd nodes i).key token (nd nodes i).data < 0
                 then (nd nodes i).child0 else (nd nodes i).child1)
                (cmp key (nd nodes i).key token (nd nodes i).data)
            else (i, cmp key (nd nodes i).key token (nd nodes i).data))
          else (i, comp)) := rfl
      have hsb : searchBT cmp nodes key token (.node l i r) comp =
          (if cmp key (nd nodes i).key token (nd nodes i).data ≠ 0 then
            (if cmp key (nd nodes i).key token (nd nodes i).data < 0
             then searchBT cmp nodes key token l
                    (cmp key (nd nodes i).key token (nd nodes i).data)
             else searchBT cmp nodes key token r
                    (cmp key (nd nodes i).key token (nd nodes i).data))
          else (i, cmp key (nd nodes i).key token (nd nodes i).data)) := rfl
      rw [hstep, hsb, if_pos hne]
      by_cases hc : cmp key (nd nodes i).key token (nd nodes i).data ≠ 0
      · rw [if_pos hc, if_pos hc]
        by_cases hlt : cmp key (nd nodes i).key token (nd nodes i).data < 0
        · rw [if_pos hlt, if_pos hlt, ihl f _ (by omega)]
        · rw [if_neg hlt, if_neg hlt, ihr f _ (by omega)]
      · rw [if_neg hc, if_neg hc]

/-- On a sorted tree, the descent finds an equal-comparing node exactly
when one exists: if it stops with comparison 0 the stopping node is in
the tree and compares equal to the key; if not, no node of the tree
compares equal. -/
theorem searchBT_finds (cmp : α → α → β → β → Int) (laws : CmpLaws cmp)
    (nodes : Array (Rbnode α β)) (key : α) (token : β) :
    ∀ (t : BT), sortedKV cmp (keysBT nodes t) →
      ∀ comp, comp ≠ 0 →
      ((searchBT cmp nodes key token t comp).2 = 0 →
          (searchBT cmp nodes key token t comp).1 ∈ t.inorder ∧
          cmp key (nd nodes (searchBT cmp nodes key token t comp).1).key token
            (nd nodes (searchBT cmp nodes key token t comp).1).data = 0) ∧
      ((searchBT cmp nodes key token t comp).2 ≠ 0 →
          ∀ j ∈ t.inorder, cmp key (nd nodes j).key token (nd nodes j).data ≠ 0) := by
  intro t
  induction t with
  | leaf =>
    intro hs comp hcomp
    refine ⟨fun h0 => absurd h0 hcomp, fun _ j hj => absurd hj (by simp [BT.inorder])⟩
  | node l i r ihl ihr =>
    intro hs comp hcomp
    have hkeys : keysBT nodes (.node l i r) =
        keysBT nodes l ++ ((nd nodes i).key, (nd nodes i).data) :: keysBT nodes r := by
      simp [keysBT, BT.inorder]
    rw [hkeys] at hs
    rw [sortedKV, List.pairwise_append] at hs
    obtain ⟨hsl, hsir, hcross⟩ := hs
    rw [List.pairwise_cons] at hsir
    obtain ⟨hir, hsr⟩ := hsir
    have hil : ∀ x ∈ keysBT nodes l,
        cmp x.1 (nd nodes i).key x.2 (nd nodes i).data ≤ 0 := by
      intro x hx
      exact hcross x hx ((nd nodes i).key, (nd nodes i).data) (List.mem_cons_self _ _)
    have hstep : searchBT cmp nodes key token (.node l i r) comp =
        (if cmp key (nd nodes i).key token (nd nodes i).data ≠ 0 then
          (if cmp key (nd nodes i).key token (nd nodes i).data < 0
           then searchBT cmp nodes key token l
                  (cmp key (nd nodes i).key token (nd nodes i).data)
           else searchBT cmp nodes key token r
                  (cmp key (nd nodes i).key token (nd nodes i).data))
        else (i, cmp key (nd nodes i).key token (nd nodes i).data)) := rfl
    by_cases hc : cmp key (nd nodes i).key token (nd nodes i).data ≠ 0
    · rw [hstep, if_pos hc]
      by_cases hlt : cmp key (nd nodes i).key token (nd nodes i).data < 0
      · rw [if_pos hlt]
        have ih := ihl hsl (cmp key (nd nodes i).key token (nd nodes i).data) hc
        refine ⟨fun h0 => ?_, fun hnz j hj => ?_⟩
        · obtain ⟨hmem, heq⟩ := ih.1 h0
          exact ⟨by simp [BT.inorder, hmem], heq⟩
        · simp only [BT.inorder, List.mem_append, List.mem_cons] at hj
          rcases hj with hj | hj | hj
          · exact ih.2 hnz j hj
          · subst hj; exact hc
          · -- j is in the right subtree: i ≤ j, so key ≡ j would give
            -- i ≤ key, contradicting key < i
            intro heqj
            have hRij : cmp (nd nodes i).key (nd nodes j).key
                (nd nodes i).data (nd nodes j).data ≤ 0 :=
              hir ((nd nodes j).key, (nd nodes j).data)
                (List.mem_map_of_mem _ hj)
            have hjk : cmp (nd nodes j).key key (nd nodes j).data token = 0 :=
              laws.eq_symm key token (nd nodes j).key (nd nodes j).data heqj
            have hik : cmp (nd nodes i).key key (nd nodes i).data token ≤ 0 :=
              laws.trans_le (nd nodes i).key (nd nodes i).data
                (nd nodes j).key (nd nodes j).data key token hRij (by omega)
            have := (laws.asym key token (nd nodes i).key (nd nodes i).data).mp hlt
            omega
      · rw [if_neg hlt]
        have ih := ihr hsr (cmp key (nd nodes i).key token (nd nodes i).data) hc
        refine ⟨fun h0 => ?_, fun hnz j hj => ?_⟩
        · obtain ⟨hmem, heq⟩ := ih.1 h0
          exact ⟨by simp [BT.inorder, hmem], heq⟩
        · simp only [BT.inorder, List.mem_append, List.mem_cons] at hj
          rcases hj with hj | hj | hj
          · -- j is in the left subtree: j ≤ i, so key ≡ j would give
            -- key ≤ i, contradicting i < key
            intro heqj
            have hRji : cmp (nd nodes j).key (nd nodes i).key
                (nd nodes j).data (nd nodes i).data ≤ 0 :=
              hil ((nd nodes j).key, (nd nodes j).data)
                (List.mem_map_of_mem _ hj)
            have hkj : cmp key (nd nodes j).key token (nd nodes j).data ≤ 0 := by
              omega
            have hki : cmp key (nd nodes i).key token (nd nodes i).data ≤ 0 :=
              laws.trans_le key token (nd nodes j).key (nd nodes j).data
                (nd nodes i).key (nd nodes i).data hkj hRji
            omega
          · subst hj; exact hc
          · exact ih.2 hnz j hj
    · rw [hstep, if_neg hc]
      push_neg at hc
      refine ⟨fun _ => ⟨by simp [BT.inorder], hc⟩, fun hnz => absurd hc hnz⟩

/-! ### Well-formedness of an allocated arena -/

/-- Parent pointers agree with the extracted shape: each node's stored
parent is its tree parent (`p` for the root). -/
def parentOkBT (nodes : Array (Rbnode α β)) : BT → Nat → Bool
  | .leaf, _ => true
  | .node l i r, p =>
    decide ((nd nodes i).parent = p) && parentOkBT nodes l i && parentOkBT nodes r i

/-- Structural well-formedness of a tree whose arena is allocated: `arr`
is the arena and `T` the shape extracted from the root.  These are the
invariants the code itself relies on: the live slots `[1, next_free)`
are exactly the tree nodes, each occurring once; parent pointers agree
with the shape; the sentinel is black with no right child; and the
cursor is live or NIL. -/
structure WfArena (tree : Rbtree α β) (arr : Array (Rbnode α β)) (T : BT) :
    Prop where
  harr : tree.nodes = some arr
  hsize : arr.size = tree.num_nodes
  hnf : 1 ≤ tree.next_free
  hcap : tree.next_free ≤ tree.num_nodes
  hroot : Extracts arr (nd arr 0).child0 T
  hperm : T.inorder.Perm (List.range' 1 (tree.next_free - 1))
  hparent : parentOkBT arr T 0 = true
  hcur : tree.current < tree.next_free
  hsent1 : (nd arr 0).child1 = 0
  hsentred : (nd arr 0).red = false
  hsentpar : T = BT.leaf → (nd arr 0).parent = 0

theorem WfArena.nodup {tree : Rbtree α β} {arr : Array (Rbnode α β)}
    {T : BT} (wf : WfArena tree arr T) : T.inorder.Nodup :=
  wf.hperm.nodup_iff.mpr (List.nodup_range' _ _)

theorem WfArena.mem_iff {tree : Rbtree α β} {arr : Array (Rbnode α β)}
    {T : BT} (wf : WfArena tree arr T) (j : Nat) :
    j ∈ T.inorder ↔ 1 ≤ j ∧ j < tree.next_free := by
  rw [wf.hperm.mem_iff, List.mem_range'_1]
  have := wf.hnf
  omega

theorem WfArena.length_inorder {tree : Rbtree α β} {arr : Array (Rbnode α β)}
    {T : BT} (wf : WfArena tree arr T) :
    T.inorder.length = tree.next_free - 1 := by
  rw [wf.hperm.length_eq, List.length_range']

theorem WfArena.height_le {tree : Rbtree α β} {arr : Array (Rbnode α β)}
    {T : BT} (wf : WfArena tree arr T) : T.height ≤ arr.size := by
  have h1 := BT.height_le_length_inorder T
  have h2 := wf.length_inorder
  have h3 := wf.hnf
  have h4 := wf.hcap
  have h5 := wf.hsize
  omega

/-! ### C3: the tri-state replace -/

/-- C3 (amended to trees whose arena has been allocated and is valid):
`replace` returns 2 exactly when a node comparing equal to the key
exists — overwriting that node's key/value in place and handing back its
previous value; when no equal-comparing node exists it inserts a new
node and returns 1 (growing the arena if needed); it returns 0 only when
the growth allocation fails, leaving the tree unchanged. -/
theorem replace_tristate (cmp : α → α → β → β → Int) (laws : CmpLaws cmp)
    (t : Rbtree α β) (arr : Array (Rbnode α β)) (T : BT)
    (wf : WfArena t arr T) (hs : sortedKV cmp (keysBT arr T))
    (key : α) (data : β) :
    ((∃ j ∈ T.inorder, cmp key (nd arr j).key data (nd arr j).data = 0) →
      ∀ allocOk, ∃ j, j ∈ T.inorder ∧
        cmp key (nd arr j).key data (nd arr j).data = 0 ∧
        rbtree_replace_body cmp allocOk t key data =
          some (2, (nd arr j).data,
                { t with nodes := some (setKeyData arr j key data) })) ∧
    ((∀ j ∈ T.inorder, cmp key (nd arr j).key data (nd arr j).data ≠ 0) →
      (∃ t2, rbtree_replace_body cmp true t key data = some (1, data, t2) ∧
             t2.next_free = t.next_free + 1) ∧
      (∀ allocOk r d2 t2,
        rbtree_replace_body cmp allocOk t key data = some (r, d2, t2) →
        r = 0 → allocOk = false ∧ d2 = data ∧ t2 = t)) := by
  have hfuel : T.height ≤ arr.size := wf.height_le
  have hfl : ∀ comp, find_loop cmp arr key data arr.size (nd arr 0).child0 comp =
      searchBT cmp arr key data T comp := fun comp =>
    find_loop_extract cmp arr key data wf.hroot arr.size comp hfuel
  have hfinds := searchBT_finds cmp laws arr key data T hs (-1) (by omega)
  constructor
  · intro hex allocOk
    have h20 : (searchBT cmp arr key data T (-1)).2 = 0 := by
      by_contra hne
      obtain ⟨j, hj, hje⟩ := hex
      exact (hfinds.2 hne j hj) hje
    obtain ⟨hmem, heq⟩ := hfinds.1 h20
    refine ⟨(searchBT cmp arr key data T (-1)).1, hmem, heq, ?_⟩
    simp only [rbtree_replace_body, wf.harr]
    rw [hfl, if_pos h20]
  · intro hnone
    have h2ne : (searchBT cmp arr key data T (-1)).2 ≠ 0 := by
      intro h0
      obtain ⟨hmem, heq⟩ := hfinds.1 h0
      exact hnone _ hmem heq
    have hbodyA : ∀ allocOk : Bool, t.next_free < t.num_nodes →
        rbtree_replace_body cmp allocOk t key data =
          (if t.next_free = 1 then
            some ((1 : Int), data, (attach_leaf t 0 key data 0).2)
          else some (1, data, insert_node cmp t key data)) := by
      intro allocOk hlt
      have hng : ¬ (t.next_free ≥ t.num_nodes) := by omega
      simp only [rbtree_replace_body, wf.harr]
      rw [hfl, if_neg h2ne, if_neg hng, if_pos hlt]
    have hbodyB : ∀ allocOk : Bool, t.next_free ≥ t.num_nodes →
        rbtree_replace_body cmp allocOk t key data =
          (if (resize_nodes t allocOk (2 * t.num_nodes)).2.next_free <
              (resize_nodes t allocOk (2 * t.num_nodes)).2.num_nodes then
            if (resize_nodes t allocOk (2 * t.num_nodes)).2.next_free = 1 then
              some ((1 : Int), data,
                (attach_leaf (resize_nodes t allocOk (2 * t.num_nodes)).2
                  0 key data 0).2)
            else some (1, data,
              insert_node cmp (resize_nodes t allocOk (2 * t.num_nodes)).2 key data)
          else some (0, data, (resize_nodes t allocOk (2 * t.num_nodes)).2)) := by
      intro allocOk hge
      simp only [rbtree_replace_body, wf.harr]
      rw [hfl, if_neg h2ne, if_pos hge]
    have hnum1 : 1 ≤ t.num_nodes := le_trans wf.hnf wf.hcap
    constructor
    · by_cases hlt : t.next_free < t.num_nodes
      · rw [hbodyA true hlt]
        by_cases hone : t.next_free = 1
        · rw [if_pos hone]
          exact ⟨(attach_leaf t 0 key data 0).2, rfl,
                 attach_leaf_next_free t 0 key data 0⟩
        · rw [if_neg hone]
          exact ⟨insert_node cmp t key data, rfl,
                 insert_node_next_free cmp t key data⟩
      · have hge : t.next_free ≥ t.num_nodes := by omega
        rw [hbodyB true hge]
        have e1 : (resize_nodes t true (2 * t.num_nodes)).2.next_free = t.next_free :=
          resize_nodes_next_free t true (2 * t.num_nodes)
        have e2 : (resize_nodes t true (2 * t.num_nodes)).2.num_nodes =
            if 2 * t.num_nodes < 2 then 2 else 2 * t.num_nodes :=
          resize_nodes_true_num_nodes t (2 * t.num_nodes)
        have hfits : (resize_nodes t true (2 * t.num_nodes)).2.next_free <
            (resize_nodes t true (2 * t.num_nodes)).2.num_nodes := by
          rw [e1, e2]
          have := wf.hcap
          rw [if_neg (by omega)]
          omega
        rw [if_pos hfits]
        by_cases hone : (resize_nodes t true (2 * t.num_nodes)).2.next_free = 1
        · rw [if_pos hone]
          refine ⟨(attach_leaf (resize_nodes t true (2 * t.num_nodes)).2 0 key data 0).2,
                  rfl, ?_⟩
          rw [attach_leaf_next_free, e1]
        · rw [if_neg hone]
          refine ⟨insert_node cmp (resize_nodes t true (2 * t.num_nodes)).2 key data,
                  rfl, ?_⟩
          rw [insert_node_next_free, e1]
    · intro allocOk r d2 t2 heq hr0
      subst hr0
      by_cases hlt : t.next_free < t.num_nodes
      · rw [hbodyA allocOk hlt] at heq
        by_cases hone : t.next_free = 1
        · rw [if_pos hone] at heq
          simp at heq
        · rw [if_neg hone] at heq
          simp at heq
      · have hge : t.next_free ≥ t.num_nodes := by omega
        cases allocOk with
        | false =>
          rw [hbodyB false hge] at heq
          simp only [resize_nodes_false] at heq
          have hc : ¬ (((0 : Int), t).2.next_free < ((0 : Int), t).2.num_nodes) := by
            show ¬ (t.next_free < t.num_nodes)
            omega
          rw [if_neg hc] at heq
          rw [Option.some.injEq, Prod.mk.injEq, Prod.mk.injEq] at heq
          exact ⟨rfl, heq.2.1.symm, heq.2.2.symm⟩
        | true =>
          rw [hbodyB true hge] at heq
          have e1 : (resize_nodes t true (2 * t.num_nodes)).2.next_free = t.next_free :=
            resize_nodes_next_free t true (2 * t.num_nodes)
          have e2 : (resize_nodes t true (2 * t.num_nodes)).2.num_nodes =
              if 2 * t.num_nodes < 2 then 2 else 2 * t.num_nodes :=
            resize_nodes_true_num_nodes t (2 * t.num_nodes)
          have hfits : (resize_nodes t true (2 * t.num_nodes)).2.next_free <
              (resize_nodes t true (2 * t.num_nodes)).2.num_nodes := by
            rw [e1, e2]
            have := wf.hcap
            rw [if_neg (by omega)]
            omega
          rw [if_pos hfits] at heq
          by_cases hone : (resize_nodes t true (2 * t.num_nodes)).2.next_free = 1
          · rw [if_pos hone] at heq
            simp at heq
          · rw [if_neg hone] at heq
            simp at heq

end Nifty

namespace Nifty

/-- C3 counterexample: on the freshly created zero-capacity tree — a
legitimate tree per the spec's lifecycle — `replace` reads `ROOT` out of
the NULL arena before reaching any of its three outcomes: undefined
behavior, so the claimed tri-state contract does not hold for *every*
tree. -/
theorem replace_fresh_ub_cex :
    rbtree_create 0 true true = some exFresh ∧
    exFresh.nodes = none ∧
    rbtree_replace cmpInt true (some exFresh) 7 70 = none :=
  ⟨rfl, rfl, rfl⟩

/-- The arena of `cexTree` (root 1 holding key 1, right child 2 holding
key 2). -/
def cexArr : Array (Rbnode Int Int) :=
  #[⟨0, 0, 1, 0, 0, false⟩,
    ⟨1, 10, 0, 2, 0, false⟩,
    ⟨2, 20, 0, 0, 1, true⟩,
    ⟨0, 0, 0, 0, 0, false⟩,
    ⟨0, 0, 0, 0, 0, false⟩,
    ⟨0, 0, 0, 0, 0, false⟩,
    ⟨0, 0, 0, 0, 0, false⟩,
    ⟨0, 0, 0, 0, 0, false⟩]

/-- The shape of `cexTree`. -/
def cexT : BT := .node .leaf 1 (.node .leaf 2 .leaf)

theorem cexTree_wf : WfArena cexTree cexArr cexT := by
  refine ⟨rfl, rfl, by decide, by decide, ?_, by decide, by decide,
          by decide, rfl, rfl, fun h => by cases h⟩
  exact toBT_sound cexArr 8 ((nd cexArr 0).child0) cexT rfl

/-- Witness for `replace_tristate` on `cexTree` with key 2 (present,
value 20). -/
theorem replace_tristate_witness :
    ((∃ j ∈ cexT.inorder, cmpInt 2 (nd cexArr j).key 99 (nd cexArr j).data = 0) →
      ∀ allocOk, ∃ j, j ∈ cexT.inorder ∧
        cmpInt 2 (nd cexArr j).key 99 (nd cexArr j).data = 0 ∧
        rbtree_replace_body cmpInt allocOk cexTree 2 99 =
          some (2, (nd cexArr j).data,
                { cexTree with nodes := some (setKeyData cexArr j 2 99) })) ∧
    ((∀ j ∈ cexT.inorder, cmpInt 2 (nd cexArr j).key 99 (nd cexArr j).data ≠ 0) →
      (∃ t2, rbtree_replace_body cmpInt true cexTree 2 99 = some (1, 99, t2) ∧
             t2.next_free = cexTree.next_free + 1) ∧
      (∀ allocOk r d2 t2,
        rbtree_replace_body cmpInt allocOk cexTree 2 99 = some (r, d2, t2) →
        r = 0 → allocOk = false ∧ d2 = 99 ∧ t2 = cexTree)) :=
  replace_tristate cmpInt cmpInt_laws cexTree cexArr cexT cexTree_wf
    (by unfold sortedKV; decide) 2 99

/-! ### Reading written arenas -/

variable {α β : Type} [Inhabited α] [Inhabited β]

theorem size_wr (arr : Array (Rbnode α β)) (i : Nat) (v : Rbnode α β) :
    (wr arr i v).size = arr.size :=
  Array.size_setD arr i v

theorem nd_wr (arr : Array (Rbnode α β)) (i : Nat) (v : Rbnode α β) (j : Nat) :
    nd (wr arr i v) j = if j = i ∧ i < arr.size then v else nd arr j := by
  show (arr.setD i v).getD j default = _
  unfold Array.setD
  split
  · rename_i h
    by_cases hj : j = i
    · subst hj
      rw [if_pos ⟨rfl, h⟩]
      rw [Array.getD, dif_pos (by simp [h])]
      simp [Array.get_set_eq]
    · rw [if_neg (by tauto)]
      show _ = nd arr j
      rw [Array.getD, nd, Array.getD]
      by_cases hjs : j < arr.size
      · rw [dif_pos (by simpa using hjs), dif_pos hjs]
        exact Array.get_set_ne arr ⟨i, h⟩ (j := j) v hjs
          (by simpa using fun hh => hj hh.symm)
      · rw [dif_neg (by simpa using hjs), dif_neg hjs]
  · rename_i h
    rw [if_neg (by tauto)]
    rfl

theorem size_setChild (arr : Array (Rbnode α β)) (i w c : Nat) :
    (setChild arr i w c).size = arr.size := by
  unfold setChild
  split <;> exact size_wr ..

theorem size_setParent (arr : Array (Rbnode α β)) (i p : Nat) :
    (setParent arr i p).size = arr.size := size_wr ..

theorem size_setRed (arr : Array (Rbnode α β)) (i : Nat) (b : Bool) :
    (setRed arr i b).size = arr.size := size_wr ..

theorem size_setKeyData (arr : Array (Rbnode α β)) (i : Nat) (k : α) (d : β) :
    (setKeyData arr i k d).size = arr.size := size_wr ..

theorem size_rotate (arr : Array (Rbnode α β)) (node s gs : Nat) :
    (rotate arr node s gs).size = arr.size := by
  unfold rotate
  split <;> rw [size_setParent] <;> split <;>
    simp only [size_setChild, size_setParent]

theorem nd_setParent (arr : Array (Rbnode α β)) (i p j : Nat) :
    nd (setParent arr i p) j =
      if j = i ∧ i < arr.size then { nd arr i with parent := p } else nd arr j := by
  unfold setParent
  exact nd_wr ..

theorem nd_setRed (arr : Array (Rbnode α β)) (i : Nat) (b : Bool) (j : Nat) :
    nd (setRed arr i b) j =
      if j = i ∧ i < arr.size then { nd arr i with red := b } else nd arr j := by
  unfold setRed
  exact nd_wr ..

theorem nd_setKeyData (arr : Array (Rbnode α β)) (i : Nat) (k : α) (d : β)
    (j : Nat) :
    nd (setKeyData arr i k d) j =
      if j = i ∧ i < arr.size then { nd arr i with key := k, data := d }
      else nd arr j := by
  unfold setKeyData
  exact nd_wr ..

theorem nd_setChild (arr : Array (Rbnode α β)) (i w c j : Nat) :
    nd (setChild arr i w c) j =
      if j = i ∧ i < arr.size then
        (if w = 0 then { nd arr i with child0 := c }
         else { nd arr i with child1 := c })
      else nd arr j := by
  unfold setChild
  split <;> rw [nd_wr] <;> split <;> rfl

/-- Writes to parent, red, key or data fields leave every slot's child
pointers unchanged; `setChild` and key/data writes leave every slot's
key/data unchanged, and so on.  We record them per field. -/
theorem childs_setParent (arr : Array (Rbnode α β)) (i p j : Nat) :
    (nd (setParent arr i p) j).child0 = (nd arr j).child0 ∧
    (nd (setParent arr i p) j).child1 = (nd arr j).child1 := by
  rw [nd_setParent]; split <;> simp_all

theorem childs_setRed (arr : Array (Rbnode α β)) (i : Nat) (b : Bool) (j : Nat) :
    (nd (setRed arr i b) j).child0 = (nd arr j).child0 ∧
    (nd (setRed arr i b) j).child1 = (nd arr j).child1 := by
  rw [nd_setRed]; split <;> simp_all

theorem childs_setKeyData (arr : Array (Rbnode α β)) (i : Nat) (k : α) (d : β)
    (j : Nat) :
    (nd (setKeyData arr i k d) j).child0 = (nd arr j).child0 ∧
    (nd (setKeyData arr i k d) j).child1 = (nd arr j).child1 := by
  rw [nd_setKeyData]; split <;> simp_all

theorem kd_setParent (arr : Array (Rbnode α β)) (i p j : Nat) :
    (nd (setParent arr i p) j).key = (nd arr j).key ∧
    (nd (setParent arr i p) j).data = (nd arr j).data := by
  rw [nd_setParent]; split <;> simp_all

theorem kd_setRed (arr : Array (Rbnode α β)) (i : Nat) (b : Bool) (j : Nat) :
    (nd (setRed arr i b) j).key = (nd arr j).key ∧
    (nd (setRed arr i b) j).data = (nd arr j).data := by
  rw [nd_setRed]; split <;> simp_all

theorem kd_setChild (arr : Array (Rbnode α β)) (i w c j : Nat) :
    (nd (setChild arr i w c) j).key = (nd arr j).key ∧
    (nd (setChild arr i w c) j).data = (nd arr j).data := by
  rw [nd_setChild]; split
  · rename_i h; rw [h.1]; split <;> exact ⟨rfl, rfl⟩
  · exact ⟨rfl, rfl⟩

/-! ### Key/data preservation: rotations and fixups never move key/data
between slots -/

/-- The key/data pair stored at slot `j`. -/
def kd (arr : Array (Rbnode α β)) (j : Nat) : α × β :=
  ((nd arr j).key, (nd arr j).data)

theorem kd_setParent2 (arr : Array (Rbnode α β)) (i p j : Nat) :
    kd (setParent arr i p) j = kd arr j := by
  have h := kd_setParent arr i p j
  simp [kd, h.1, h.2]

theorem kd_setRed2 (arr : Array (Rbnode α β)) (i : Nat) (b : Bool) (j : Nat) :
    kd (setRed arr i b) j = kd arr j := by
  have h := kd_setRed arr i b j
  simp [kd, h.1, h.2]

theorem kd_setChild2 (arr : Array (Rbnode α β)) (i w c j : Nat) :
    kd (setChild arr i w c) j = kd arr j := by
  have h := kd_setChild arr i w c j
  simp [kd, h.1, h.2]

theorem kd_rotate (arr : Array (Rbnode α β)) (node s gs j : Nat) :
    kd (rotate arr node s gs) j = kd arr j := by
  unfold rotate
  split <;> rw [kd_setParent2] <;> split <;>
    simp only [kd_setChild2, kd_setParent2]

theorem kd_insert_fixup_go (j : Nat) :
    ∀ (fuel : Nat) (arr : Array (Rbnode α β)) (x : Nat),
      kd (insert_fixup_go arr fuel x) j = kd arr j := by
  intro fuel
  induction fuel with
  | zero => intro arr x; rfl
  | succ fuel ih =>
    intro arr x
    simp only [insert_fixup_go]
    split_ifs <;>
      first
        | rfl
        | simp only [ih, kd_setRed2, kd_rotate, kd_setChild2]

theorem kd_insert_fixup (arr : Array (Rbnode α β)) (x j : Nat) :
    kd (insert_fixup arr x) j = kd arr j := by
  unfold insert_fixup
  rw [kd_setRed2, kd_insert_fixup_go]

set_option maxHeartbeats 3200000 in
theorem kd_delete_fixup_go (j : Nat) :
    ∀ (fuel : Nat) (arr : Array (Rbnode α β)) (x : Nat),
      kd (delete_fixup_go arr fuel x).1 j = kd arr j := by
  intro fuel
  induction fuel with
  | zero => intro arr x; rfl
  | succ fuel ih =>
    intro arr x
    simp only [delete_fixup_go]
    split_ifs <;>
      first
        | rfl
        | simp only [ih, kd_setRed2, kd_rotate, kd_setChild2]

theorem kd_delete_fixup (arr : Array (Rbnode α β)) (x j : Nat) :
    kd (delete_fixup arr x) j = kd arr j := by
  unfold delete_fixup
  rw [kd_setRed2, kd_delete_fixup_go]

/-! ### The successor function on well-formed trees -/

/-- Index of the leftmost (first in-order) node of a `BT`. -/
def BT.firstIdx : BT → Nat
  | .leaf => 0
  | .node .leaf i _ => i
  | .node (.node ll li lr) _ _ => BT.firstIdx (.node ll li lr)

theorem BT.inorder_eq_nil_iff : ∀ t : BT, t.inorder = [] ↔ t = .leaf := by
  intro t
  cases t with
  | leaf => simp [BT.inorder]
  | node l i r => simp [BT.inorder]

theorem BT.firstIdx_head : ∀ t : BT, t ≠ .leaf →
    t.inorder.head? = some t.firstIdx := by
  intro t
  induction t with
  | leaf => intro h; exact absurd rfl h
  | node l i r ihl ihr =>
    intro hx
    cases l with
    | leaf => simp [BT.inorder, BT.firstIdx]
    | node ll li lr =>
      have hne : BT.node ll li lr ≠ .leaf := by intro h; cases h
      have hh := ihl hne
      show ((BT.node ll li lr).inorder ++ i :: r.inorder).head? = _
      cases hin : (BT.node ll li lr).inorder with
      | nil => rw [BT.inorder_eq_nil_iff] at hin; exact absurd hin hne
      | cons a as =>
        rw [hin] at hh
        have ha : a = (BT.node ll li lr).firstIdx := Option.some.inj hh
        rw [show ((a :: as) ++ i :: r.inorder).head? = some a from rfl, ha]
        rfl

theorem BT.firstIdx_mem : ∀ t : BT, t ≠ .leaf → t.firstIdx ∈ t.inorder := by
  intro t ht
  have h := BT.firstIdx_head t ht
  cases hin : t.inorder with
  | nil => rw [hin] at h; cases h
  | cons a as =>
    rw [hin] at h
    have ha : a = t.firstIdx := by
      have : (a :: as).head? = some a := rfl
      rw [this] at h
      exact Option.some.inj h
    rw [← ha]
    exact List.mem_cons_self a as

theorem Extracts.leaf_of_zero {arr : Array (Rbnode α β)} {t : BT}
    (h : Extracts arr 0 t) : t = .leaf := by
  cases h with
  | nil => rfl
  | node hne _ _ => exact absurd rfl hne

theorem Extracts.zero_of_leaf {arr : Array (Rbnode α β)} {i : Nat}
    (h : Extracts arr i .leaf) : i = 0 := by
  cases h
  rfl

theorem Extracts.ne_zero {arr : Array (Rbnode α β)} {i : Nat} {l r : BT}
    (h : Extracts arr i (.node l i r)) : i ≠ 0 := by
  cases h
  assumption

/-- `leftmost` lands on the first in-order index of the extracted
subtree. -/
theorem leftmost_extract {arr : Array (Rbnode α β)} :
    ∀ {i : Nat} {t : BT}, Extracts arr i t → i ≠ 0 →
    ∀ fuel, t.height ≤ fuel → leftmost arr fuel i = t.firstIdx := by
  intro i t hex
  induction hex with
  | nil => intro h; exact absurd rfl h
  | node hne hl hr ihl ihr =>
    intro hx
    rename_i i l r
    intro fuel hf
    have hht : BT.height (.node l i r) = max l.height r.height + 1 := rfl
    cases fuel with
    | zero => omega
    | succ f =>
      show (if (nd arr i).child0 = 0 then i
            else leftmost arr f (nd arr i).child0) = _
      by_cases h0 : (nd arr i).child0 = 0
      · rw [if_pos h0]
        have : l = .leaf := Extracts.leaf_of_zero (h0 ▸ hl)
        subst this
        rfl
      · rw [if_neg h0]
        cases hlc : l with
        | leaf => exact absurd (hlc ▸ hl).zero_of_leaf h0
        | node ll li lr =>
          subst hlc
          rw [ihl h0 f (by omega)]
          rfl

/-- The ascent loop, as a relation: `AscendsTo arr j a n` means that
starting at `j` and climbing parent pointers while the current node is a
right child terminates after `n` steps with result `a`. -/
inductive AscendsTo (arr : Array (Rbnode α β)) : Nat → Nat → Nat → Prop where
  | stop {j : Nat} :
      ¬((nd arr j).parent ≠ 0 ∧ j = (nd arr (nd arr j).parent).child1) →
      AscendsTo arr j (nd arr j).parent 0
  | step {j a n : Nat} :
      (nd arr j).parent ≠ 0 → j = (nd arr (nd arr j).parent).child1 →
      AscendsTo arr (nd arr j).parent a n →
      AscendsTo arr j a (n + 1)

theorem ascend_of_ascendsTo {arr : Array (Rbnode α β)} {j a n : Nat}
    (h : AscendsTo arr j a n) :
    ∀ fuel, n ≤ fuel → ascend arr fuel j = a := by
  induction h with
  | stop hc =>
    intro fuel hf
    cases fuel with
    | zero => rfl
    | succ f =>
      show (if (nd arr _).parent ≠ 0 ∧ _ = (nd arr (nd arr _).parent).child1
            then _ else (nd arr _).parent) = _
      rw [if_neg hc]
  | step h1 h2 hrec ih =>
    intro fuel hf
    cases fuel with
    | zero => omega
    | succ f =>
      show (if _ then ascend arr f (nd arr _).parent else _) = _
      rw [if_pos ⟨h1, h2⟩]
      exact ih f (by omega)

/-- `node_successor` agrees with the in-order list: each element's
successor is the next element, and the last element's successor is the
anchor `anc`. -/
def succAgrees (arr : Array (Rbnode α β)) (fuel : Nat) :
    List Nat → Nat → Prop
  | [], _ => True
  | [a], anc => node_successor arr fuel a = anc
  | a :: b :: rest, anc =>
      node_successor arr fuel a = b ∧ succAgrees arr fuel (b :: rest) anc

theorem succAgrees_append (arr : Array (Rbnode α β)) (fuel : Nat) :
    ∀ (xs : List Nat) (y : Nat) (ys : List Nat) (anc : Nat),
      succAgrees arr fuel (xs ++ y :: ys) anc ↔
        succAgrees arr fuel xs y ∧ succAgrees arr fuel (y :: ys) anc := by
  intro xs
  induction xs with
  | nil =>
    intro y ys anc
    simp [succAgrees]
  | cons x xs ih =>
    intro y ys anc
    cases xs with
    | nil => exact Iff.rfl
    | cons x2 xs2 =>
      have h1 : succAgrees arr fuel ((x :: x2 :: xs2) ++ y :: ys) anc ↔
          (node_successor arr fuel x = x2 ∧
           succAgrees arr fuel ((x2 :: xs2) ++ y :: ys) anc) := Iff.rfl
      have h2 : succAgrees arr fuel (x :: x2 :: xs2) y ↔
          (node_successor arr fuel x = x2 ∧
           succAgrees arr fuel (x2 :: xs2) y) := Iff.rfl
      rw [h1, h2, ih y ys anc]
      tauto

/-- Every member of an extracted tree is itself the root of an extracted
subtree, whose in-order list is a sublist of the whole. -/
theorem Extracts.mem_subtree {arr : Array (Rbnode α β)} :
    ∀ {i : Nat} {T : BT}, Extracts arr i T →
      ∀ j ∈ T.inorder, ∃ l r, Extracts arr j (BT.node l j r) ∧
        (BT.node l j r).inorder.Sublist T.inorder := by
  intro i T hex
  induction hex with
  | nil => intro j hj; exact absurd hj (by simp [BT.inorder])
  | node hne hl hr ihl ihr =>
    rename_i i l r
    intro j hj
    simp only [BT.inorder, List.mem_append, List.mem_cons] at hj
    rcases hj with hj | hj | hj
    · obtain ⟨a, b, hex2, hsub⟩ := ihl j hj
      exact ⟨a, b, hex2, hsub.trans (by
        show l.inorder.Sublist (BT.node l i r).inorder
        simp [BT.inorder])⟩
    · subst hj
      exact ⟨l, r, Extracts.node hne hl hr, List.Sublist.refl _⟩
    · obtain ⟨a, b, hex2, hsub⟩ := ihr j hj
      exact ⟨a, b, hex2, hsub.trans (by
        show r.inorder.Sublist (BT.node l i r).inorder
        show r.inorder.Sublist (l.inorder ++ i :: r.inorder)
        exact (List.sublist_cons_self i r.inorder).trans
          (List.sublist_append_right l.inorder (i :: r.inorder)))⟩

/-- Components of parent-consistency at a node. -/
theorem parentOkBT_node {arr : Array (Rbnode α β)} {l : BT} {i : Nat}
    {r : BT} {p : Nat} (h : parentOkBT arr (.node l i r) p = true) :
    (nd arr i).parent = p ∧ parentOkBT arr l i = true ∧
    parentOkBT arr r i = true := by
  revert h
  show (decide ((nd arr i).parent = p) && parentOkBT arr l i &&
        parentOkBT arr r i) = true → _
  intro h
  simp only [Bool.and_eq_true, decide_eq_true_eq] at h
  exact ⟨h.1.1, h.1.2, h.2⟩

/-- The master lemma: on an extracted, parent-consistent, duplicate-free
subtree `S` whose root ascends (per `AscendsTo`) to `a`, the successor
function maps each in-order element to the next, and the last one to
`a`. -/
theorem succAgrees_extract (arr : Array (Rbnode α β)) :
    ∀ (S : BT) (p a n fuel : Nat),
      Extracts arr S.rootIdx S →
      parentOkBT arr S p = true →
      S.inorder.Nodup →
      AscendsTo arr S.rootIdx a n →
      n + S.height ≤ fuel →
      succAgrees arr fuel S.inorder a := by
  intro S
  induction S with
  | leaf => intro p a n fuel _ _ _ _ _; trivial
  | node l i r ihl ihr =>
    intro p a n fuel hex hpar hnodup hanc hfuel
    have hri : (BT.node l i r).rootIdx = i := rfl
    rw [hri] at hex hanc
    have hht : (BT.node l i r).height = max l.height r.height + 1 := rfl
    obtain ⟨hne, hl, hr⟩ : i ≠ 0 ∧ Extracts arr (nd arr i).child0 l ∧
        Extracts arr (nd arr i).child1 r := by
      cases hex with
      | node hne hl hr => exact ⟨hne, hl, hr⟩
    obtain ⟨hpi, hpl, hpr⟩ := parentOkBT_node hpar
    have hnodups : l.inorder.Nodup ∧ (i :: r.inorder).Nodup ∧
        ∀ x ∈ l.inorder, x ∉ i :: r.inorder := by
      have h := hnodup
      rw [show (BT.node l i r).inorder = l.inorder ++ i :: r.inorder from rfl,
          List.nodup_append] at h
      exact ⟨h.1, h.2.1, fun x hx hmem => h.2.2 hx hmem⟩
    show succAgrees arr fuel (l.inorder ++ i :: r.inorder) a
    rw [succAgrees_append]
    constructor
    · -- the left subtree, anchored at i
      cases l with
      | leaf => trivial
      | node ll li lr =>
        have hc0 : li = (nd arr i).child0 := hl.rootIdx_eq
        have hlex : Extracts arr li (BT.node ll li lr) := by
          have h := hl
          rw [← hc0] at h
          exact h
        have hline : li ≠ 0 := hlex.ne_zero
        obtain ⟨hlp, -, -⟩ := parentOkBT_node hpl
        have hstop : AscendsTo arr li i 0 := by
          have hcond : ¬((nd arr li).parent ≠ 0 ∧
              li = (nd arr (nd arr li).parent).child1) := by
            rw [hlp]
            rintro ⟨-, h2⟩
            cases r with
            | leaf =>
              rw [hr.zero_of_leaf] at h2
              exact hline h2
            | node rl ri rr =>
              have hc1 : ri = (nd arr i).child1 := hr.rootIdx_eq
              rw [← hc1] at h2
              subst h2
              exact hnodups.2.2 li
                (by
                  have : li ∈ (BT.node ll li lr).inorder := by
                    simp [BT.inorder]
                  exact this)
                (by
                  right
                  have : li ∈ (BT.node rl li rr).inorder := by
                    simp [BT.inorder]
                  exact this)
          have h : AscendsTo arr li (nd arr li).parent 0 :=
            AscendsTo.stop hcond
          rw [hlp] at h
          exact h
        exact ihl i i 0 fuel hlex hpl hnodups.1 hstop (by omega)
    · -- i and the right subtree, anchored at a
      cases r with
      | leaf =>
        show node_successor arr fuel i = a
        have h10 : (nd arr i).child1 = 0 := hr.zero_of_leaf
        unfold node_successor
        rw [if_neg (by simp [h10])]
        exact ascend_of_ascendsTo hanc fuel (by omega)
      | node rl ri rr =>
        have hc1 : ri = (nd arr i).child1 := hr.rootIdx_eq
        have hrex : Extracts arr ri (BT.node rl ri rr) := by
          have h := hr
          rw [← hc1] at h
          exact h
        have hrine : ri ≠ 0 := hrex.ne_zero
        have h1ne : (nd arr i).child1 ≠ 0 := by rw [← hc1]; exact hrine
        obtain ⟨b, bs, hbs⟩ : ∃ b bs, (BT.node rl ri rr).inorder = b :: bs := by
          cases hh : (BT.node rl ri rr).inorder with
          | nil => rw [BT.inorder_eq_nil_iff] at hh; cases hh
          | cons b bs => exact ⟨b, bs, rfl⟩
        have hbfirst : b = (BT.node rl ri rr).firstIdx := by
          have h := BT.firstIdx_head (BT.node rl ri rr) (by intro h; cases h)
          rw [hbs] at h
          exact Option.some.inj h
        rw [hbs]
        show node_successor arr fuel i = b ∧ succAgrees arr fuel (b :: bs) a
        constructor
        · unfold node_successor
          rw [if_pos h1ne]
          rw [leftmost_extract hr h1ne fuel (by omega)]
          rw [hbfirst]
        · rw [← hbs]
          obtain ⟨hrp, -, -⟩ := parentOkBT_node hpr
          have hstep : AscendsTo arr ri a (n + 1) :=
            AscendsTo.step
              (by rw [hrp]; exact hne)
              (by rw [hrp, ← hc1])
              (by rw [hrp]; exact hanc)
          exact ihr i a (n + 1) fuel hrex hpr
            (List.Nodup.of_cons hnodups.2.1) hstep (by omega)

/-- On a well-formed tree the successor function enumerates the in-order
list, with NIL after the maximum. -/
theorem wf_succAgrees {t : Rbtree α β} {arr : Array (Rbnode α β)} {T : BT}
    (wf : WfArena t arr T) : succAgrees arr arr.size T.inorder 0 := by
  have hex : Extracts arr T.rootIdx T := by
    have h := wf.hroot
    rw [← wf.hroot.rootIdx_eq] at h
    exact h
  have hfuel := wf.height_le
  cases hT : T with
  | leaf => trivial
  | node l i r =>
    rw [hT] at hex
    have hroot0 : (nd arr i).parent = 0 := by
      have := wf.hparent
      rw [hT] at this
      exact (parentOkBT_node this).1
    have hanc : AscendsTo arr (BT.node l i r).rootIdx 0 0 := by
      have hcond : ¬((nd arr i).parent ≠ 0 ∧
          i = (nd arr (nd arr i).parent).child1) := by
        rw [hroot0]
        simp
      have h : AscendsTo arr i (nd arr i).parent 0 :=
        AscendsTo.stop hcond
      rw [hroot0] at h
      exact h
    have hnd := wf.nodup
    rw [hT] at hnd hfuel
    have hpar := wf.hparent
    rw [hT] at hpar
    exact succAgrees_extract arr (BT.node l i r) 0 0 0 arr.size hex hpar hnd
      hanc (by omega)

theorem succAgrees_mem_or (arr : Array (Rbnode α β)) (fuel : Nat) :
    ∀ (xs : List Nat) (a j : Nat),
      succAgrees arr fuel xs a → j ∈ xs →
      node_successor arr fuel j ∈ xs ∨ node_successor arr fuel j = a := by
  intro xs
  induction xs with
  | nil => intro a j _ hj; cases hj
  | cons x rest ih =>
    intro a j hs hj
    cases rest with
    | nil =>
      have hjx : j = x := by
        cases hj with
        | head => rfl
        | tail _ h => cases h
      subst hjx
      right
      exact hs
    | cons y rest2 =>
      obtain ⟨h1, h2⟩ := hs
      cases hj with
      | head =>
        left
        rw [h1]
        exact List.mem_cons_of_mem _ (List.mem_cons_self _ _)
      | tail _ hjt =>
        rcases ih a j h2 hjt with h | h
        · left
          exact List.mem_cons_of_mem _ h
        · right
          exact h

theorem succAgrees_ne_self (arr : Array (Rbnode α β)) (fuel : Nat) :
    ∀ (xs : List Nat) (j : Nat),
      succAgrees arr fuel xs 0 → xs.Nodup → (∀ x ∈ xs, x ≠ 0) → j ∈ xs →
      node_successor arr fuel j ≠ j := by
  intro xs
  induction xs with
  | nil => intro j _ _ _ hj; cases hj
  | cons x rest ih =>
    intro j hs hnd h0 hj
    cases rest with
    | nil =>
      have hjx : j = x := by
        cases hj with
        | head => rfl
        | tail _ h => cases h
      subst hjx
      rw [hs]
      exact fun h => h0 j (List.mem_cons_self _ _) h.symm
    | cons y rest2 =>
      obtain ⟨h1, h2⟩ := hs
      cases hj with
      | head =>
        rw [h1]
        intro hyx
        subst hyx
        exact (List.nodup_cons.mp hnd).1 (List.mem_cons_self _ _)
      | tail _ hjt =>
        exact ih j h2 (List.nodup_cons.mp hnd).2
          (fun z hz => h0 z (List.mem_cons_of_mem _ hz)) hjt

/-- When a live node has a non-NIL right child, its successor is a live
node distinct from it (the leftmost node of that right subtree). -/
theorem successor_two_children {t : Rbtree α β} {arr : Array (Rbnode α β)}
    {T : BT} (wf : WfArena t arr T) {z : Nat} (hz : z ∈ T.inorder)
    (h1 : (nd arr z).child1 ≠ 0) :
    node_successor arr arr.size z ∈ T.inorder ∧
    node_successor arr arr.size z ≠ z := by
  have hex : Extracts arr T.rootIdx T := by
    have h := wf.hroot
    rw [← wf.hroot.rootIdx_eq] at h
    exact h
  obtain ⟨lz, rz, hsubex, hsub⟩ := hex.mem_subtree z hz
  obtain ⟨hzn, hlz, hrz⟩ : z ≠ 0 ∧ Extracts arr (nd arr z).child0 lz ∧
      Extracts arr (nd arr z).child1 rz := by
    cases hsubex with
    | node h a b => exact ⟨h, a, b⟩
  cases rz with
  | leaf => exact absurd hrz.zero_of_leaf h1
  | node rl ri rr =>
    have hrne : BT.node rl ri rr ≠ .leaf := by intro h; cases h
    have hfm : (BT.node rl ri rr).firstIdx ∈ (BT.node rl ri rr).inorder :=
      BT.firstIdx_mem _ hrne
    have hmemT : (BT.node rl ri rr).firstIdx ∈ T.inorder := by
      apply hsub.mem
      show _ ∈ (BT.node lz z (BT.node rl ri rr)).inorder
      show _ ∈ lz.inorder ++ z :: (BT.node rl ri rr).inorder
      exact List.mem_append_right _ (List.mem_cons_of_mem _ hfm)
    have hheight : (BT.node rl ri rr).height ≤ arr.size := by
      have a1 := BT.height_le_length_inorder (BT.node rl ri rr)
      have a2 : (BT.node rl ri rr).inorder.length ≤ T.inorder.length := by
        apply List.Sublist.length_le
        refine List.Sublist.trans ?_ hsub
        show (BT.node rl ri rr).inorder.Sublist
          (lz.inorder ++ z :: (BT.node rl ri rr).inorder)
        exact ((BT.node rl ri rr).inorder.sublist_cons_self z).trans
          (List.sublist_append_right lz.inorder _)
      have a3 := wf.length_inorder
      have a4 := wf.hnf
      have a5 := wf.hcap
      have a6 := wf.hsize
      omega
    have hsuc : node_successor arr arr.size z = (BT.node rl ri rr).firstIdx := by
      unfold node_successor
      rw [if_pos h1, leftmost_extract hrz h1 arr.size hheight]
    refine ⟨by rw [hsuc]; exact hmemT, ?_⟩
    rw [hsuc]
    intro heq
    have hnodupSub : (BT.node lz z (BT.node rl ri rr)).inorder.Nodup :=
      wf.nodup.sublist hsub
    rw [show (BT.node lz z (BT.node rl ri rr)).inorder =
        lz.inorder ++ z :: (BT.node rl ri rr).inorder from rfl,
        List.nodup_append] at hnodupSub
    have hzr : z ∉ (BT.node rl ri rr).inorder :=
      (List.nodup_cons.mp hnodupSub.2.1).1
    rw [heq] at hfm
    exact hzr hfm

/-! ### Sizes and key/data through the deletion path -/

theorem kd_wr (arr : Array (Rbnode α β)) (i : Nat) (v : Rbnode α β) (j : Nat) :
    kd (wr arr i v) j =
      if j = i ∧ i < arr.size then (v.key, v.data) else kd arr j := by
  unfold kd
  rw [nd_wr]
  split <;> rfl

theorem kd_setKeyData2 (arr : Array (Rbnode α β)) (i : Nat) (k : α) (d : β)
    (j : Nat) :
    kd (setKeyData arr i k d) j =
      if j = i ∧ i < arr.size then (k, d) else kd arr j := by
  unfold kd
  rw [nd_setKeyData]
  split <;> rfl

theorem size_insert_fixup_go :
    ∀ (fuel : Nat) (arr : Array (Rbnode α β)) (x : Nat),
      (insert_fixup_go arr fuel x).size = arr.size := by
  intro fuel
  induction fuel with
  | zero => intro arr x; rfl
  | succ fuel ih =>
    intro arr x
    simp only [insert_fixup_go]
    split_ifs <;>
      first
        | rfl
        | simp only [ih, size_setRed, size_rotate, size_setChild]

set_option maxHeartbeats 3200000 in
theorem size_delete_fixup_go :
    ∀ (fuel : Nat) (arr : Array (Rbnode α β)) (x : Nat),
      (delete_fixup_go arr fuel x).1.size = arr.size := by
  intro fuel
  induction fuel with
  | zero => intro arr x; rfl
  | succ fuel ih =>
    intro arr x
    simp only [delete_fixup_go]
    split_ifs <;>
      first
        | rfl
        | simp only [ih, size_setRed, size_rotate, size_setChild]

theorem size_delete_fixup (arr : Array (Rbnode α β)) (x : Nat) :
    (delete_fixup arr x).size = arr.size := by
  unfold delete_fixup
  rw [size_setRed, size_delete_fixup_go]

theorem size_insert_fixup (arr : Array (Rbnode α β)) (x : Nat) :
    (insert_fixup arr x).size = arr.size := by
  unfold insert_fixup
  rw [size_setRed, size_insert_fixup_go]

/-! ### The deletion path, field by field -/

theorem delete_node_current_case1 (t : Rbtree α β) (arr : Array (Rbnode α β))
    (harr : t.nodes = some arr) (z : Nat)
    (h : (nd arr z).child0 = 0 ∨ (nd arr z).child1 = 0) :
    (delete_node t z).current =
      (if z ≠ t.next_free - 1 then
        (if (if t.current = z then node_successor arr arr.size z else t.current)
            = t.next_free - 1
         then z
         else (if t.current = z then node_successor arr arr.size z
               else t.current))
      else (if t.current = z then node_successor arr arr.size z
            else t.current)) := by
  unfold delete_node
  rw [harr]
  simp only [Option.getD_some]
  rw [if_pos h]
  by_cases hL : z = t.next_free - 1 <;> simp [hL]

theorem delete_node_current_case2 (t : Rbtree α β) (arr : Array (Rbnode α β))
    (harr : t.nodes = some arr) (z : Nat)
    (h : ¬((nd arr z).child0 = 0 ∨ (nd arr z).child1 = 0)) :
    (delete_node t z).current =
      (if node_successor arr arr.size z ≠ t.next_free - 1 then
        (if (if t.current = node_successor arr arr.size z then z else t.current)
            = t.next_free - 1
         then node_successor arr arr.size z
         else (if t.current = node_successor arr arr.size z then z
               else t.current))
      else (if t.current = node_successor arr arr.size z then z
            else t.current)) := by
  unfold delete_node
  rw [harr]
  simp only [Option.getD_some]
  rw [if_neg h]
  by_cases hL : node_successor arr arr.size z = t.next_free - 1 <;> simp [hL]

theorem kd_wr_copy (arr : Array (Rbnode α β)) (i L j : Nat) :
    kd (wr arr i (nd arr L)) j =
      if j = i ∧ i < arr.size then kd arr L else kd arr j := by
  rw [kd_wr]
  split <;> rfl

set_option maxHeartbeats 3200000 in
theorem delete_node_kd_case1 (t : Rbtree α β) (arr : Array (Rbnode α β))
    (harr : t.nodes = some arr) (z : Nat)
    (h : (nd arr z).child0 = 0 ∨ (nd arr z).child1 = 0) (j : Nat) :
    kd ((delete_node t z).nodes.getD #[]) j =
      (if z ≠ t.next_free - 1 ∧ j = z ∧ z < arr.size
       then kd arr (t.next_free - 1) else kd arr j) := by
  unfold delete_node
  rw [harr]
  simp only [Option.getD_some]
  rw [if_pos h]
  by_cases hL : z = t.next_free - 1
  · rw [show (if z ≠ t.next_free - 1 ∧ j = z ∧ z < arr.size
        then kd arr (t.next_free - 1) else kd arr j) = kd arr j from
        if_neg (by tauto)]
    simp [hL, apply_ite (fun a => kd a j), kd_setParent2, kd_setChild2,
          kd_delete_fixup]
  · by_cases hj : j = z ∧ z < arr.size
    · obtain ⟨hj1, hj2⟩ := hj
      subst hj1
      rw [show (if j ≠ t.next_free - 1 ∧ j = j ∧ j < arr.size
          then kd arr (t.next_free - 1) else kd arr j) =
          kd arr (t.next_free - 1) from if_pos ⟨hL, rfl, hj2⟩]
      simp [hL, apply_ite (fun a => kd a j),
            apply_ite (fun a => kd a (t.next_free - 1)),
            apply_ite (fun a : Array (Rbnode α β) => a.size),
            kd_setParent2, kd_setChild2,
            kd_delete_fixup, kd_wr_copy, size_setParent, size_setChild,
            size_delete_fixup, size_wr, hj2]
    · rw [show (if z ≠ t.next_free - 1 ∧ j = z ∧ z < arr.size
          then kd arr (t.next_free - 1) else kd arr j) = kd arr j from
          if_neg (by tauto)]
      simp [hL, apply_ite (fun a => kd a j),
            apply_ite (fun a : Array (Rbnode α β) => a.size),
            kd_setParent2, kd_setChild2,
            kd_delete_fixup, kd_wr_copy, size_setParent, size_setChild,
            size_delete_fixup, size_wr, hj]

set_option maxHeartbeats 3200000 in
theorem delete_node_kd_case2 (t : Rbtree α β) (arr : Array (Rbnode α β))
    (harr : t.nodes = some arr) (z : Nat)
    (h : ¬((nd arr z).child0 = 0 ∨ (nd arr z).child1 = 0)) (j : Nat) :
    kd ((delete_node t z).nodes.getD #[]) j =
      (if node_successor arr arr.size z ≠ t.next_free - 1 ∧
          j = node_successor arr arr.size z ∧
          node_successor arr arr.size z < arr.size
       then (if t.next_free - 1 = z ∧ z < arr.size
             then kd arr (node_successor arr arr.size z)
             else kd arr (t.next_free - 1))
       else (if j = z ∧ z < arr.size
             then kd arr (node_successor arr arr.size z)
             else kd arr j)) := by
  unfold delete_node
  rw [harr]
  simp only [Option.getD_some]
  rw [if_neg h]
  have hkd : ∀ j2 : Nat, kd (setKeyData arr z (nd arr (node_successor arr
      arr.size z)).key (nd arr (node_successor arr arr.size z)).data) j2 =
      (if j2 = z ∧ z < arr.size
       then kd arr (node_successor arr arr.size z) else kd arr j2) := by
    intro j2
    rw [kd_setKeyData2]
    split <;> rfl
  by_cases hL : node_successor arr arr.size z = t.next_free - 1
  · rw [show (if node_successor arr arr.size z ≠ t.next_free - 1 ∧
        j = node_successor arr arr.size z ∧
        node_successor arr arr.size z < arr.size
        then _ else _) = (if j = z ∧ z < arr.size
             then kd arr (node_successor arr arr.size z)
             else kd arr j) from if_neg (by tauto)]
    simp only [hL] at hkd
    simp only [hL, ne_eq, not_true_eq_false, false_and, if_false]
    simp [apply_ite (fun a => kd a j),
          apply_ite (fun a : Array (Rbnode α β) => a.size),
          kd_setParent2, kd_setChild2,
          kd_delete_fixup, size_setParent, size_setChild,
          size_delete_fixup, size_setKeyData, hkd]
  · by_cases hj : j = node_successor arr arr.size z ∧
        node_successor arr arr.size z < arr.size
    · obtain ⟨hj1, hj2⟩ := hj
      subst hj1
      rw [show (if node_successor arr arr.size z ≠ t.next_free - 1 ∧
          node_successor arr arr.size z = node_successor arr arr.size z ∧
          node_successor arr arr.size z < arr.size
          then _ else _) = (if t.next_free - 1 = z ∧ z < arr.size
             then kd arr (node_successor arr arr.size z)
             else kd arr (t.next_free - 1)) from if_pos ⟨hL, rfl, hj2⟩]
      simp [hL, apply_ite (fun a => kd a (node_successor arr arr.size z)),
            apply_ite (fun a => kd a (t.next_free - 1)),
            apply_ite (fun a : Array (Rbnode α β) => a.size),
            kd_setParent2, kd_setChild2,
            kd_delete_fixup, kd_wr_copy, size_setParent, size_setChild,
            size_delete_fixup, size_setKeyData, size_wr, hkd, hj2]
    · rw [show (if node_successor arr arr.size z ≠ t.next_free - 1 ∧
          j = node_successor arr arr.size z ∧
          node_successor arr arr.size z < arr.size
          then _ else _) = (if j = z ∧ z < arr.size
             then kd arr (node_successor arr arr.size z)
             else kd arr j) from if_neg (by tauto)]
      simp [hL, apply_ite (fun a => kd a j),
            apply_ite (fun a : Array (Rbnode α β) => a.size),
            kd_setParent2, kd_setChild2,
            kd_delete_fixup, kd_wr_copy, size_setParent, size_setChild,
            size_delete_fixup, size_setKeyData, size_wr, hkd, hj]

/-! ### C4: cursor redirection in delete_node -/

theorem wf_succ_mem_or {t : Rbtree α β} {arr : Array (Rbnode α β)} {T : BT}
    (wf : WfArena t arr T) {z : Nat} (hz : z ∈ T.inorder) :
    node_successor arr arr.size z ∈ T.inorder ∨
    node_successor arr arr.size z = 0 :=
  succAgrees_mem_or arr arr.size T.inorder 0 z (wf_succAgrees wf) hz

theorem wf_succ_ne_self {t : Rbtree α β} {arr : Array (Rbnode α β)} {T : BT}
    (wf : WfArena t arr T) {z : Nat} (hz : z ∈ T.inorder) :
    node_successor arr arr.size z ≠ z :=
  succAgrees_ne_self arr arr.size T.inorder z (wf_succAgrees wf) wf.nodup
    (fun x hx => by have := (wf.mem_iff x).mp hx; omega) hz

/-- C4: when delete removes the node the tree-owned cursor points at, the
cursor is redirected correctly. If the cursor sat on the directly
spliced-out node `z` (the one-NIL-child case), it is advanced to `z`'s
in-order successor: NIL when `z` held the maximum, else a live slot of the
final arena that holds the successor's key/data (tracking the compaction
move when the successor's slot was the one relocated). If the cursor sat
on the two-child-case successor whose key/data were copied into `z`'s
slot, it ends on a live slot holding that surviving key/data. In both
cases the final cursor is NIL or a live index of the shrunken arena. -/
theorem delete_cursor_correct (t : Rbtree α β) (arr : Array (Rbnode α β))
    (T : BT) (wf : WfArena t arr T) (z : Nat) (hz : z ∈ T.inorder) :
    (((nd arr z).child0 = 0 ∨ (nd arr z).child1 = 0) → t.current = z →
      (node_successor arr arr.size z = 0 → (delete_node t z).current = 0) ∧
      (node_successor arr arr.size z ≠ 0 →
        (1 ≤ (delete_node t z).current ∧
         (delete_node t z).current < (delete_node t z).next_free) ∧
        kd ((delete_node t z).nodes.getD #[]) (delete_node t z).current =
          kd arr (node_successor arr arr.size z))) ∧
    (¬((nd arr z).child0 = 0 ∨ (nd arr z).child1 = 0) →
      t.current = node_successor arr arr.size z →
      (1 ≤ (delete_node t z).current ∧
       (delete_node t z).current < (delete_node t z).next_free) ∧
      kd ((delete_node t z).nodes.getD #[]) (delete_node t z).current =
        kd arr (node_successor arr arr.size z)) := by
  have harr := wf.harr
  have hzb : 1 ≤ z ∧ z < t.next_free := (wf.mem_iff z).mp hz
  have hzsize : z < arr.size := by
    have h1 := wf.hcap
    have h2 := wf.hsize
    omega
  have hnf' : (delete_node t z).next_free = t.next_free - 1 :=
    delete_node_next_free t z
  constructor
  · intro h1 hcz
    have hcur := delete_node_current_case1 t arr harr z h1
    have hkd := fun j => delete_node_kd_case1 t arr harr z h1 j
    have hcs : (if t.current = z then node_successor arr arr.size z
        else t.current) = node_successor arr arr.size z := by
      rw [hcz]
      simp
    rw [hcs] at hcur
    constructor
    · intro hs0
      rw [hs0] at hcur
      by_cases hzL : z = t.next_free - 1
      · rw [if_neg (not_not_intro hzL)] at hcur
        exact hcur
      · rw [if_pos hzL, if_neg (by omega)] at hcur
        exact hcur
    · intro hs0
      rcases wf_succ_mem_or wf hz with hsm | hse
      · have hsb : 1 ≤ node_successor arr arr.size z ∧
            node_successor arr arr.size z < t.next_free :=
          (wf.mem_iff _).mp hsm
        have hssize : node_successor arr arr.size z < arr.size := by
          have h1 := wf.hcap
          have h2 := wf.hsize
          omega
        have hne := wf_succ_ne_self wf hz
        by_cases hzL : z = t.next_free - 1
        · rw [if_neg (not_not_intro hzL)] at hcur
          refine ⟨⟨by omega, by omega⟩, ?_⟩
          rw [hcur, hkd, if_neg (fun hc => hc.1 hzL)]
        · rw [if_pos hzL] at hcur
          by_cases hsL : node_successor arr arr.size z = t.next_free - 1
          · rw [if_pos hsL] at hcur
            refine ⟨⟨by omega, by omega⟩, ?_⟩
            rw [hcur, hkd, if_pos ⟨hzL, rfl, hzsize⟩, hsL]
          · rw [if_neg hsL] at hcur
            refine ⟨⟨by omega, by omega⟩, ?_⟩
            rw [hcur, hkd, if_neg (fun hc => hne hc.2.1)]
      · exact absurd hse hs0
  · intro h1 hcz
    have hch1 : (nd arr z).child1 ≠ 0 := by tauto
    obtain ⟨hsm, hne⟩ := successor_two_children wf hz hch1
    have hsb : 1 ≤ node_successor arr arr.size z ∧
        node_successor arr arr.size z < t.next_free :=
      (wf.mem_iff _).mp hsm
    have hssize : node_successor arr arr.size z < arr.size := by
      have ha := wf.hcap
      have hb := wf.hsize
      omega
    have hcur := delete_node_current_case2 t arr harr z h1
    have hkd := fun j => delete_node_kd_case2 t arr harr z h1 j
    have hcs : (if t.current = node_successor arr arr.size z then z
        else t.current) = z := by
      rw [hcz]
      simp
    rw [hcs] at hcur
    by_cases hsL : node_successor arr arr.size z = t.next_free - 1
    · rw [if_neg (not_not_intro hsL)] at hcur
      refine ⟨⟨by omega, by omega⟩, ?_⟩
      rw [hcur, hkd, if_neg (fun hc => hc.1 hsL),
          if_pos ⟨rfl, hzsize⟩]
    · rw [if_pos hsL] at hcur
      by_cases hzL : z = t.next_free - 1
      · rw [if_pos hzL] at hcur
        refine ⟨⟨by omega, by omega⟩, ?_⟩
        rw [hcur, hkd, if_pos ⟨hsL, rfl, hssize⟩,
            if_pos ⟨hzL.symm, hzsize⟩]
      · rw [if_neg hzL] at hcur
        refine ⟨⟨by omega, by omega⟩, ?_⟩
        rw [hcur, hkd, if_neg (fun hc => hne hc.2.1.symm),
            if_pos ⟨rfl, hzsize⟩]

/-- `cexTree` with the tree-owned cursor parked on the root (key 1). -/
def curTree : Rbtree Int Int := { cexTree with current := 1 }

theorem curTree_wf : WfArena curTree cexArr cexT := by
  refine ⟨rfl, rfl, by decide, by decide, ?_, by decide, by decide,
          by decide, rfl, rfl, fun h => by cases h⟩
  exact toBT_sound cexArr 8 ((nd cexArr 0).child0) cexT rfl

/-- Witness for `delete_cursor_correct`: deleting the root of `curTree`
(key 1, one NIL child, cursor on it) leaves the cursor on a live slot of
the compacted arena holding the successor's key/data pair (2, 20). -/
theorem delete_cursor_correct_witness :
    (1 ≤ (delete_node curTree 1).current ∧
     (delete_node curTree 1).current < (delete_node curTree 1).next_free) ∧
    kd ((delete_node curTree 1).nodes.getD #[]) (delete_node curTree 1).current =
      kd cexArr (node_successor cexArr cexArr.size 1) :=
  ((delete_cursor_correct curTree cexArr cexT curTree_wf 1 (by decide)).1
    (Or.inl rfl) rfl).2 (by decide)

/-! ### Tree surgery: positions in the abstract shape

A context is the list of ancestor layers of a position, innermost first:
`(d, i, sib)` says the position is child `d` (0 = left) of the node
labelled `i` whose other subtree is `sib`. -/

def plug : List (Nat × Nat × BT) → BT → BT
  | [], S => S
  | (d, i, sib) :: ctx, S =>
      plug ctx (if d = 0 then BT.node S i sib else BT.node sib i S)

theorem plug_append (c1 c2 : List (Nat × Nat × BT)) :
    ∀ S, plug (c1 ++ c2) S = plug c2 (plug c1 S) := by
  induction c1 with
  | nil => intro S; rfl
  | cons layer rest ih =>
    intro S
    obtain ⟨d, i, sib⟩ := layer
    show plug (rest ++ c2) _ = plug c2 (plug rest _)
    exact ih _

/-- Every member of a shape has a context: the tree is that member's
subtree plugged into its ancestors. -/
theorem zip_at : ∀ (T : BT) (x : Nat), x ∈ T.inorder →
    ∃ ctx A B, plug ctx (BT.node A x B) = T := by
  intro T
  induction T with
  | leaf => intro x hx; cases hx
  | node l i r ihl ihr =>
    intro x hx
    have hx3 : x ∈ l.inorder ∨ x = i ∨ x ∈ r.inorder := by
      simpa [BT.inorder] using hx
    rcases hx3 with h | h | h
    · obtain ⟨ctx, A, B, hp⟩ := ihl x h
      exact ⟨ctx ++ [(0, i, r)], A, B, by rw [plug_append, hp]; rfl⟩
    · subst h
      exact ⟨[], l, r, rfl⟩
    · obtain ⟨ctx, A, B, hp⟩ := ihr x h
      exact ⟨ctx ++ [(1, i, l)], A, B, by rw [plug_append, hp]; rfl⟩

/-- Labels of a context strictly before (in order) the plugged subtree. -/
def ctxPre : List (Nat × Nat × BT) → List Nat
  | [] => []
  | (d, i, sib) :: ctx =>
      if d = 0 then ctxPre ctx else ctxPre ctx ++ sib.inorder ++ [i]

/-- Labels of a context strictly after the plugged subtree. -/
def ctxPost : List (Nat × Nat × BT) → List Nat
  | [] => []
  | (d, i, sib) :: ctx =>
      if d = 0 then i :: sib.inorder ++ ctxPost ctx else ctxPost ctx

/-- The in-order labels of a plugged tree: context labels before, the
subtree, context labels after. -/
theorem plug_inorder (ctx : List (Nat × Nat × BT)) :
    ∀ S, (plug ctx S).inorder = ctxPre ctx ++ S.inorder ++ ctxPost ctx := by
  induction ctx with
  | nil => intro S; simp [plug, ctxPre, ctxPost]
  | cons layer rest ih =>
    intro S
    obtain ⟨d, i, sib⟩ := layer
    by_cases hd : d = 0
    · show (plug rest (if d = 0 then BT.node S i sib else _)).inorder = _
      rw [if_pos hd, ih]
      simp [BT.inorder, ctxPre, ctxPost, hd]
    · show (plug rest (if d = 0 then BT.node S i sib else _)).inorder = _
      rw [if_neg hd, ih]
      simp [BT.inorder, ctxPre, ctxPost, hd]

/-- Extraction depends only on the child pointers of the shape's own
labels. -/
theorem Extracts.of_agree {arr arr' : Array (Rbnode α β)} :
    ∀ {i : Nat} {T : BT}, Extracts arr i T →
    (∀ j ∈ T.inorder, (nd arr' j).child0 = (nd arr j).child0 ∧
                      (nd arr' j).child1 = (nd arr j).child1) →
    Extracts arr' i T := by
  intro i T h
  induction h with
  | nil => intro _; exact Extracts.nil
  | node hne hl hr ihl ihr =>
    rename_i j l r
    intro hagree
    have hj : j ∈ (BT.node l j r).inorder := by simp [BT.inorder]
    have hcs := hagree j hj
    refine Extracts.node hne ?_ ?_
    · rw [hcs.1]
      exact ihl fun m hm => hagree m (by simp [BT.inorder, hm])
    · rw [hcs.2]
      exact ihr fun m hm => hagree m (by simp [BT.inorder, hm])

/-- Parent agreement depends only on the parent pointers of the shape's
own labels. -/
theorem parentOkBT_of_agree {arr arr' : Array (Rbnode α β)} :
    ∀ (T : BT) (p : Nat), parentOkBT arr T p = true →
    (∀ j ∈ T.inorder, (nd arr' j).parent = (nd arr j).parent) →
    parentOkBT arr' T p = true := by
  intro T
  induction T with
  | leaf => intro p _ _; rfl
  | node l i r ihl ihr =>
    intro p h hagree
    have h3 := parentOkBT_node h
    show (decide ((nd arr' i).parent = p) && _ && _) = true
    rw [hagree i (by simp [BT.inorder]), h3.1]
    rw [ihl i h3.2.1 fun m hm => hagree m (by simp [BT.inorder, hm]),
        ihr i h3.2.2 fun m hm => hagree m (by simp [BT.inorder, hm])]
    simp

theorem Extracts.mem_ne_zero {arr : Array (Rbnode α β)} :
    ∀ {i : Nat} {T : BT}, Extracts arr i T → ∀ j ∈ T.inorder, j ≠ 0 := by
  intro i T h
  induction h with
  | nil => intro j hj; cases hj
  | node hne hl hr ihl ihr =>
    intro j hj
    rename_i k l r
    have hj3 : j ∈ l.inorder ∨ j = k ∨ j ∈ r.inorder := by
      simpa [BT.inorder] using hj
    rcases hj3 with h | h | h
    · exact ihl j h
    · subst h; exact hne
    · exact ihr j h

/-- Walking a context down from an extraction of the plugged tree yields
an extraction of the plugged subtree at its own root label. -/
theorem plug_extract_down :
    ∀ (ctx : List (Nat × Nat × BT)) {arr : Array (Rbnode α β)} {Q : BT}
      {rt : Nat}, Extracts arr rt (plug ctx Q) →
      Extracts arr Q.rootIdx Q := by
  intro ctx
  induction ctx with
  | nil =>
    intro arr Q rt h
    rwa [← h.rootIdx_eq] at h
  | cons layer rest ih =>
    intro arr Q rt h
    obtain ⟨d, i, sib⟩ := layer
    have hwrap : Extracts arr (if d = 0 then BT.node Q i sib
        else BT.node sib i Q).rootIdx (if d = 0 then BT.node Q i sib
        else BT.node sib i Q) := ih (show Extracts arr rt (plug rest _) from h)
    by_cases hd : d = 0
    · rw [if_pos hd] at hwrap
      cases hwrap with
      | node hne hl hr => rw [hl.rootIdx_eq]; exact hl
    · rw [if_neg hd] at hwrap
      cases hwrap with
      | node hne hl hr => rw [hr.rootIdx_eq]; exact hr

theorem nodup_middle {pre mid post : List Nat}
    (h : (pre ++ mid ++ post).Nodup) : mid.Nodup := by
  rw [List.append_assoc] at h
  exact List.Nodup.sublist
    ((List.sublist_append_left mid post).trans
      (List.sublist_append_right pre (mid ++ post))) h

/-- Replacing the plugged subtree by one with the same root label
preserves extraction of the whole, when nothing outside the subtree's
labels changed. -/
theorem plug_replace_extract :
    ∀ (ctx : List (Nat × Nat × BT)) (arr arr' : Array (Rbnode α β))
      (Q Q' : BT) (rt : Nat),
      Extracts arr rt (plug ctx Q) →
      (plug ctx Q).inorder.Nodup →
      Q.rootIdx = Q'.rootIdx →
      Extracts arr' Q'.rootIdx Q' →
      (∀ j ∈ (plug ctx Q).inorder, j ∉ Q.inorder →
          (nd arr' j).child0 = (nd arr j).child0 ∧
          (nd arr' j).child1 = (nd arr j).child1) →
      Extracts arr' rt (plug ctx Q') := by
  intro ctx
  induction ctx with
  | nil =>
    intro arr arr' Q Q' rt hex hnd hroots hQ' hframe
    show Extracts arr' rt Q'
    have h1 : Q.rootIdx = rt := hex.rootIdx_eq
    rw [← h1, hroots]
    exact hQ'
  | cons layer rest ih =>
    intro arr arr' Q Q' rt hex hnd hroots hQ' hframe
    obtain ⟨d, i, sib⟩ := layer
    by_cases hd : d = 0
    · have hpe : plug ((d, i, sib) :: rest) Q = plug rest (BT.node Q i sib) := by
        show plug rest (if d = 0 then BT.node Q i sib else BT.node sib i Q) = _
        rw [if_pos hd]
      have hpe' : plug ((d, i, sib) :: rest) Q' =
          plug rest (BT.node Q' i sib) := by
        show plug rest (if d = 0 then BT.node Q' i sib else BT.node sib i Q') = _
        rw [if_pos hd]
      rw [hpe] at hex hnd hframe
      rw [hpe']
      have hQb := plug_extract_down rest hex
      have hndw : (BT.node Q i sib).inorder.Nodup := by
        rw [plug_inorder] at hnd
        exact nodup_middle hnd
      have hmemtot : ∀ j ∈ (BT.node Q i sib).inorder,
          j ∈ (plug rest (BT.node Q i sib)).inorder := by
        intro j hj
        rw [plug_inorder]
        simp only [List.mem_append]
        exact Or.inl (Or.inr hj)
      have hndQ : (Q.inorder ++ i :: sib.inorder).Nodup := hndw
      have hiQ : i ∉ Q.inorder := by
        rw [List.nodup_append] at hndQ
        exact fun hmem => hndQ.2.2 hmem (List.mem_cons_self _ _)
      have hsibQ : ∀ m ∈ sib.inorder, m ∉ Q.inorder := by
        intro m hm hmem
        rw [List.nodup_append] at hndQ
        exact hndQ.2.2 hmem (List.mem_cons_of_mem _ hm)
      cases hQb with
      | node hne hcl hcr =>
        have hiframe := hframe i (hmemtot i (by simp [BT.inorder])) hiQ
        refine ih arr arr' (BT.node Q i sib) (BT.node Q' i sib) rt hex hnd
          rfl ?_ ?_
        · refine Extracts.node hne ?_ ?_
          · show Extracts arr' (nd arr' i).child0 Q'
            have hcl' : Extracts arr (nd arr i).child0 Q := hcl
            rw [hiframe.1, ← hcl'.rootIdx_eq, hroots]
            exact hQ'
          · show Extracts arr' (nd arr' i).child1 sib
            rw [hiframe.2]
            have hcr' : Extracts arr (nd arr i).child1 sib := hcr
            exact hcr'.of_agree fun m hm => hframe m
              (hmemtot m (by simp [BT.inorder, hm])) (hsibQ m hm)
        · intro j hj hjn
          refine hframe j hj fun hmem => hjn ?_
          simp [BT.inorder, hmem]
    · have hpe : plug ((d, i, sib) :: rest) Q = plug rest (BT.node sib i Q) := by
        show plug rest (if d = 0 then BT.node Q i sib else BT.node sib i Q) = _
        rw [if_neg hd]
      have hpe' : plug ((d, i, sib) :: rest) Q' =
          plug rest (BT.node sib i Q') := by
        show plug rest (if d = 0 then BT.node Q' i sib else BT.node sib i Q') = _
        rw [if_neg hd]
      rw [hpe] at hex hnd hframe
      rw [hpe']
      have hQb := plug_extract_down rest hex
      have hndw : (BT.node sib i Q).inorder.Nodup := by
        rw [plug_inorder] at hnd
        exact nodup_middle hnd
      have hmemtot : ∀ j ∈ (BT.node sib i Q).inorder,
          j ∈ (plug rest (BT.node sib i Q)).inorder := by
        intro j hj
        rw [plug_inorder]
        simp only [List.mem_append]
        exact Or.inl (Or.inr hj)
      have hndQ : (sib.inorder ++ i :: Q.inorder).Nodup := hndw
      have hiQ : i ∉ Q.inorder := by
        rw [List.nodup_append, List.nodup_cons] at hndQ
        exact hndQ.2.1.1
      have hsibQ : ∀ m ∈ sib.inorder, m ∉ Q.inorder := by
        intro m hm hmem
        rw [List.nodup_append] at hndQ
        exact hndQ.2.2 hm (List.mem_cons_of_mem _ hmem)
      cases hQb with
      | node hne hcl hcr =>
        have hiframe := hframe i (hmemtot i (by simp [BT.inorder])) hiQ
        refine ih arr arr' (BT.node sib i Q) (BT.node sib i Q') rt hex hnd
          rfl ?_ ?_
        · refine Extracts.node hne ?_ ?_
          · show Extracts arr' (nd arr' i).child0 sib
            rw [hiframe.1]
            have hcl' : Extracts arr (nd arr i).child0 sib := hcl
            exact hcl'.of_agree fun m hm => hframe m
              (hmemtot m (by simp [BT.inorder, hm])) (hsibQ m hm)
          · show Extracts arr' (nd arr' i).child1 Q'
            have hcr' : Extracts arr (nd arr i).child1 Q := hcr
            rw [hiframe.2, ← hcr'.rootIdx_eq, hroots]
            exact hQ'
        · intro j hj hjn
          refine hframe j hj fun hmem => hjn ?_
          simp [BT.inorder, hmem]

/-- The label the plugged subtree's parent pointer must carry: the
innermost context layer's label (`p0` for the empty context). -/
def holeParent : List (Nat × Nat × BT) → Nat → Nat
  | [], p0 => p0
  | (_, i, _) :: _, _ => i

theorem plug_parentOk_down :
    ∀ (ctx : List (Nat × Nat × BT)) {arr : Array (Rbnode α β)} {Q : BT}
      (p0 : Nat), parentOkBT arr (plug ctx Q) p0 = true →
      parentOkBT arr Q (holeParent ctx p0) = true := by
  intro ctx
  induction ctx with
  | nil => intro arr Q p0 h; exact h
  | cons layer rest ih =>
    intro arr Q p0 h
    obtain ⟨d, i, sib⟩ := layer
    show parentOkBT arr Q i = true
    have h' : parentOkBT arr (plug rest
        (if d = 0 then BT.node Q i sib else BT.node sib i Q)) p0 = true := h
    have hw := ih p0 h'
    by_cases hd : d = 0
    · rw [if_pos hd] at hw
      exact (parentOkBT_node hw).2.1
    · rw [if_neg hd] at hw
      exact (parentOkBT_node hw).2.2

/-- Replacing the plugged subtree by one whose parent layout agrees under
any expected parent, when no parent pointer outside the subtree's labels
changed. -/
theorem plug_replace_parentOk :
    ∀ (ctx : List (Nat × Nat × BT)) (arr arr' : Array (Rbnode α β))
      (Q Q' : BT) (p0 : Nat),
      (plug ctx Q).inorder.Nodup →
      parentOkBT arr (plug ctx Q) p0 = true →
      (∀ q, parentOkBT arr Q q = true → parentOkBT arr' Q' q = true) →
      (∀ j ∈ (plug ctx Q).inorder, j ∉ Q.inorder →
          (nd arr' j).parent = (nd arr j).parent) →
      parentOkBT arr' (plug ctx Q') p0 = true := by
  intro ctx
  induction ctx with
  | nil =>
    intro arr arr' Q Q' p0 hnd hpar hq hframe
    exact hq p0 hpar
  | cons layer rest ih =>
    intro arr arr' Q Q' p0 hnd hpar hq hframe
    obtain ⟨d, i, sib⟩ := layer
    by_cases hd : d = 0
    · have hpe : plug ((d, i, sib) :: rest) Q = plug rest (BT.node Q i sib) := by
        show plug rest (if d = 0 then BT.node Q i sib else BT.node sib i Q) = _
        rw [if_pos hd]
      have hpe' : plug ((d, i, sib) :: rest) Q' =
          plug rest (BT.node Q' i sib) := by
        show plug rest (if d = 0 then BT.node Q' i sib else BT.node sib i Q') = _
        rw [if_pos hd]
      rw [hpe] at hnd hpar hframe
      rw [hpe']
      have hndw : (BT.node Q i sib).inorder.Nodup := by
        rw [plug_inorder] at hnd
        exact nodup_middle hnd
      have hmemtot : ∀ j ∈ (BT.node Q i sib).inorder,
          j ∈ (plug rest (BT.node Q i sib)).inorder := by
        intro j hj
        rw [plug_inorder]
        simp only [List.mem_append]
        exact Or.inl (Or.inr hj)
      have hndQ : (Q.inorder ++ i :: sib.inorder).Nodup := hndw
      have hiQ : i ∉ Q.inorder := by
        rw [List.nodup_append] at hndQ
        exact fun hmem => hndQ.2.2 hmem (List.mem_cons_self _ _)
      have hsibQ : ∀ m ∈ sib.inorder, m ∉ Q.inorder := by
        intro m hm hmem
        rw [List.nodup_append] at hndQ
        exact hndQ.2.2 hmem (List.mem_cons_of_mem _ hm)
      refine ih arr arr' (BT.node Q i sib) (BT.node Q' i sib) p0 hnd hpar
        ?_ ?_
      · intro q hOk
        have h3 := parentOkBT_node hOk
        show (decide ((nd arr' i).parent = q) && parentOkBT arr' Q' i &&
              parentOkBT arr' sib i) = true
        rw [hframe i (hmemtot i (by simp [BT.inorder])) hiQ, h3.1,
            hq i h3.2.1,
            parentOkBT_of_agree sib i h3.2.2 fun m hm => hframe m
              (hmemtot m (by simp [BT.inorder, hm])) (hsibQ m hm)]
        simp
      · intro j hj hjn
        refine hframe j hj fun hmem => hjn ?_
        simp [BT.inorder, hmem]
    · have hpe : plug ((d, i, sib) :: rest) Q = plug rest (BT.node sib i Q) := by
        show plug rest (if d = 0 then BT.node Q i sib else BT.node sib i Q) = _
        rw [if_neg hd]
      have hpe' : plug ((d, i, sib) :: rest) Q' =
          plug rest (BT.node sib i Q') := by
        show plug rest (if d = 0 then BT.node Q' i sib else BT.node sib i Q') = _
        rw [if_neg hd]
      rw [hpe] at hnd hpar hframe
      rw [hpe']
      have hndw : (BT.node sib i Q).inorder.Nodup := by
        rw [plug_inorder] at hnd
        exact nodup_middle hnd
      have hmemtot : ∀ j ∈ (BT.node sib i Q).inorder,
          j ∈ (plug rest (BT.node sib i Q)).inorder := by
        intro j hj
        rw [plug_inorder]
        simp only [List.mem_append]
        exact Or.inl (Or.inr hj)
      have hndQ : (sib.inorder ++ i :: Q.inorder).Nodup := hndw
      have hiQ : i ∉ Q.inorder := by
        rw [List.nodup_append, List.nodup_cons] at hndQ
        exact hndQ.2.1.1
      have hsibQ : ∀ m ∈ sib.inorder, m ∉ Q.inorder := by
        intro m hm hmem
        rw [List.nodup_append] at hndQ
        exact hndQ.2.2 hm (List.mem_cons_of_mem _ hmem)
      refine ih arr arr' (BT.node sib i Q) (BT.node sib i Q') p0 hnd hpar
        ?_ ?_
      · intro q hOk
        have h3 := parentOkBT_node hOk
        show (decide ((nd arr' i).parent = q) && parentOkBT arr' sib i &&
              parentOkBT arr' Q' i) = true
        rw [hframe i (hmemtot i (by simp [BT.inorder])) hiQ, h3.1,
            hq i h3.2.2,
            parentOkBT_of_agree sib i h3.2.1 fun m hm => hframe m
              (hmemtot m (by simp [BT.inorder, hm])) (hsibQ m hm)]
        simp
      · intro j hj hjn
        refine hframe j hj fun hmem => hjn ?_
        simp [BT.inorder, hmem]

/-! ### Per-field write tracking for the remaining fields -/

theorem red_setParent (arr : Array (Rbnode α β)) (i p j : Nat) :
    (nd (setParent arr i p) j).red = (nd arr j).red := by
  rw [nd_setParent]; split <;> simp_all

theorem red_setChild (arr : Array (Rbnode α β)) (i w c j : Nat) :
    (nd (setChild arr i w c) j).red = (nd arr j).red := by
  rw [nd_setChild]
  split
  · split <;> simp_all
  · rfl

theorem red_setKeyData (arr : Array (Rbnode α β)) (i : Nat) (k : α) (d : β)
    (j : Nat) :
    (nd (setKeyData arr i k d) j).red = (nd arr j).red := by
  rw [nd_setKeyData]; split <;> simp_all

theorem red_setRed (arr : Array (Rbnode α β)) (i : Nat) (b : Bool) (j : Nat) :
    (nd (setRed arr i b) j).red =
      if j = i ∧ i < arr.size then b else (nd arr j).red := by
  rw [nd_setRed]; split <;> simp_all

/-- Rotation never changes a colour. -/
theorem red_rotate (arr : Array (Rbnode α β)) (g s gs j : Nat) :
    (nd (rotate arr g s gs) j).red = (nd arr j).red := by
  unfold rotate
  split <;>
    simp only [red_setParent, red_setChild,
      apply_ite (fun a : Array (Rbnode α β) => (nd a j).red), ite_self]

theorem parent_setChild (arr : Array (Rbnode α β)) (i w c j : Nat) :
    (nd (setChild arr i w c) j).parent = (nd arr j).parent := by
  rw [nd_setChild]
  split
  · split <;> simp_all
  · rfl

theorem parent_setRed (arr : Array (Rbnode α β)) (i : Nat) (b : Bool) (j : Nat) :
    (nd (setRed arr i b) j).parent = (nd arr j).parent := by
  rw [nd_setRed]; split <;> simp_all

theorem parent_setKeyData (arr : Array (Rbnode α β)) (i : Nat) (k : α) (d : β)
    (j : Nat) :
    (nd (setKeyData arr i k d) j).parent = (nd arr j).parent := by
  rw [nd_setKeyData]; split <;> simp_all

theorem parent_setParent (arr : Array (Rbnode α β)) (i p j : Nat) :
    (nd (setParent arr i p) j).parent =
      if j = i ∧ i < arr.size then p else (nd arr j).parent := by
  rw [nd_setParent]; split <;> simp_all

theorem childs_setRed2 (arr : Array (Rbnode α β)) (i : Nat) (b : Bool) (j : Nat) :
    (nd (setRed arr i b) j).child0 = (nd arr j).child0 ∧
    (nd (setRed arr i b) j).child1 = (nd arr j).child1 :=
  childs_setRed arr i b j

theorem child0_setChild (arr : Array (Rbnode α β)) (i w c j : Nat) :
    (nd (setChild arr i w c) j).child0 =
      if j = i ∧ i < arr.size ∧ w = 0 then c else (nd arr j).child0 := by
  rw [nd_setChild]
  split
  · rename_i h
    split <;> rename_i hw
    · rw [if_pos ⟨h.1, h.2, hw⟩]
    · rw [if_neg (by tauto)]
      simp [h.1]
  · rename_i h
    rw [if_neg (by tauto)]

theorem child1_setChild (arr : Array (Rbnode α β)) (i w c j : Nat) :
    (nd (setChild arr i w c) j).child1 =
      if j = i ∧ i < arr.size ∧ w ≠ 0 then c else (nd arr j).child1 := by
  rw [nd_setChild]
  split
  · rename_i h
    split <;> rename_i hw
    · rw [if_neg (by tauto)]
      simp [h.1]
    · rw [if_pos ⟨h.1, h.2, hw⟩]
  · rename_i h
    rw [if_neg (by tauto)]

theorem child0_setParent (arr : Array (Rbnode α β)) (i p j : Nat) :
    (nd (setParent arr i p) j).child0 = (nd arr j).child0 :=
  (childs_setParent arr i p j).1

theorem child1_setParent (arr : Array (Rbnode α β)) (i p j : Nat) :
    (nd (setParent arr i p) j).child1 = (nd arr j).child1 :=
  (childs_setParent arr i p j).2

theorem child0_setRed (arr : Array (Rbnode α β)) (i : Nat) (b : Bool) (j : Nat) :
    (nd (setRed arr i b) j).child0 = (nd arr j).child0 :=
  (childs_setRed arr i b j).1

theorem child1_setRed (arr : Array (Rbnode α β)) (i : Nat) (b : Bool) (j : Nat) :
    (nd (setRed arr i b) j).child1 = (nd arr j).child1 :=
  (childs_setRed arr i b j).2

set_option maxHeartbeats 3200000 in
/-- What each slot holds after `rotate arr g s gs` (`gs` a child of `s`
but not its left child, so the rotation internally picks `left = 1`):
stated for distinct `g`, `s`, `gs` with in-bounds writes.  The
transferred subtree root is `(nd arr gs).child0`. -/
theorem rotate_reads (arr : Array (Rbnode α β)) (g s gs : Nat)
    (hsz : s < arr.size) (hgsz : gs < arr.size) (hgz : g < arr.size)
    (hgns : g ≠ s) (hgngs : g ≠ gs) (hsgs : s ≠ gs)
    (hleft : ¬ gs = (nd arr s).child0)
    (hb1s : (nd arr gs).child0 ≠ s) (hb1gs : (nd arr gs).child0 ≠ gs) :
    (nd (rotate arr g s gs) s).child0 = (nd arr s).child0 ∧
    (nd (rotate arr g s gs) s).child1 = (nd arr gs).child0 ∧
    (nd (rotate arr g s gs) s).parent = gs ∧
    (nd (rotate arr g s gs) gs).child0 = s ∧
    (nd (rotate arr g s gs) gs).child1 = (nd arr gs).child1 ∧
    (nd (rotate arr g s gs) gs).parent = g ∧
    ((nd arr gs).child0 ≠ g →
      (nd (rotate arr g s gs) g).parent = (nd arr g).parent) ∧
    ((nd arr gs).child0 ≠ g →
      (nd (rotate arr g s gs) (nd arr gs).child0).child0 =
        (nd arr (nd arr gs).child0).child0 ∧
      (nd (rotate arr g s gs) (nd arr gs).child0).child1 =
        (nd arr (nd arr gs).child0).child1) ∧
    ((nd arr gs).child0 < arr.size →
      (nd (rotate arr g s gs) (nd arr gs).child0).parent = s) ∧
    (s = (nd arr g).child0 →
      (nd (rotate arr g s gs) g).child0 = gs ∧
      (nd (rotate arr g s gs) g).child1 = (nd arr g).child1) ∧
    (¬ s = (nd arr g).child0 →
      (nd (rotate arr g s gs) g).child0 = (nd arr g).child0 ∧
      (nd (rotate arr g s gs) g).child1 = gs) ∧
    (∀ j, j ≠ s → j ≠ gs → j ≠ g → j ≠ (nd arr gs).child0 →
      nd (rotate arr g s gs) j = nd arr j) := by
  have hexp : rotate arr g s gs = setParent
      (if s = (nd arr g).child0
       then setChild (setParent (setChild (setParent
              (setChild arr s 1 ((nd arr gs).child0)) ((nd arr gs).child0) s)
              gs 0 s) s gs) g 0 gs
       else setChild (setParent (setChild (setParent
              (setChild arr s 1 ((nd arr gs).child0)) ((nd arr gs).child0) s)
              gs 0 s) s gs) g 1 gs) gs g := by
    unfold rotate
    rw [if_neg hleft]
    show setParent (if s = (nd (setParent (setChild (setParent
        (setChild arr s 1 (childW (nd arr gs) (1 - 1)))
        (childW (nd (setChild arr s 1 (childW (nd arr gs) (1 - 1))) gs) (1 - 1))
        s) gs (1 - 1) s) s gs) g).child0 then _ else _) gs g = _
    have hcw : ∀ n : Rbnode α β, childW n (1 - 1) = n.child0 := fun _ => rfl
    rw [hcw, hcw]
    have hn1gs : nd (setChild arr s 1 ((nd arr gs).child0)) gs = nd arr gs := by
      rw [nd_setChild, if_neg (by tauto)]
    rw [hn1gs]
    have hn4g : (nd (setParent (setChild (setParent
        (setChild arr s 1 ((nd arr gs).child0)) ((nd arr gs).child0) s)
        gs 0 s) s gs) g).child0 = (nd arr g).child0 := by
      rw [child0_setParent, child0_setChild, if_neg (by tauto),
          child0_setParent, child0_setChild, if_neg (by tauto)]
    rw [hn4g]
  rw [hexp]
  by_cases hd5 : s = (nd arr g).child0
  · rw [if_pos hd5]
    refine ⟨?_, ?_, ?_, ?_, ?_, ?_, fun hb1g => ?_, fun hb1g => ⟨?_, ?_⟩, ?_,
            fun _ => ⟨?_, ?_⟩, fun hc => absurd hd5 hc, ?_⟩
    pick_goal 7
    · rw [parent_setParent, if_neg (by tauto), parent_setChild,
          parent_setParent, if_neg (by tauto), parent_setChild,
          parent_setParent, if_neg (by tauto), parent_setChild]
    · rw [child0_setParent, child0_setChild, if_neg (by tauto),
          child0_setParent, child0_setChild, if_neg (by tauto),
          child0_setParent, child0_setChild, if_neg (by tauto)]
    · rw [child1_setParent, child1_setChild, if_neg (by tauto),
          child1_setParent, child1_setChild, if_neg (by tauto),
          child1_setParent, child1_setChild, if_pos ⟨rfl, hsz, (by omega)⟩]
    · rw [parent_setParent, if_neg (by tauto), parent_setChild,
          parent_setParent, if_pos ⟨rfl, (by simp only [size_setChild, size_setParent]; exact hsz)⟩]
    · rw [child0_setParent, child0_setChild, if_neg (by tauto),
          child0_setParent, child0_setChild, if_pos ⟨rfl, (by simp only [size_setParent, size_setChild]; exact hgsz), rfl⟩]
    · rw [child1_setParent, child1_setChild, if_neg (by tauto),
          child1_setParent, child1_setChild, if_neg (by tauto),
          child1_setParent, child1_setChild, if_neg (by tauto)]
    · rw [parent_setParent, if_pos ⟨rfl, (by simp only [size_setChild, size_setParent]; exact hgsz)⟩]
    · rw [child0_setParent, child0_setChild, if_neg (by tauto),
          child0_setParent, child0_setChild, if_neg (by tauto),
          child0_setParent, child0_setChild, if_neg (by tauto)]
    · rw [child1_setParent, child1_setChild, if_neg (by tauto),
          child1_setParent, child1_setChild, if_neg (by tauto),
          child1_setParent, child1_setChild, if_neg (by tauto)]
    · intro hlt
      rw [parent_setParent, if_neg (by tauto), parent_setChild,
          parent_setParent, if_neg (by tauto), parent_setChild,
          parent_setParent, if_pos ⟨rfl, (by rw [size_setChild]; exact hlt)⟩]
    · rw [child0_setParent, child0_setChild, if_pos ⟨rfl, (by simp only [size_setParent, size_setChild]; exact hgz), rfl⟩]
    · rw [child1_setParent, child1_setChild, if_neg (by tauto),
          child1_setParent, child1_setChild, if_neg (by tauto),
          child1_setParent, child1_setChild, if_neg (by tauto)]
    · intro j hj1 hj2 hj3 hj4
      rw [nd_setParent, if_neg (by tauto), nd_setChild, if_neg (by tauto),
          nd_setParent, if_neg (by tauto), nd_setChild, if_neg (by tauto),
          nd_setParent, if_neg (by tauto), nd_setChild, if_neg (by tauto)]
  · rw [if_neg hd5]
    refine ⟨?_, ?_, ?_, ?_, ?_, ?_, fun hb1g => ?_, fun hb1g => ⟨?_, ?_⟩, ?_,
            fun hc => absurd hc hd5, fun _ => ⟨?_, ?_⟩, ?_⟩
    pick_goal 7
    · rw [parent_setParent, if_neg (by tauto), parent_setChild,
          parent_setParent, if_neg (by tauto), parent_setChild,
          parent_setParent, if_neg (by tauto), parent_setChild]
    · rw [child0_setParent, child0_setChild, if_neg (by tauto),
          child0_setParent, child0_setChild, if_neg (by tauto),
          child0_setParent, child0_setChild, if_neg (by tauto)]
    · rw [child1_setParent, child1_setChild, if_neg (by tauto),
          child1_setParent, child1_setChild, if_neg (by tauto),
          child1_setParent, child1_setChild, if_pos ⟨rfl, hsz, (by omega)⟩]
    · rw [parent_setParent, if_neg (by tauto), parent_setChild,
          parent_setParent, if_pos ⟨rfl, (by simp only [size_setChild, size_setParent]; exact hsz)⟩]
    · rw [child0_setParent, child0_setChild, if_neg (by tauto),
          child0_setParent, child0_setChild, if_pos ⟨rfl, (by simp only [size_setParent, size_setChild]; exact hgsz), rfl⟩]
    · rw [child1_setParent, child1_setChild, if_neg (by tauto),
          child1_setParent, child1_setChild, if_neg (by tauto),
          child1_setParent, child1_setChild, if_neg (by tauto)]
    · rw [parent_setParent, if_pos ⟨rfl, (by simp only [size_setChild, size_setParent]; exact hgsz)⟩]
    · rw [child0_setParent, child0_setChild, if_neg (by tauto),
          child0_setParent, child0_setChild, if_neg (by tauto),
          child0_setParent, child0_setChild, if_neg (by tauto)]
    · rw [child1_setParent, child1_setChild, if_neg (by tauto),
          child1_setParent, child1_setChild, if_neg (by tauto),
          child1_setParent, child1_setChild, if_neg (by tauto)]
    · intro hlt
      rw [parent_setParent, if_neg (by tauto), parent_setChild,
          parent_setParent, if_neg (by tauto), parent_setChild,
          parent_setParent, if_pos ⟨rfl, (by rw [size_setChild]; exact hlt)⟩]
    · rw [child0_setParent, child0_setChild, if_neg (by tauto),
          child0_setParent, child0_setChild, if_neg (by tauto),
          child0_setParent, child0_setChild, if_neg (by tauto)]
    · rw [child1_setParent, child1_setChild, if_pos ⟨rfl, (by simp only [size_setParent, size_setChild]; exact hgz), (by omega)⟩]
    · intro j hj1 hj2 hj3 hj4
      rw [nd_setParent, if_neg (by tauto), nd_setChild, if_neg (by tauto),
          nd_setParent, if_neg (by tauto), nd_setChild, if_neg (by tauto),
          nd_setParent, if_neg (by tauto), nd_setChild, if_neg (by tauto)]

set_option maxHeartbeats 3200000 in
/-- Mirror image of `rotate_reads`: `gs` is `s`'s left child, so the
rotation internally picks `left = 0` and transfers `(nd arr gs).child1`. -/
theorem rotate_reads_left (arr : Array (Rbnode α β)) (g s gs : Nat)
    (hsz : s < arr.size) (hgsz : gs < arr.size) (hgz : g < arr.size)
    (hgns : g ≠ s) (hgngs : g ≠ gs) (hsgs : s ≠ gs)
    (hleft : gs = (nd arr s).child0)
    (hb2s : (nd arr gs).child1 ≠ s) (hb2gs : (nd arr gs).child1 ≠ gs) :
    (nd (rotate arr g s gs) s).child1 = (nd arr s).child1 ∧
    (nd (rotate arr g s gs) s).child0 = (nd arr gs).child1 ∧
    (nd (rotate arr g s gs) s).parent = gs ∧
    (nd (rotate arr g s gs) gs).child1 = s ∧
    (nd (rotate arr g s gs) gs).child0 = (nd arr gs).child0 ∧
    (nd (rotate arr g s gs) gs).parent = g ∧
    ((nd arr gs).child1 ≠ g →
      (nd (rotate arr g s gs) g).parent = (nd arr g).parent) ∧
    ((nd arr gs).child1 ≠ g →
      (nd (rotate arr g s gs) (nd arr gs).child1).child0 =
        (nd arr (nd arr gs).child1).child0 ∧
      (nd (rotate arr g s gs) (nd arr gs).child1).child1 =
        (nd arr (nd arr gs).child1).child1) ∧
    ((nd arr gs).child1 < arr.size →
      (nd (rotate arr g s gs) (nd arr gs).child1).parent = s) ∧
    (s = (nd arr g).child0 →
      (nd (rotate arr g s gs) g).child0 = gs ∧
      (nd (rotate arr g s gs) g).child1 = (nd arr g).child1) ∧
    (¬ s = (nd arr g).child0 →
      (nd (rotate arr g s gs) g).child0 = (nd arr g).child0 ∧
      (nd (rotate arr g s gs) g).child1 = gs) ∧
    (∀ j, j ≠ s → j ≠ gs → j ≠ g → j ≠ (nd arr gs).child1 →
      nd (rotate arr g s gs) j = nd arr j) := by
  have hexp : rotate arr g s gs = setParent
      (if s = (nd arr g).child0
       then setChild (setParent (setChild (setParent
              (setChild arr s 0 ((nd arr gs).child1)) ((nd arr gs).child1) s)
              gs 1 s) s gs) g 0 gs
       else setChild (setParent (setChild (setParent
              (setChild arr s 0 ((nd arr gs).child1)) ((nd arr gs).child1) s)
              gs 1 s) s gs) g 1 gs) gs g := by
    unfold rotate
    rw [if_pos hleft]
    show setParent (if s = (nd (setParent (setChild (setParent
        (setChild arr s 0 (childW (nd arr gs) (1 - 0)))
        (childW (nd (setChild arr s 0 (childW (nd arr gs) (1 - 0))) gs) (1 - 0))
        s) gs (1 - 0) s) s gs) g).child0 then _ else _) gs g = _
    have hcw : ∀ n : Rbnode α β, childW n (1 - 0) = n.child1 := fun _ => rfl
    rw [hcw, hcw]
    have hn1gs : nd (setChild arr s 0 ((nd arr gs).child1)) gs = nd arr gs := by
      rw [nd_setChild, if_neg (by tauto)]
    rw [hn1gs]
    have hn4g : (nd (setParent (setChild (setParent
        (setChild arr s 0 ((nd arr gs).child1)) ((nd arr gs).child1) s)
        gs 1 s) s gs) g).child0 = (nd arr g).child0 := by
      rw [child0_setParent, child0_setChild, if_neg (by tauto),
          child0_setParent, child0_setChild, if_neg (by tauto)]
    rw [hn4g]
  rw [hexp]
  by_cases hd5 : s = (nd arr g).child0
  · rw [if_pos hd5]
    refine ⟨?_, ?_, ?_, ?_, ?_, ?_, fun hb2g => ?_, fun hb2g => ⟨?_, ?_⟩, ?_,
            fun _ => ⟨?_, ?_⟩, fun hc => absurd hd5 hc, ?_⟩
    pick_goal 7
    · rw [parent_setParent, if_neg (by tauto), parent_setChild,
          parent_setParent, if_neg (by tauto), parent_setChild,
          parent_setParent, if_neg (by tauto), parent_setChild]
    · rw [child1_setParent, child1_setChild, if_neg (by tauto),
          child1_setParent, child1_setChild, if_neg (by tauto),
          child1_setParent, child1_setChild, if_neg (by tauto)]
    · rw [child0_setParent, child0_setChild, if_neg (by tauto),
          child0_setParent, child0_setChild, if_neg (by tauto),
          child0_setParent, child0_setChild, if_pos ⟨rfl, hsz, rfl⟩]
    · rw [parent_setParent, if_neg (by tauto), parent_setChild,
          parent_setParent, if_pos ⟨rfl, (by simp only [size_setChild, size_setParent]; exact hsz)⟩]
    · rw [child1_setParent, child1_setChild, if_neg (by tauto),
          child1_setParent, child1_setChild, if_pos ⟨rfl, (by simp only [size_setParent, size_setChild]; exact hgsz), (by omega)⟩]
    · rw [child0_setParent, child0_setChild, if_neg (by tauto),
          child0_setParent, child0_setChild, if_neg (by tauto),
          child0_setParent, child0_setChild, if_neg (by tauto)]
    · rw [parent_setParent, if_pos ⟨rfl, (by simp only [size_setChild, size_setParent]; exact hgsz)⟩]
    · rw [child0_setParent, child0_setChild, if_neg (by tauto),
          child0_setParent, child0_setChild, if_neg (by tauto),
          child0_setParent, child0_setChild, if_neg (by tauto)]
    · rw [child1_setParent, child1_setChild, if_neg (by tauto),
          child1_setParent, child1_setChild, if_neg (by tauto),
          child1_setParent, child1_setChild, if_neg (by tauto)]
    · intro hlt
      rw [parent_setParent, if_neg (by tauto), parent_setChild,
          parent_setParent, if_neg (by tauto), parent_setChild,
          parent_setParent, if_pos ⟨rfl, (by rw [size_setChild]; exact hlt)⟩]
    · rw [child0_setParent, child0_setChild, if_pos ⟨rfl, (by simp only [size_setParent, size_setChild]; exact hgz), rfl⟩]
    · rw [child1_setParent, child1_setChild, if_neg (by tauto),
          child1_setParent, child1_setChild, if_neg (by tauto),
          child1_setParent, child1_setChild, if_neg (by tauto)]
    · intro j hj1 hj2 hj3 hj4
      rw [nd_setParent, if_neg (by tauto), nd_setChild, if_neg (by tauto),
          nd_setParent, if_neg (by tauto), nd_setChild, if_neg (by tauto),
          nd_setParent, if_neg (by tauto), nd_setChild, if_neg (by tauto)]
  · rw [if_neg hd5]
    refine ⟨?_, ?_, ?_, ?_, ?_, ?_, fun hb2g => ?_, fun hb2g => ⟨?_, ?_⟩, ?_,
            fun hc => absurd hc hd5, fun _ => ⟨?_, ?_⟩, ?_⟩
    pick_goal 7
    · rw [parent_setParent, if_neg (by tauto), parent_setChild,
          parent_setParent, if_neg (by tauto), parent_setChild,
          parent_setParent, if_neg (by tauto), parent_setChild]
    · rw [child1_setParent, child1_setChild, if_neg (by tauto),
          child1_setParent, child1_setChild, if_neg (by tauto),
          child1_setParent, child1_setChild, if_neg (by tauto)]
    · rw [child0_setParent, child0_setChild, if_neg (by tauto),
          child0_setParent, child0_setChild, if_neg (by tauto),
          child0_setParent, child0_setChild, if_pos ⟨rfl, hsz, rfl⟩]
    · rw [parent_setParent, if_neg (by tauto), parent_setChild,
          parent_setParent, if_pos ⟨rfl, (by simp only [size_setChild, size_setParent]; exact hsz)⟩]
    · rw [child1_setParent, child1_setChild, if_neg (by tauto),
          child1_setParent, child1_setChild, if_pos ⟨rfl, (by simp only [size_setParent, size_setChild]; exact hgsz), (by omega)⟩]
    · rw [child0_setParent, child0_setChild, if_neg (by tauto),
          child0_setParent, child0_setChild, if_neg (by tauto),
          child0_setParent, child0_setChild, if_neg (by tauto)]
    · rw [parent_setParent, if_pos ⟨rfl, (by simp only [size_setChild, size_setParent]; exact hgsz)⟩]
    · rw [child0_setParent, child0_setChild, if_neg (by tauto),
          child0_setParent, child0_setChild, if_neg (by tauto),
          child0_setParent, child0_setChild, if_neg (by tauto)]
    · rw [child1_setParent, child1_setChild, if_neg (by tauto),
          child1_setParent, child1_setChild, if_neg (by tauto),
          child1_setParent, child1_setChild, if_neg (by tauto)]
    · intro hlt
      rw [parent_setParent, if_neg (by tauto), parent_setChild,
          parent_setParent, if_neg (by tauto), parent_setChild,
          parent_setParent, if_pos ⟨rfl, (by rw [size_setChild]; exact hlt)⟩]
    · rw [child0_setParent, child0_setChild, if_neg (by tauto),
          child0_setParent, child0_setChild, if_neg (by tauto),
          child0_setParent, child0_setChild, if_neg (by tauto)]
    · rw [child1_setParent, child1_setChild, if_pos ⟨rfl, (by simp only [size_setParent, size_setChild]; exact hgz), (by omega)⟩]
    · intro j hj1 hj2 hj3 hj4
      rw [nd_setParent, if_neg (by tauto), nd_setChild, if_neg (by tauto),
          nd_setParent, if_neg (by tauto), nd_setChild, if_neg (by tauto),
          nd_setParent, if_neg (by tauto), nd_setChild, if_neg (by tauto)]

/-- Constructor direction of `parentOkBT` on a node. -/
theorem parentOkBT_build {arr : Array (Rbnode α β)} {l : BT} {i : Nat}
    {r : BT} {p : Nat} (h1 : (nd arr i).parent = p)
    (h2 : parentOkBT arr l i = true) (h3 : parentOkBT arr r i = true) :
    parentOkBT arr (.node l i r) p = true := by
  show (decide ((nd arr i).parent = p) && parentOkBT arr l i &&
        parentOkBT arr r i) = true
  rw [h1, h2, h3]
  simp

/-- In-order labels are unchanged by rotating the plugged subtree. -/
theorem plug_rotR_inorder (ctx : List (Nat × Nat × BT)) (A : BT) (s : Nat)
    (B1 : BT) (gs : Nat) (B2 : BT) :
    (plug ctx (BT.node (BT.node A s B1) gs B2)).inorder =
    (plug ctx (BT.node A s (BT.node B1 gs B2))).inorder := by
  rw [plug_inorder, plug_inorder]
  simp [BT.inorder]

theorem nodup_sides {pre mid post : List Nat}
    (h : (pre ++ mid ++ post).Nodup) :
    ∀ j, j ∈ pre ∨ j ∈ post → j ∉ mid := by
  rw [List.append_assoc, List.nodup_append] at h
  intro j hj hmem
  rcases hj with hj | hj
  · exact h.2.2 hj (List.mem_append_left _ hmem)
  · have h2 := h.2.1
    rw [List.nodup_append] at h2
    exact h2.2.2 hmem hj

set_option maxHeartbeats 3200000 in
/-- Master surgery lemma, right-child case: with the tree well formed and
`gs` the right child of `s`, `rotate arr (parent s) s gs` yields the arena
whose shape is the same context around the left-rotated subtree, with
parent agreement and the sentinel intact. -/
theorem rotate_graft_right
    (arr : Array (Rbnode α β)) (ctx : List (Nat × Nat × BT))
    (A B1 B2 : BT) (s gs g : Nat)
    (hex : Extracts arr (nd arr 0).child0
            (plug ctx (BT.node A s (BT.node B1 gs B2))))
    (hpar : parentOkBT arr (plug ctx (BT.node A s (BT.node B1 gs B2))) 0 = true)
    (hnd : (plug ctx (BT.node A s (BT.node B1 gs B2))).inorder.Nodup)
    (hb : ∀ j ∈ (plug ctx (BT.node A s (BT.node B1 gs B2))).inorder,
            j < arr.size)
    (h0 : 0 < arr.size)
    (hs1 : (nd arr 0).child1 = 0)
    (hgdef : g = (nd arr s).parent) :
    Extracts (rotate arr g s gs) (nd (rotate arr g s gs) 0).child0
      (plug ctx (BT.node (BT.node A s B1) gs B2)) ∧
    parentOkBT (rotate arr g s gs)
      (plug ctx (BT.node (BT.node A s B1) gs B2)) 0 = true ∧
    (nd (rotate arr g s gs) 0).child1 = 0 := by
  have hS : Extracts arr s (BT.node A s (BT.node B1 gs B2)) :=
    plug_extract_down ctx hex
  have hndS : (BT.node A s (BT.node B1 gs B2)).inorder.Nodup := by
    rw [plug_inorder] at hnd
    exact nodup_middle hnd
  have hmemS : ∀ j ∈ (BT.node A s (BT.node B1 gs B2)).inorder,
      j ∈ (plug ctx (BT.node A s (BT.node B1 gs B2))).inorder := by
    intro j hj
    rw [plug_inorder]
    simp only [List.mem_append]
    left; right; exact hj
  have hsides : ∀ j, j ∈ ctxPre ctx ∨ j ∈ ctxPost ctx →
      j ∉ (BT.node A s (BT.node B1 gs B2)).inorder := by
    intro j hj
    have h := hnd
    rw [plug_inorder] at h
    exact nodup_sides h j hj
  have hptot : ∀ j, j ∈ ctxPre ctx ∨ j ∈ ctxPost ctx →
      j ∈ (plug ctx (BT.node A s (BT.node B1 gs B2))).inorder := by
    intro j hj
    rw [plug_inorder]
    simp only [List.mem_append]
    rcases hj with hj | hj
    · left; left; exact hj
    · right; exact hj
  have hnz := hex.mem_ne_zero
  have hmem_s : s ∈ (BT.node A s (BT.node B1 gs B2)).inorder := by
    simp [BT.inorder]
  have hmem_gs : gs ∈ (BT.node A s (BT.node B1 gs B2)).inorder := by
    simp [BT.inorder]
  have hmemA : ∀ m ∈ A.inorder,
      m ∈ (BT.node A s (BT.node B1 gs B2)).inorder := by
    intro m hm; simp [BT.inorder, hm]
  have hmemB1 : ∀ m ∈ B1.inorder,
      m ∈ (BT.node A s (BT.node B1 gs B2)).inorder := by
    intro m hm; simp [BT.inorder, hm]
  have hmemB2 : ∀ m ∈ B2.inorder,
      m ∈ (BT.node A s (BT.node B1 gs B2)).inorder := by
    intro m hm; simp [BT.inorder, hm]
  have hparS := plug_parentOk_down ctx 0 hpar
  obtain ⟨hps, hparA, hparB⟩ := parentOkBT_node hparS
  cases hS with
  | node hsne hA hB =>
    have hc1 : (nd arr s).child1 = gs := hB.rootIdx_eq.symm
    have hB' : Extracts arr gs (BT.node B1 gs B2) := hc1 ▸ hB
    cases hB' with
    | node hgsne hB1 hB2 =>
      obtain ⟨hpgs, hparB1, hparB2⟩ := parentOkBT_node hparB
      have hszs : s < arr.size := hb s (hmemS s hmem_s)
      have hszgs : gs < arr.size := hb gs (hmemS gs hmem_gs)
      -- distinctness inside the subtree
      have hndS' := hndS
      have hshape : (BT.node A s (BT.node B1 gs B2)).inorder =
          A.inorder ++ s :: (B1.inorder ++ gs :: B2.inorder) := by
        simp [BT.inorder]
      rw [hshape, List.nodup_append] at hndS'
      obtain ⟨hndA, hndtail, hdisA⟩ := hndS'
      rw [List.nodup_cons] at hndtail
      obtain ⟨hsnotin, hndtail2⟩ := hndtail
      rw [List.nodup_append] at hndtail2
      obtain ⟨hndB1, hndgsB2, hdisB1⟩ := hndtail2
      rw [List.nodup_cons] at hndgsB2
      obtain ⟨hgsnotB2, hndB2⟩ := hndgsB2
      have hsgs : s ≠ gs := fun h => hsnotin
        (by rw [h]; exact List.mem_append_right _ (List.mem_cons_self _ _))
      have hsB1 : s ∉ B1.inorder := fun h =>
        hsnotin (List.mem_append_left _ h)
      have hsB2 : s ∉ B2.inorder := fun h =>
        hsnotin (List.mem_append_right _ (List.mem_cons_of_mem _ h))
      have hgsB1 : gs ∉ B1.inorder := fun h =>
        hdisB1 h (List.mem_cons_self _ _)
      have hAne : ∀ m ∈ A.inorder,
          m ∉ s :: (B1.inorder ++ gs :: B2.inorder) := fun m hm => hdisA hm
      have hAs : ∀ m ∈ A.inorder, m ≠ s := fun m hm h =>
        hAne m hm (by rw [h]; exact List.mem_cons_self _ _)
      have hAgs : ∀ m ∈ A.inorder, m ≠ gs := fun m hm h =>
        hAne m hm (by
          rw [h]
          exact List.mem_cons_of_mem _
            (List.mem_append_right _ (List.mem_cons_self _ _)))
      have hAB1 : ∀ m ∈ A.inorder, m ∉ B1.inorder := fun m hm hmem =>
        hAne m hm (List.mem_cons_of_mem _ (List.mem_append_left _ hmem))
      have hB2B1 : ∀ m ∈ B2.inorder, m ∉ B1.inorder := fun m hm hmem =>
        hdisB1 hmem (List.mem_cons_of_mem _ hm)
      have hgsA : gs ∉ A.inorder := fun h => hAgs gs h rfl
      -- left = 1 inside `rotate`
      have hleft : ¬ gs = (nd arr s).child0 := by
        cases hAc : A with
        | leaf =>
          rw [hAc] at hA
          rw [hA.zero_of_leaf]
          exact hgsne
        | node al ai ar =>
          have hai : (nd arr s).child0 = ai := by
            rw [hAc] at hA
            exact hA.rootIdx_eq.symm
          rw [hai]
          intro h
          exact hgsA (by
            rw [hAc]
            rw [h]
            simp [BT.inorder])
      -- the transferred subtree root
      have hb1mem : (nd arr gs).child0 = 0 ∨
          (nd arr gs).child0 ∈ B1.inorder := by
        cases hB1c : B1 with
        | leaf =>
          rw [hB1c] at hB1
          exact Or.inl hB1.zero_of_leaf
        | node bl bi br =>
          right
          have hbi : (nd arr gs).child0 = bi := by
            rw [hB1c] at hB1
            exact hB1.rootIdx_eq.symm
          rw [hbi]
          simp [BT.inorder]
      have hb1s : (nd arr gs).child0 ≠ s := by
        rcases hb1mem with h | h
        · rw [h]; exact fun hh => hsne hh.symm
        · intro hh; rw [hh] at h; exact hsB1 h
      have hb1gs : (nd arr gs).child0 ≠ gs := by
        rcases hb1mem with h | h
        · rw [h]; exact fun hh => hgsne hh.symm
        · intro hh; rw [hh] at h; exact hgsB1 h
      -- facts about g
      have hgval : g = holeParent ctx 0 := by rw [hgdef, hps]
      have hgfacts : g < arr.size ∧
          (∀ m ∈ (BT.node A s (BT.node B1 gs B2)).inorder, m ≠ g) := by
        cases hctx : ctx with
        | nil =>
          rw [hctx] at hgval
          constructor
          · rw [hgval]; exact h0
          · intro m hm
            rw [hgval]
            exact hnz m (hmemS m hm)
        | cons layer rest =>
          obtain ⟨dc, pc, sibc⟩ := layer
          rw [hctx] at hgval
          have hgpc : g = pc := hgval
          have hpcmem : pc ∈ ctxPre ctx ∨ pc ∈ ctxPost ctx := by
            rw [hctx]
            by_cases hdc : dc = 0
            · right
              show pc ∈ ctxPost ((dc, pc, sibc) :: rest)
              show pc ∈ (if dc = 0 then pc :: sibc.inorder ++ ctxPost rest
                          else ctxPost rest)
              rw [if_pos hdc]
              exact List.mem_cons_self _ _
            · left
              show pc ∈ (if dc = 0 then ctxPre rest
                          else ctxPre rest ++ sibc.inorder ++ [pc])
              rw [if_neg hdc]
              exact List.mem_append_right _ (List.mem_singleton.mpr rfl)
          constructor
          · rw [hgpc]
            exact hb pc (hptot pc hpcmem)
          · intro m hm hmg
            rw [hgpc] at hmg
            exact hsides pc hpcmem (by rw [← hmg]; exact hm)
      have hgz : g < arr.size := hgfacts.1
      have hgS : ∀ m ∈ (BT.node A s (BT.node B1 gs B2)).inorder, m ≠ g :=
        hgfacts.2
      have hgns : g ≠ s := fun h => hgS s hmem_s h.symm
      have hgngs : g ≠ gs := fun h => hgS gs hmem_gs h.symm
      -- the raw write effects
      obtain ⟨hrs0, hrs1, hrsp, hrgs0, hrgs1, hrgsp, hrgp, hrb1c, hrb1p,
              hrpos, hrneg, hrframe⟩ :=
        rotate_reads arr g s gs hszs hszgs hgz hgns hgngs hsgs hleft hb1s hb1gs
      -- frame for members of the subtree
      have hfr : ∀ m, m ≠ s → m ≠ gs → m ≠ (nd arr gs).child0 →
          m ∈ (BT.node A s (BT.node B1 gs B2)).inorder →
          nd (rotate arr g s gs) m = nd arr m := by
        intro m h1 h2 h3 hm
        exact hrframe m h1 h2 (hgS m hm) h3
      have hagreeA : ∀ m ∈ A.inorder,
          (nd (rotate arr g s gs) m).child0 = (nd arr m).child0 ∧
          (nd (rotate arr g s gs) m).child1 = (nd arr m).child1 := by
        intro m hm
        rw [hfr m (hAs m hm) (hAgs m hm) ?_ (hmemA m hm)]
        · exact ⟨rfl, rfl⟩
        · rcases hb1mem with h | h
          · rw [h]; exact hnz m (hmemS m (hmemA m hm))
          · intro hh; rw [hh] at hm; exact hAB1 _ hm h
      have hagreeB1 : ∀ m ∈ B1.inorder,
          (nd (rotate arr g s gs) m).child0 = (nd arr m).child0 ∧
          (nd (rotate arr g s gs) m).child1 = (nd arr m).child1 := by
        intro m hm
        by_cases hmb1 : m = (nd arr gs).child0
        · have hg1 : (nd arr gs).child0 ≠ g :=
            fun hh => hgS _ (hmemB1 _ (hmb1 ▸ hm)) hh
          rw [hmb1]
          exact ⟨(hrb1c hg1).1, (hrb1c hg1).2⟩
        · rw [hfr m (fun h => hsB1 (h ▸ hm)) (fun h => hgsB1 (h ▸ hm)) hmb1
              (hmemB1 m hm)]
          exact ⟨rfl, rfl⟩
      have hagreeB2 : ∀ m ∈ B2.inorder,
          (nd (rotate arr g s gs) m).child0 = (nd arr m).child0 ∧
          (nd (rotate arr g s gs) m).child1 = (nd arr m).child1 := by
        intro m hm
        rw [hfr m (fun h => hsB2 (h ▸ hm)) (fun h => hgsnotB2 (h ▸ hm)) ?_
            (hmemB2 m hm)]
        · exact ⟨rfl, rfl⟩
        · rcases hb1mem with h | h
          · rw [h]; exact hnz m (hmemS m (hmemB2 m hm))
          · intro hh; rw [hh] at hm; exact hB2B1 _ hm h
      -- the rotated subtree extracts at gs
      have hexS' : Extracts (rotate arr g s gs) gs
          (BT.node (BT.node A s B1) gs B2) := by
        refine Extracts.node hgsne ?_ ?_
        · rw [hrgs0]
          refine Extracts.node hsne ?_ ?_
          · rw [hrs0]
            exact hA.of_agree hagreeA
          · rw [hrs1]
            exact hB1.of_agree hagreeB1
        · rw [hrgs1]
          exact hB2.of_agree hagreeB2
      -- parent agreement of the rotated subtree, under any expectation
      have hparagreeA : ∀ m ∈ A.inorder,
          (nd (rotate arr g s gs) m).parent = (nd arr m).parent := by
        intro m hm
        rw [hfr m (hAs m hm) (hAgs m hm) ?_ (hmemA m hm)]
        rcases hb1mem with h | h
        · rw [h]; exact hnz m (hmemS m (hmemA m hm))
        · intro hh; rw [hh] at hm; exact hAB1 _ hm h
      have hparagreeB2 : ∀ m ∈ B2.inorder,
          (nd (rotate arr g s gs) m).parent = (nd arr m).parent := by
        intro m hm
        rw [hfr m (fun h => hsB2 (h ▸ hm)) (fun h => hgsnotB2 (h ▸ hm)) ?_
            (hmemB2 m hm)]
        rcases hb1mem with h | h
        · rw [h]; exact hnz m (hmemS m (hmemB2 m hm))
        · intro hh; rw [hh] at hm; exact hB2B1 _ hm h
      have hq : ∀ q, parentOkBT arr (BT.node A s (BT.node B1 gs B2)) q = true →
          parentOkBT (rotate arr g s gs)
            (BT.node (BT.node A s B1) gs B2) q = true := by
        intro q hOk
        obtain ⟨hq1, hqA, hqB⟩ := parentOkBT_node hOk
        obtain ⟨hqgs, hqB1, hqB2⟩ := parentOkBT_node hqB
        refine parentOkBT_build ?_ (parentOkBT_build hrsp ?_ ?_) ?_
        · rw [hrgsp, hgdef, hq1]
        · exact parentOkBT_of_agree A s hqA hparagreeA
        · cases hB1c : B1 with
          | leaf => rfl
          | node bl bi br =>
            have hbi : (nd arr gs).child0 = bi := by
              rw [hB1c] at hB1
              exact hB1.rootIdx_eq.symm
            have hbimem : bi ∈ B1.inorder := by
              rw [hB1c]; simp [BT.inorder]
            have hbiz : bi < arr.size := hb bi (hmemS bi (hmemB1 bi hbimem))
            rw [hB1c] at hqB1 hndB1
            obtain ⟨hqbi, hqbl, hqbr⟩ := parentOkBT_node hqB1
            have hblbi : ∀ m ∈ bl.inorder, m ≠ bi := by
              intro m hm h
              have : (bl.inorder ++ bi :: br.inorder).Nodup := hndB1
              rw [List.nodup_append] at this
              exact this.2.2 hm (by rw [h]; exact List.mem_cons_self _ _)
            have hbrbi : ∀ m ∈ br.inorder, m ≠ bi := by
              intro m hm h
              have : (bl.inorder ++ bi :: br.inorder).Nodup := hndB1
              rw [List.nodup_append, List.nodup_cons] at this
              exact this.2.1.1 (by rw [← h]; exact hm)
            have hblmem : ∀ m ∈ bl.inorder, m ∈ B1.inorder := by
              intro m hm; rw [hB1c]; simp [BT.inorder, hm]
            have hbrmem : ∀ m ∈ br.inorder, m ∈ B1.inorder := by
              intro m hm; rw [hB1c]; simp [BT.inorder, hm]
            refine parentOkBT_build ?_ ?_ ?_
            · have := hrb1p (by rw [hbi]; exact hbiz)
              rw [hbi] at this
              exact this
            · refine parentOkBT_of_agree bl bi hqbl ?_
              intro m hm
              rw [hfr m (fun h => hsB1 (h ▸ hblmem m hm))
                    (fun h => hgsB1 (h ▸ hblmem m hm))
                    (by rw [hbi]; exact hblbi m hm)
                    (hmemB1 m (hblmem m hm))]
            · refine parentOkBT_of_agree br bi hqbr ?_
              intro m hm
              rw [hfr m (fun h => hsB1 (h ▸ hbrmem m hm))
                    (fun h => hgsB1 (h ▸ hbrmem m hm))
                    (by rw [hbi]; exact hbrbi m hm)
                    (hmemB1 m (hbrmem m hm))]
        · exact parentOkBT_of_agree B2 gs hqB2 hparagreeB2
      -- assemble through the context
      cases hctx : ctx with
      | nil =>
        rw [hctx] at hex hpar
        have hg0 : g = 0 := by rw [hctx] at hgval; exact hgval
        subst hg0
        have hrt : s = (nd arr 0).child0 := by
          have h := hex.rootIdx_eq
          exact h
        have hroot := hrpos hrt
        refine ⟨?_, ?_, ?_⟩
        · show Extracts (rotate arr 0 s gs) (nd (rotate arr 0 s gs) 0).child0
            (BT.node (BT.node A s B1) gs B2)
          rw [hroot.1]
          exact hexS'
        · show parentOkBT (rotate arr 0 s gs)
            (BT.node (BT.node A s B1) gs B2) 0 = true
          exact hq 0 hpar
        · rw [hroot.2, hs1]
      | cons layer rest =>
        obtain ⟨dc, pc, sibc⟩ := layer
        have hgpc : g = pc := by rw [hctx] at hgval; exact hgval
        rw [hctx] at hex hpar hnd
        -- pc is a live label
        have hpcmem2 : pc ∈ ctxPre ctx ∨ pc ∈ ctxPost ctx := by
          rw [hctx]
          by_cases hdc : dc = 0
          · right
            show pc ∈ (if dc = 0 then pc :: sibc.inorder ++ ctxPost rest
                        else ctxPost rest)
            rw [if_pos hdc]
            exact List.mem_cons_self _ _
          · left
            show pc ∈ (if dc = 0 then ctxPre rest
                        else ctxPre rest ++ sibc.inorder ++ [pc])
            rw [if_neg hdc]
            exact List.mem_append_right _ (List.mem_singleton.mpr rfl)
        have hpctot := hptot pc hpcmem2
        have hpcne : pc ≠ 0 := hnz pc hpctot
        have hb1gpc : (nd arr gs).child0 ≠ g := by
          rcases hb1mem with h | h
          · rw [h, hgpc]
            exact fun hh => hpcne hh.symm
          · exact fun hh => hgS _ (hmemB1 _ h) hh
        -- sentinel slots are untouched here (pc = g is nonzero)
        have hsent : (nd (rotate arr g s gs) 0).child0 = (nd arr 0).child0 ∧
            (nd (rotate arr g s gs) 0).child1 = (nd arr 0).child1 := by
          by_cases hb10 : (nd arr gs).child0 = 0
          · have hg1 : (nd arr gs).child0 ≠ g := by
              rw [hb10, hgpc]
              exact fun h => hpcne h.symm
            have h := hrb1c hg1
            rw [hb10] at h
            exact h
          · have h := hrframe 0 (fun h => hsne h.symm) (fun h => hgsne h.symm)
              (by rw [hgpc]; exact fun h => hpcne h.symm)
              (fun h => hb10 h.symm)
            rw [h]
            exact ⟨rfl, rfl⟩
        by_cases hdc : dc = 0
        · have hpe : plug ((dc, pc, sibc) :: rest)
              (BT.node A s (BT.node B1 gs B2)) =
              plug rest (BT.node (BT.node A s (BT.node B1 gs B2)) pc sibc) := by
            show plug rest (if dc = 0 then _ else _) = _
            rw [if_pos hdc]
          have hpe' : plug ((dc, pc, sibc) :: rest)
              (BT.node (BT.node A s B1) gs B2) =
              plug rest (BT.node (BT.node (BT.node A s B1) gs B2) pc sibc) := by
            show plug rest (if dc = 0 then _ else _) = _
            rw [if_pos hdc]
          rw [hpe] at hex hpar hnd
          rw [hpe']
          have hQ : Extracts arr pc
              (BT.node (BT.node A s (BT.node B1 gs B2)) pc sibc) :=
            plug_extract_down rest hex
          have hndQ : (BT.node (BT.node A s (BT.node B1 gs B2))
              pc sibc).inorder.Nodup := by
            rw [plug_inorder] at hnd
            exact nodup_middle hnd
          have hmemQtot : ∀ m ∈ (BT.node (BT.node A s (BT.node B1 gs B2))
              pc sibc).inorder,
              m ∈ (plug rest (BT.node (BT.node A s (BT.node B1 gs B2))
                    pc sibc)).inorder := by
            intro m hm
            rw [plug_inorder]
            simp only [List.mem_append]
            left; right; exact hm
          have hndQ2 := hndQ
          have hshapeQ : (BT.node (BT.node A s (BT.node B1 gs B2))
              pc sibc).inorder =
              (BT.node A s (BT.node B1 gs B2)).inorder ++
                pc :: sibc.inorder := by
            simp [BT.inorder]
          rw [hshapeQ, List.nodup_append] at hndQ2
          obtain ⟨hndS2, hndpcsib, hdisS⟩ := hndQ2
          rw [List.nodup_cons] at hndpcsib
          obtain ⟨hpcsib, hndsib⟩ := hndpcsib
          have hsibS : ∀ m ∈ sibc.inorder,
              m ∉ (BT.node A s (BT.node B1 gs B2)).inorder := by
            intro m hm hmem
            exact hdisS hmem (List.mem_cons_of_mem _ hm)
          have hpcS : pc ∉ (BT.node A s (BT.node B1 gs B2)).inorder := by
            intro hmem
            exact hdisS hmem (List.mem_cons_self _ _)
          cases hQ with
          | node hpcne2 hQl hQr =>
            have hpc0 : (nd arr pc).child0 = s := hQl.rootIdx_eq.symm
            have hd5 : s = (nd arr g).child0 := by rw [hgpc, hpc0]
            have hgch := hrpos hd5
            have hsibagree : ∀ m ∈ sibc.inorder,
                nd (rotate arr g s gs) m = nd arr m := by
              intro m hm
              refine hrframe m (fun h => hsibS m hm (h ▸ hmem_s))
                (fun h => hsibS m hm (h ▸ hmem_gs))
                (by rw [hgpc]; exact fun h => hpcsib (h ▸ hm)) ?_
              rcases hb1mem with h | h
              · rw [h]
                exact hnz m (by
                  rw [hctx, hpe]
                  exact hmemQtot m (by
                    rw [hshapeQ]
                    exact List.mem_append_right _ (List.mem_cons_of_mem _ hm)))
              · intro hh
                exact hsibS m hm (by rw [hh]; exact hmemB1 _ h)
            have hexQ' : Extracts (rotate arr g s gs) pc
                (BT.node (BT.node (BT.node A s B1) gs B2) pc sibc) := by
              refine Extracts.node hpcne2 ?_ ?_
              · have h1 : (nd (rotate arr g s gs) pc).child0 = gs := by
                  rw [← hgpc]
                  exact hgch.1
                rw [h1]
                exact hexS'
              · have h1 : (nd (rotate arr g s gs) pc).child1 =
                    (nd arr pc).child1 := by
                  rw [← hgpc]
                  exact hgch.2
                rw [h1]
                exact hQr.of_agree fun m hm => by rw [hsibagree m hm]; exact ⟨rfl, rfl⟩
            have hframe2 : ∀ j ∈ (plug rest
                (BT.node (BT.node A s (BT.node B1 gs B2)) pc sibc)).inorder,
                j ∉ (BT.node (BT.node A s (BT.node B1 gs B2))
                      pc sibc).inorder →
                (nd (rotate arr g s gs) j).child0 = (nd arr j).child0 ∧
                (nd (rotate arr g s gs) j).child1 = (nd arr j).child1 := by
              intro j hj hjn
              have hjS : j ∉ (BT.node A s (BT.node B1 gs B2)).inorder := by
                intro hmem
                exact hjn (by rw [hshapeQ]; exact List.mem_append_left _ hmem)
              have h := hrframe j (fun h => hjS (h ▸ hmem_s))
                (fun h => hjS (h ▸ hmem_gs))
                (by rw [hgpc]; exact fun h => hjn (by
                  rw [hshapeQ, h]
                  exact List.mem_append_right _ (List.mem_cons_self _ _))) ?_
              · rw [h]; exact ⟨rfl, rfl⟩
              · rcases hb1mem with h2 | h2
                · rw [h2]
                  exact hnz j (by rw [hctx, hpe]; exact hj)
                · intro hh
                  exact hjS (by rw [hh]; exact hmemB1 _ h2)
            have hexFinal := plug_replace_extract rest arr (rotate arr g s gs)
              (BT.node (BT.node A s (BT.node B1 gs B2)) pc sibc)
              (BT.node (BT.node (BT.node A s B1) gs B2) pc sibc)
              (nd arr 0).child0 hex hnd rfl hexQ' hframe2
            refine ⟨?_, ?_, ?_⟩
            · rw [hsent.1]
              exact hexFinal
            · refine plug_replace_parentOk rest arr (rotate arr g s gs)
                (BT.node (BT.node A s (BT.node B1 gs B2)) pc sibc)
                (BT.node (BT.node (BT.node A s B1) gs B2) pc sibc)
                0 hnd hpar ?_ ?_
              · intro q hOkQ
                obtain ⟨hqpc, hqS, hqsib⟩ := parentOkBT_node hOkQ
                refine parentOkBT_build ?_ (hq pc hqS) ?_
                · have h1 : (nd (rotate arr g s gs) pc).parent =
                      (nd arr pc).parent := by
                    rw [← hgpc]
                    exact hrgp hb1gpc
                  rw [h1, hqpc]
                · exact parentOkBT_of_agree sibc pc hqsib
                    fun m hm => by rw [hsibagree m hm]
              · intro j hj hjn
                have hjS : j ∉ (BT.node A s (BT.node B1 gs B2)).inorder := by
                  intro hmem
                  exact hjn (by rw [hshapeQ]; exact List.mem_append_left _ hmem)
                have h := hrframe j (fun h => hjS (h ▸ hmem_s))
                  (fun h => hjS (h ▸ hmem_gs))
                  (by rw [hgpc]; exact fun h => hjn (by
                    rw [hshapeQ, h]
                    exact List.mem_append_right _ (List.mem_cons_self _ _))) ?_
                · rw [h]
                · rcases hb1mem with h2 | h2
                  · rw [h2]
                    exact hnz j (by rw [hctx, hpe]; exact hj)
                  · intro hh
                    exact hjS (by rw [hh]; exact hmemB1 _ h2)
            · rw [hsent.2, hs1]
        · have hpe : plug ((dc, pc, sibc) :: rest)
              (BT.node A s (BT.node B1 gs B2)) =
              plug rest (BT.node sibc pc (BT.node A s (BT.node B1 gs B2))) := by
            show plug rest (if dc = 0 then _ else _) = _
            rw [if_neg hdc]
          have hpe' : plug ((dc, pc, sibc) :: rest)
              (BT.node (BT.node A s B1) gs B2) =
              plug rest (BT.node sibc pc (BT.node (BT.node A s B1) gs B2)) := by
            show plug rest (if dc = 0 then _ else _) = _
            rw [if_neg hdc]
          rw [hpe] at hex hpar hnd
          rw [hpe']
          have hQ : Extracts arr pc
              (BT.node sibc pc (BT.node A s (BT.node B1 gs B2))) :=
            plug_extract_down rest hex
          have hndQ : (BT.node sibc pc
              (BT.node A s (BT.node B1 gs B2))).inorder.Nodup := by
            rw [plug_inorder] at hnd
            exact nodup_middle hnd
          have hshapeQ : (BT.node sibc pc
              (BT.node A s (BT.node B1 gs B2))).inorder =
              sibc.inorder ++ pc ::
                (BT.node A s (BT.node B1 gs B2)).inorder := by
            simp [BT.inorder]
          have hndQ2 := hndQ
          rw [hshapeQ, List.nodup_append] at hndQ2
          obtain ⟨hndsib, hndpcS, hdisSib⟩ := hndQ2
          rw [List.nodup_cons] at hndpcS
          obtain ⟨hpcS, hndS2⟩ := hndpcS
          have hsibS : ∀ m ∈ sibc.inorder,
              m ∉ (BT.node A s (BT.node B1 gs B2)).inorder := by
            intro m hm hmem
            exact hdisSib hm (List.mem_cons_of_mem _ hmem)
          have hsibpc : ∀ m ∈ sibc.inorder, m ≠ pc := by
            intro m hm h
            exact hdisSib hm (by rw [h]; exact List.mem_cons_self _ _)
          cases hQ with
          | node hpcne2 hQl hQr =>
            have hpc1 : (nd arr pc).child1 = s := hQr.rootIdx_eq.symm
            have hd5 : ¬ s = (nd arr g).child0 := by
              rw [hgpc]
              cases hsibc : sibc with
              | leaf =>
                rw [hsibc] at hQl
                rw [hQl.zero_of_leaf]
                exact fun h => hsne h
              | node sl si sr =>
                have hsi : (nd arr pc).child0 = si := by
                  rw [hsibc] at hQl
                  exact hQl.rootIdx_eq.symm
                rw [hsi]
                intro h
                exact hsibS si (by rw [hsibc]; simp [BT.inorder])
                  (by rw [← h]; exact hmem_s)
            have hgch := hrneg hd5
            have hsibagree : ∀ m ∈ sibc.inorder,
                nd (rotate arr g s gs) m = nd arr m := by
              intro m hm
              refine hrframe m (fun h => hsibS m hm (h ▸ hmem_s))
                (fun h => hsibS m hm (h ▸ hmem_gs))
                (by rw [hgpc]; exact hsibpc m hm) ?_
              rcases hb1mem with h | h
              · rw [h]
                exact hnz m (by
                  rw [hctx, hpe]
                  rw [plug_inorder]
                  simp only [List.mem_append]
                  left; right
                  rw [hshapeQ]
                  exact List.mem_append_left _ hm)
              · intro hh
                exact hsibS m hm (by rw [hh]; exact hmemB1 _ h)
            have hexQ' : Extracts (rotate arr g s gs) pc
                (BT.node sibc pc (BT.node (BT.node A s B1) gs B2)) := by
              refine Extracts.node hpcne2 ?_ ?_
              · have h1 : (nd (rotate arr g s gs) pc).child0 =
                    (nd arr pc).child0 := by
                  rw [← hgpc]
                  exact hgch.1
                rw [h1]
                exact hQl.of_agree fun m hm => by
                  rw [hsibagree m hm]; exact ⟨rfl, rfl⟩
              · have h1 : (nd (rotate arr g s gs) pc).child1 = gs := by
                  rw [← hgpc]
                  exact hgch.2
                rw [h1]
                exact hexS'
            have hframe2 : ∀ j ∈ (plug rest
                (BT.node sibc pc (BT.node A s (BT.node B1 gs B2)))).inorder,
                j ∉ (BT.node sibc pc
                      (BT.node A s (BT.node B1 gs B2))).inorder →
                (nd (rotate arr g s gs) j).child0 = (nd arr j).child0 ∧
                (nd (rotate arr g s gs) j).child1 = (nd arr j).child1 := by
              intro j hj hjn
              have hjS : j ∉ (BT.node A s (BT.node B1 gs B2)).inorder := by
                intro hmem
                exact hjn (by
                  rw [hshapeQ]
                  exact List.mem_append_right _ (List.mem_cons_of_mem _ hmem))
              have h := hrframe j (fun h => hjS (h ▸ hmem_s))
                (fun h => hjS (h ▸ hmem_gs))
                (by rw [hgpc]; exact fun h => hjn (by
                  rw [hshapeQ, h]
                  exact List.mem_append_right _ (List.mem_cons_self _ _))) ?_
              · rw [h]; exact ⟨rfl, rfl⟩
              · rcases hb1mem with h2 | h2
                · rw [h2]
                  exact hnz j (by rw [hctx, hpe]; exact hj)
                · intro hh
                  exact hjS (by rw [hh]; exact hmemB1 _ h2)
            have hexFinal := plug_replace_extract rest arr (rotate arr g s gs)
              (BT.node sibc pc (BT.node A s (BT.node B1 gs B2)))
              (BT.node sibc pc (BT.node (BT.node A s B1) gs B2))
              (nd arr 0).child0 hex hnd rfl hexQ' hframe2
            refine ⟨?_, ?_, ?_⟩
            · rw [hsent.1]
              exact hexFinal
            · refine plug_replace_parentOk rest arr (rotate arr g s gs)
                (BT.node sibc pc (BT.node A s (BT.node B1 gs B2)))
                (BT.node sibc pc (BT.node (BT.node A s B1) gs B2))
                0 hnd hpar ?_ ?_
              · intro q hOkQ
                obtain ⟨hqpc, hqsib, hqS⟩ := parentOkBT_node hOkQ
                refine parentOkBT_build ?_ ?_ (hq pc hqS)
                · have h1 : (nd (rotate arr g s gs) pc).parent =
                      (nd arr pc).parent := by
                    rw [← hgpc]
                    exact hrgp hb1gpc
                  rw [h1, hqpc]
                · exact parentOkBT_of_agree sibc pc hqsib
                    fun m hm => by rw [hsibagree m hm]
              · intro j hj hjn
                have hjS : j ∉ (BT.node A s (BT.node B1 gs B2)).inorder := by
                  intro hmem
                  exact hjn (by
                    rw [hshapeQ]
                    exact List.mem_append_right _ (List.mem_cons_of_mem _ hmem))
                have h := hrframe j (fun h => hjS (h ▸ hmem_s))
                  (fun h => hjS (h ▸ hmem_gs))
                  (by rw [hgpc]; exact fun h => hjn (by
                    rw [hshapeQ, h]
                    exact List.mem_append_right _ (List.mem_cons_self _ _))) ?_
                · rw [h]
                · rcases hb1mem with h2 | h2
                  · rw [h2]
                    exact hnz j (by rw [hctx, hpe]; exact hj)
                  · intro hh
                    exact hjS (by rw [hh]; exact hmemB1 _ h2)
            · rw [hsent.2, hs1]

set_option maxHeartbeats 3200000 in
/-- Master surgery lemma, left-child case: with the tree well formed and
`gs` the left child of `s`, `rotate arr (parent s) s gs` right-rotates the
subtree at `s` inside its context. -/
theorem rotate_graft_left
    (arr : Array (Rbnode α β)) (ctx : List (Nat × Nat × BT))
    (C1 C2 C3 : BT) (s gs g : Nat)
    (hex : Extracts arr (nd arr 0).child0
            (plug ctx (BT.node (BT.node C1 gs C2) s C3)))
    (hpar : parentOkBT arr (plug ctx (BT.node (BT.node C1 gs C2) s C3)) 0 = true)
    (hnd : (plug ctx (BT.node (BT.node C1 gs C2) s C3)).inorder.Nodup)
    (hb : ∀ j ∈ (plug ctx (BT.node (BT.node C1 gs C2) s C3)).inorder,
            j < arr.size)
    (h0 : 0 < arr.size)
    (hs1 : (nd arr 0).child1 = 0)
    (hgdef : g = (nd arr s).parent) :
    Extracts (rotate arr g s gs) (nd (rotate arr g s gs) 0).child0
      (plug ctx (BT.node C1 gs (BT.node C2 s C3))) ∧
    parentOkBT (rotate arr g s gs)
      (plug ctx (BT.node C1 gs (BT.node C2 s C3))) 0 = true ∧
    (nd (rotate arr g s gs) 0).child1 = 0 := by
  have hS : Extracts arr s (BT.node (BT.node C1 gs C2) s C3) :=
    plug_extract_down ctx hex
  have hndS : (BT.node (BT.node C1 gs C2) s C3).inorder.Nodup := by
    rw [plug_inorder] at hnd
    exact nodup_middle hnd
  have hmemS : ∀ j ∈ (BT.node (BT.node C1 gs C2) s C3).inorder,
      j ∈ (plug ctx (BT.node (BT.node C1 gs C2) s C3)).inorder := by
    intro j hj
    rw [plug_inorder]
    simp only [List.mem_append]
    left; right; exact hj
  have hsides : ∀ j, j ∈ ctxPre ctx ∨ j ∈ ctxPost ctx →
      j ∉ (BT.node (BT.node C1 gs C2) s C3).inorder := by
    intro j hj
    have h := hnd
    rw [plug_inorder] at h
    exact nodup_sides h j hj
  have hptot : ∀ j, j ∈ ctxPre ctx ∨ j ∈ ctxPost ctx →
      j ∈ (plug ctx (BT.node (BT.node C1 gs C2) s C3)).inorder := by
    intro j hj
    rw [plug_inorder]
    simp only [List.mem_append]
    rcases hj with hj | hj
    · left; left; exact hj
    · right; exact hj
  have hnz := hex.mem_ne_zero
  have hmem_s : s ∈ (BT.node (BT.node C1 gs C2) s C3).inorder := by
    simp [BT.inorder]
  have hmem_gs : gs ∈ (BT.node (BT.node C1 gs C2) s C3).inorder := by
    simp [BT.inorder]
  have hmemC1 : ∀ m ∈ C1.inorder,
      m ∈ (BT.node (BT.node C1 gs C2) s C3).inorder := by
    intro m hm; simp [BT.inorder, hm]
  have hmemC2 : ∀ m ∈ C2.inorder,
      m ∈ (BT.node (BT.node C1 gs C2) s C3).inorder := by
    intro m hm; simp [BT.inorder, hm]
  have hmemC3 : ∀ m ∈ C3.inorder,
      m ∈ (BT.node (BT.node C1 gs C2) s C3).inorder := by
    intro m hm; simp [BT.inorder, hm]
  have hparS := plug_parentOk_down ctx 0 hpar
  obtain ⟨hps, hparL, hparC3⟩ := parentOkBT_node hparS
  cases hS with
  | node hsne hL hC3r =>
    have hc0 : (nd arr s).child0 = gs := hL.rootIdx_eq.symm
    have hL' : Extracts arr gs (BT.node C1 gs C2) := hc0 ▸ hL
    cases hL' with
    | node hgsne hC1 hC2 =>
      obtain ⟨hpgs, hparC1, hparC2⟩ := parentOkBT_node hparL
      have hszs : s < arr.size := hb s (hmemS s hmem_s)
      have hszgs : gs < arr.size := hb gs (hmemS gs hmem_gs)
      -- distinctness inside the subtree
      have hndS' := hndS
      have hshape : (BT.node (BT.node C1 gs C2) s C3).inorder =
          C1.inorder ++ gs :: (C2.inorder ++ s :: C3.inorder) := by
        simp [BT.inorder]
      rw [hshape, List.nodup_append] at hndS'
      obtain ⟨hndC1, hndtail, hdisC1⟩ := hndS'
      rw [List.nodup_cons] at hndtail
      obtain ⟨hgsnotin, hndtail2⟩ := hndtail
      rw [List.nodup_append] at hndtail2
      obtain ⟨hndC2, hndsC3, hdisC2⟩ := hndtail2
      rw [List.nodup_cons] at hndsC3
      obtain ⟨hsnotC3, hndC3⟩ := hndsC3
      have hsgs : s ≠ gs := fun h => hgsnotin
        (by rw [← h]; exact List.mem_append_right _ (List.mem_cons_self _ _))
      have hgsC2 : gs ∉ C2.inorder := fun h =>
        hgsnotin (List.mem_append_left _ h)
      have hgsC3 : gs ∉ C3.inorder := fun h =>
        hgsnotin (List.mem_append_right _ (List.mem_cons_of_mem _ h))
      have hsC2 : s ∉ C2.inorder := fun h =>
        hdisC2 h (List.mem_cons_self _ _)
      have hC1ne : ∀ m ∈ C1.inorder,
          m ∉ gs :: (C2.inorder ++ s :: C3.inorder) := fun m hm => hdisC1 hm
      have hC1s : ∀ m ∈ C1.inorder, m ≠ s := fun m hm h =>
        hC1ne m hm (by
          rw [h]
          exact List.mem_cons_of_mem _
            (List.mem_append_right _ (List.mem_cons_self _ _)))
      have hC1gs : ∀ m ∈ C1.inorder, m ≠ gs := fun m hm h =>
        hC1ne m hm (by rw [h]; exact List.mem_cons_self _ _)
      have hC1C2 : ∀ m ∈ C1.inorder, m ∉ C2.inorder := fun m hm hmem =>
        hC1ne m hm (List.mem_cons_of_mem _ (List.mem_append_left _ hmem))
      have hC3C2 : ∀ m ∈ C3.inorder, m ∉ C2.inorder := fun m hm hmem =>
        hdisC2 hmem (List.mem_cons_of_mem _ hm)
      have hC3s : ∀ m ∈ C3.inorder, m ≠ s := fun m hm h =>
        hsnotC3 (h ▸ hm)
      have hC3gs : ∀ m ∈ C3.inorder, m ≠ gs := fun m hm h =>
        hgsC3 (h ▸ hm)
      have hsC1 : s ∉ C1.inorder := fun h => hC1s s h rfl
      have hgsC1 : gs ∉ C1.inorder := fun h => hC1gs gs h rfl
      -- left = 0 inside `rotate`
      have hleft : gs = (nd arr s).child0 := hc0.symm
      -- the transferred subtree root
      have hb2mem : (nd arr gs).child1 = 0 ∨
          (nd arr gs).child1 ∈ C2.inorder := by
        cases hC2c : C2 with
        | leaf =>
          rw [hC2c] at hC2
          exact Or.inl hC2.zero_of_leaf
        | node cl ci cr =>
          right
          have hci : (nd arr gs).child1 = ci := by
            rw [hC2c] at hC2
            exact hC2.rootIdx_eq.symm
          rw [hci]
          simp [BT.inorder]
      have hb2s : (nd arr gs).child1 ≠ s := by
        rcases hb2mem with h | h
        · rw [h]; exact fun hh => hsne hh.symm
        · intro hh; rw [hh] at h; exact hsC2 h
      have hb2gs : (nd arr gs).child1 ≠ gs := by
        rcases hb2mem with h | h
        · rw [h]; exact fun hh => hgsne hh.symm
        · intro hh; rw [hh] at h; exact hgsC2 h
      -- facts about g
      have hgval : g = holeParent ctx 0 := by rw [hgdef, hps]
      have hgfacts : g < arr.size ∧
          (∀ m ∈ (BT.node (BT.node C1 gs C2) s C3).inorder, m ≠ g) := by
        cases hctx : ctx with
        | nil =>
          rw [hctx] at hgval
          constructor
          · rw [hgval]; exact h0
          · intro m hm
            rw [hgval]
            exact hnz m (hmemS m hm)
        | cons layer rest =>
          obtain ⟨dc, pc, sibc⟩ := layer
          rw [hctx] at hgval
          have hgpc : g = pc := hgval
          have hpcmem : pc ∈ ctxPre ctx ∨ pc ∈ ctxPost ctx := by
            rw [hctx]
            by_cases hdc : dc = 0
            · right
              show pc ∈ (if dc = 0 then pc :: sibc.inorder ++ ctxPost rest
                          else ctxPost rest)
              rw [if_pos hdc]
              exact List.mem_cons_self _ _
            · left
              show pc ∈ (if dc = 0 then ctxPre rest
                          else ctxPre rest ++ sibc.inorder ++ [pc])
              rw [if_neg hdc]
              exact List.mem_append_right _ (List.mem_singleton.mpr rfl)
          constructor
          · rw [hgpc]
            exact hb pc (hptot pc hpcmem)
          · intro m hm hmg
            rw [hgpc] at hmg
            exact hsides pc hpcmem (by rw [← hmg]; exact hm)
      have hgz : g < arr.size := hgfacts.1
      have hgS : ∀ m ∈ (BT.node (BT.node C1 gs C2) s C3).inorder, m ≠ g :=
        hgfacts.2
      have hgns : g ≠ s := fun h => hgS s hmem_s h.symm
      have hgngs : g ≠ gs := fun h => hgS gs hmem_gs h.symm
      -- the raw write effects
      obtain ⟨hrs1, hrs0, hrsp, hrgs1, hrgs0, hrgsp, hrgp, hrb2c, hrb2p,
              hrpos, hrneg, hrframe⟩ :=
        rotate_reads_left arr g s gs hszs hszgs hgz hgns hgngs hsgs hleft
          hb2s hb2gs
      -- frame for members of the subtree
      have hfr : ∀ m, m ≠ s → m ≠ gs → m ≠ (nd arr gs).child1 →
          m ∈ (BT.node (BT.node C1 gs C2) s C3).inorder →
          nd (rotate arr g s gs) m = nd arr m := by
        intro m h1 h2 h3 hm
        exact hrframe m h1 h2 (hgS m hm) h3
      have hagreeC1 : ∀ m ∈ C1.inorder,
          (nd (rotate arr g s gs) m).child0 = (nd arr m).child0 ∧
          (nd (rotate arr g s gs) m).child1 = (nd arr m).child1 := by
        intro m hm
        rw [hfr m (hC1s m hm) (hC1gs m hm) ?_ (hmemC1 m hm)]
        · exact ⟨rfl, rfl⟩
        · rcases hb2mem with h | h
          · rw [h]; exact hnz m (hmemS m (hmemC1 m hm))
          · intro hh; rw [hh] at hm; exact hC1C2 _ hm h
      have hagreeC2 : ∀ m ∈ C2.inorder,
          (nd (rotate arr g s gs) m).child0 = (nd arr m).child0 ∧
          (nd (rotate arr g s gs) m).child1 = (nd arr m).child1 := by
        intro m hm
        by_cases hmb2 : m = (nd arr gs).child1
        · have hg1 : (nd arr gs).child1 ≠ g :=
            fun hh => hgS _ (hmemC2 _ (hmb2 ▸ hm)) hh
          rw [hmb2]
          exact ⟨(hrb2c hg1).1, (hrb2c hg1).2⟩
        · rw [hfr m (fun h => hsC2 (h ▸ hm)) (fun h => hgsC2 (h ▸ hm)) hmb2
              (hmemC2 m hm)]
          exact ⟨rfl, rfl⟩
      have hagreeC3 : ∀ m ∈ C3.inorder,
          (nd (rotate arr g s gs) m).child0 = (nd arr m).child0 ∧
          (nd (rotate arr g s gs) m).child1 = (nd arr m).child1 := by
        intro m hm
        rw [hfr m (hC3s m hm) (hC3gs m hm) ?_ (hmemC3 m hm)]
        · exact ⟨rfl, rfl⟩
        · rcases hb2mem with h | h
          · rw [h]; exact hnz m (hmemS m (hmemC3 m hm))
          · intro hh; rw [hh] at hm; exact hC3C2 _ hm h
      -- the rotated subtree extracts at gs
      have hexS' : Extracts (rotate arr g s gs) gs
          (BT.node C1 gs (BT.node C2 s C3)) := by
        refine Extracts.node hgsne ?_ ?_
        · rw [hrgs0]
          exact hC1.of_agree hagreeC1
        · rw [hrgs1]
          refine Extracts.node hsne ?_ ?_
          · rw [hrs0]
            exact hC2.of_agree hagreeC2
          · rw [hrs1]
            exact hC3r.of_agree hagreeC3
      -- parent agreement of the rotated subtree, under any expectation
      have hparagreeC1 : ∀ m ∈ C1.inorder,
          (nd (rotate arr g s gs) m).parent = (nd arr m).parent := by
        intro m hm
        rw [hfr m (hC1s m hm) (hC1gs m hm) ?_ (hmemC1 m hm)]
        rcases hb2mem with h | h
        · rw [h]; exact hnz m (hmemS m (hmemC1 m hm))
        · intro hh; rw [hh] at hm; exact hC1C2 _ hm h
      have hparagreeC3 : ∀ m ∈ C3.inorder,
          (nd (rotate arr g s gs) m).parent = (nd arr m).parent := by
        intro m hm
        rw [hfr m (hC3s m hm) (hC3gs m hm) ?_ (hmemC3 m hm)]
        rcases hb2mem with h | h
        · rw [h]; exact hnz m (hmemS m (hmemC3 m hm))
        · intro hh; rw [hh] at hm; exact hC3C2 _ hm h
      have hq : ∀ q,
          parentOkBT arr (BT.node (BT.node C1 gs C2) s C3) q = true →
          parentOkBT (rotate arr g s gs)
            (BT.node C1 gs (BT.node C2 s C3)) q = true := by
        intro q hOk
        obtain ⟨hq1, hqL, hqC3⟩ := parentOkBT_node hOk
        obtain ⟨hqgs, hqC1, hqC2⟩ := parentOkBT_node hqL
        refine parentOkBT_build ?_ ?_ (parentOkBT_build hrsp ?_ ?_)
        · rw [hrgsp, hgdef, hq1]
        · exact parentOkBT_of_agree C1 gs hqC1 hparagreeC1
        · cases hC2c : C2 with
          | leaf => rfl
          | node cl ci cr =>
            have hci : (nd arr gs).child1 = ci := by
              rw [hC2c] at hC2
              exact hC2.rootIdx_eq.symm
            have hcimem : ci ∈ C2.inorder := by
              rw [hC2c]; simp [BT.inorder]
            have hciz : ci < arr.size := hb ci (hmemS ci (hmemC2 ci hcimem))
            rw [hC2c] at hqC2 hndC2
            obtain ⟨hqci, hqcl, hqcr⟩ := parentOkBT_node hqC2
            have hclci : ∀ m ∈ cl.inorder, m ≠ ci := by
              intro m hm h
              have : (cl.inorder ++ ci :: cr.inorder).Nodup := hndC2
              rw [List.nodup_append] at this
              exact this.2.2 hm (by rw [h]; exact List.mem_cons_self _ _)
            have hcrci : ∀ m ∈ cr.inorder, m ≠ ci := by
              intro m hm h
              have : (cl.inorder ++ ci :: cr.inorder).Nodup := hndC2
              rw [List.nodup_append, List.nodup_cons] at this
              exact this.2.1.1 (by rw [← h]; exact hm)
            have hclmem : ∀ m ∈ cl.inorder, m ∈ C2.inorder := by
              intro m hm; rw [hC2c]; simp [BT.inorder, hm]
            have hcrmem : ∀ m ∈ cr.inorder, m ∈ C2.inorder := by
              intro m hm; rw [hC2c]; simp [BT.inorder, hm]
            refine parentOkBT_build ?_ ?_ ?_
            · have := hrb2p (by rw [hci]; exact hciz)
              rw [hci] at this
              exact this
            · refine parentOkBT_of_agree cl ci hqcl ?_
              intro m hm
              rw [hfr m (fun h => hsC2 (h ▸ hclmem m hm))
                    (fun h => hgsC2 (h ▸ hclmem m hm))
                    (by rw [hci]; exact hclci m hm)
                    (hmemC2 m (hclmem m hm))]
            · refine parentOkBT_of_agree cr ci hqcr ?_
              intro m hm
              rw [hfr m (fun h => hsC2 (h ▸ hcrmem m hm))
                    (fun h => hgsC2 (h ▸ hcrmem m hm))
                    (by rw [hci]; exact hcrci m hm)
                    (hmemC2 m (hcrmem m hm))]
        · exact parentOkBT_of_agree C3 s hqC3 hparagreeC3
      -- assemble through the context
      cases hctx : ctx with
      | nil =>
        rw [hctx] at hex hpar
        have hg0 : g = 0 := by rw [hctx] at hgval; exact hgval
        subst hg0
        have hrt : s = (nd arr 0).child0 := by
          have h := hex.rootIdx_eq
          exact h
        have hroot := hrpos hrt
        refine ⟨?_, ?_, ?_⟩
        · show Extracts (rotate arr 0 s gs) (nd (rotate arr 0 s gs) 0).child0
            (BT.node C1 gs (BT.node C2 s C3))
          rw [hroot.1]
          exact hexS'
        · show parentOkBT (rotate arr 0 s gs)
            (BT.node C1 gs (BT.node C2 s C3)) 0 = true
          exact hq 0 hpar
        · rw [hroot.2, hs1]
      | cons layer rest =>
        obtain ⟨dc, pc, sibc⟩ := layer
        have hgpc : g = pc := by rw [hctx] at hgval; exact hgval
        rw [hctx] at hex hpar hnd
        have hpcmem2 : pc ∈ ctxPre ctx ∨ pc ∈ ctxPost ctx := by
          rw [hctx]
          by_cases hdc : dc = 0
          · right
            show pc ∈ (if dc = 0 then pc :: sibc.inorder ++ ctxPost rest
                        else ctxPost rest)
            rw [if_pos hdc]
            exact List.mem_cons_self _ _
          · left
            show pc ∈ (if dc = 0 then ctxPre rest
                        else ctxPre rest ++ sibc.inorder ++ [pc])
            rw [if_neg hdc]
            exact List.mem_append_right _ (List.mem_singleton.mpr rfl)
        have hpctot := hptot pc hpcmem2
        have hpcne : pc ≠ 0 := hnz pc hpctot
        have hb2gpc : (nd arr gs).child1 ≠ g := by
          rcases hb2mem with h | h
          · rw [h, hgpc]
            exact fun hh => hpcne hh.symm
          · exact fun hh => hgS _ (hmemC2 _ h) hh
        have hsent : (nd (rotate arr g s gs) 0).child0 = (nd arr 0).child0 ∧
            (nd (rotate arr g s gs) 0).child1 = (nd arr 0).child1 := by
          by_cases hb20 : (nd arr gs).child1 = 0
          · have hg1 : (nd arr gs).child1 ≠ g := by
              rw [hb20, hgpc]
              exact fun h => hpcne h.symm
            have h := hrb2c hg1
            rw [hb20] at h
            exact h
          · have h := hrframe 0 (fun h => hsne h.symm) (fun h => hgsne h.symm)
              (by rw [hgpc]; exact fun h => hpcne h.symm)
              (fun h => hb20 h.symm)
            rw [h]
            exact ⟨rfl, rfl⟩
        by_cases hdc : dc = 0
        · have hpe : plug ((dc, pc, sibc) :: rest)
              (BT.node (BT.node C1 gs C2) s C3) =
              plug rest (BT.node (BT.node (BT.node C1 gs C2) s C3) pc sibc) := by
            show plug rest (if dc = 0 then _ else _) = _
            rw [if_pos hdc]
          have hpe' : plug ((dc, pc, sibc) :: rest)
              (BT.node C1 gs (BT.node C2 s C3)) =
              plug rest (BT.node (BT.node C1 gs (BT.node C2 s C3)) pc sibc) := by
            show plug rest (if dc = 0 then _ else _) = _
            rw [if_pos hdc]
          rw [hpe] at hex hpar hnd
          rw [hpe']
          have hQ : Extracts arr pc
              (BT.node (BT.node (BT.node C1 gs C2) s C3) pc sibc) :=
            plug_extract_down rest hex
          have hmemQtot : ∀ m ∈ (BT.node (BT.node (BT.node C1 gs C2) s C3)
              pc sibc).inorder,
              m ∈ (plug rest (BT.node (BT.node (BT.node C1 gs C2) s C3)
                    pc sibc)).inorder := by
            intro m hm
            rw [plug_inorder]
            simp only [List.mem_append]
            left; right; exact hm
          have hndQ2 : (BT.node (BT.node (BT.node C1 gs C2) s C3)
              pc sibc).inorder.Nodup := by
            rw [plug_inorder] at hnd
            exact nodup_middle hnd
          have hshapeQ : (BT.node (BT.node (BT.node C1 gs C2) s C3)
              pc sibc).inorder =
              (BT.node (BT.node C1 gs C2) s C3).inorder ++
                pc :: sibc.inorder := by
            simp [BT.inorder]
          rw [hshapeQ, List.nodup_append] at hndQ2
          obtain ⟨hndS2, hndpcsib, hdisS⟩ := hndQ2
          rw [List.nodup_cons] at hndpcsib
          obtain ⟨hpcsib, hndsib⟩ := hndpcsib
          have hsibS : ∀ m ∈ sibc.inorder,
              m ∉ (BT.node (BT.node C1 gs C2) s C3).inorder := by
            intro m hm hmem
            exact hdisS hmem (List.mem_cons_of_mem _ hm)
          cases hQ with
          | node hpcne2 hQl hQr =>
            have hpc0 : (nd arr pc).child0 = s := hQl.rootIdx_eq.symm
            have hd5 : s = (nd arr g).child0 := by rw [hgpc, hpc0]
            have hgch := hrpos hd5
            have hsibagree : ∀ m ∈ sibc.inorder,
                nd (rotate arr g s gs) m = nd arr m := by
              intro m hm
              refine hrframe m (fun h => hsibS m hm (h ▸ hmem_s))
                (fun h => hsibS m hm (h ▸ hmem_gs))
                (by rw [hgpc]; exact fun h => hpcsib (h ▸ hm)) ?_
              rcases hb2mem with h | h
              · rw [h]
                exact hnz m (by
                  rw [hctx, hpe]
                  exact hmemQtot m (by
                    rw [hshapeQ]
                    exact List.mem_append_right _ (List.mem_cons_of_mem _ hm)))
              · intro hh
                exact hsibS m hm (by rw [hh]; exact hmemC2 _ h)
            have hexQ' : Extracts (rotate arr g s gs) pc
                (BT.node (BT.node C1 gs (BT.node C2 s C3)) pc sibc) := by
              refine Extracts.node hpcne2 ?_ ?_
              · have h1 : (nd (rotate arr g s gs) pc).child0 = gs := by
                  rw [← hgpc]
                  exact hgch.1
                rw [h1]
                exact hexS'
              · have h1 : (nd (rotate arr g s gs) pc).child1 =
                    (nd arr pc).child1 := by
                  rw [← hgpc]
                  exact hgch.2
                rw [h1]
                exact hQr.of_agree fun m hm => by
                  rw [hsibagree m hm]; exact ⟨rfl, rfl⟩
            have hframe2 : ∀ j ∈ (plug rest
                (BT.node (BT.node (BT.node C1 gs C2) s C3) pc sibc)).inorder,
                j ∉ (BT.node (BT.node (BT.node C1 gs C2) s C3)
                      pc sibc).inorder →
                (nd (rotate arr g s gs) j).child0 = (nd arr j).child0 ∧
                (nd (rotate arr g s gs) j).child1 = (nd arr j).child1 := by
              intro j hj hjn
              have hjS : j ∉ (BT.node (BT.node C1 gs C2) s C3).inorder := by
                intro hmem
                exact hjn (by rw [hshapeQ]; exact List.mem_append_left _ hmem)
              have h := hrframe j (fun h => hjS (h ▸ hmem_s))
                (fun h => hjS (h ▸ hmem_gs))
                (by rw [hgpc]; exact fun h => hjn (by
                  rw [hshapeQ, h]
                  exact List.mem_append_right _ (List.mem_cons_self _ _))) ?_
              · rw [h]; exact ⟨rfl, rfl⟩
              · rcases hb2mem with h2 | h2
                · rw [h2]
                  exact hnz j (by rw [hctx, hpe]; exact hj)
                · intro hh
                  exact hjS (by rw [hh]; exact hmemC2 _ h2)
            have hexFinal := plug_replace_extract rest arr (rotate arr g s gs)
              (BT.node (BT.node (BT.node C1 gs C2) s C3) pc sibc)
              (BT.node (BT.node C1 gs (BT.node C2 s C3)) pc sibc)
              (nd arr 0).child0 hex hnd rfl hexQ' hframe2
            refine ⟨?_, ?_, ?_⟩
            · rw [hsent.1]
              exact hexFinal
            · refine plug_replace_parentOk rest arr (rotate arr g s gs)
                (BT.node (BT.node (BT.node C1 gs C2) s C3) pc sibc)
                (BT.node (BT.node C1 gs (BT.node C2 s C3)) pc sibc)
                0 hnd hpar ?_ ?_
              · intro q hOkQ
                obtain ⟨hqpc, hqS, hqsib⟩ := parentOkBT_node hOkQ
                refine parentOkBT_build ?_ (hq pc hqS) ?_
                · have h1 : (nd (rotate arr g s gs) pc).parent =
                      (nd arr pc).parent := by
                    rw [← hgpc]
                    exact hrgp hb2gpc
                  rw [h1, hqpc]
                · exact parentOkBT_of_agree sibc pc hqsib
                    fun m hm => by rw [hsibagree m hm]
              · intro j hj hjn
                have hjS : j ∉ (BT.node (BT.node C1 gs C2) s C3).inorder := by
                  intro hmem
                  exact hjn (by rw [hshapeQ]; exact List.mem_append_left _ hmem)
                have h := hrframe j (fun h => hjS (h ▸ hmem_s))
                  (fun h => hjS (h ▸ hmem_gs))
                  (by rw [hgpc]; exact fun h => hjn (by
                    rw [hshapeQ, h]
                    exact List.mem_append_right _ (List.mem_cons_self _ _))) ?_
                · rw [h]
                · rcases hb2mem with h2 | h2
                  · rw [h2]
                    exact hnz j (by rw [hctx, hpe]; exact hj)
                  · intro hh
                    exact hjS (by rw [hh]; exact hmemC2 _ h2)
            · rw [hsent.2, hs1]
        · have hpe : plug ((dc, pc, sibc) :: rest)
              (BT.node (BT.node C1 gs C2) s C3) =
              plug rest (BT.node sibc pc (BT.node (BT.node C1 gs C2) s C3)) := by
            show plug rest (if dc = 0 then _ else _) = _
            rw [if_neg hdc]
          have hpe' : plug ((dc, pc, sibc) :: rest)
              (BT.node C1 gs (BT.node C2 s C3)) =
              plug rest (BT.node sibc pc (BT.node C1 gs (BT.node C2 s C3))) := by
            show plug rest (if dc = 0 then _ else _) = _
            rw [if_neg hdc]
          rw [hpe] at hex hpar hnd
          rw [hpe']
          have hQ : Extracts arr pc
              (BT.node sibc pc (BT.node (BT.node C1 gs C2) s C3)) :=
            plug_extract_down rest hex
          have hndQ2 : (BT.node sibc pc
              (BT.node (BT.node C1 gs C2) s C3)).inorder.Nodup := by
            rw [plug_inorder] at hnd
            exact nodup_middle hnd
          have hshapeQ : (BT.node sibc pc
              (BT.node (BT.node C1 gs C2) s C3)).inorder =
              sibc.inorder ++ pc ::
                (BT.node (BT.node C1 gs C2) s C3).inorder := by
            simp [BT.inorder]
          rw [hshapeQ, List.nodup_append] at hndQ2
          obtain ⟨hndsib, hndpcS, hdisSib⟩ := hndQ2
          rw [List.nodup_cons] at hndpcS
          obtain ⟨hpcS, hndS2⟩ := hndpcS
          have hsibS : ∀ m ∈ sibc.inorder,
              m ∉ (BT.node (BT.node C1 gs C2) s C3).inorder := by
            intro m hm hmem
            exact hdisSib hm (List.mem_cons_of_mem _ hmem)
          have hsibpc : ∀ m ∈ sibc.inorder, m ≠ pc := by
            intro m hm h
            exact hdisSib hm (by rw [h]; exact List.mem_cons_self _ _)
          cases hQ with
          | node hpcne2 hQl hQr =>
            have hpc1 : (nd arr pc).child1 = s := hQr.rootIdx_eq.symm
            have hd5 : ¬ s = (nd arr g).child0 := by
              rw [hgpc]
              cases hsibc : sibc with
              | leaf =>
                rw [hsibc] at hQl
                rw [hQl.zero_of_leaf]
                exact fun h => hsne h
              | node sl si sr =>
                have hsi : (nd arr pc).child0 = si := by
                  rw [hsibc] at hQl
                  exact hQl.rootIdx_eq.symm
                rw [hsi]
                intro h
                exact hsibS si (by rw [hsibc]; simp [BT.inorder])
                  (by rw [← h]; exact hmem_s)
            have hgch := hrneg hd5
            have hsibagree : ∀ m ∈ sibc.inorder,
                nd (rotate arr g s gs) m = nd arr m := by
              intro m hm
              refine hrframe m (fun h => hsibS m hm (h ▸ hmem_s))
                (fun h => hsibS m hm (h ▸ hmem_gs))
                (by rw [hgpc]; exact hsibpc m hm) ?_
              rcases hb2mem with h | h
              · rw [h]
                exact hnz m (by
                  rw [hctx, hpe]
                  rw [plug_inorder]
                  simp only [List.mem_append]
                  left; right
                  rw [hshapeQ]
                  exact List.mem_append_left _ hm)
              · intro hh
                exact hsibS m hm (by rw [hh]; exact hmemC2 _ h)
            have hexQ' : Extracts (rotate arr g s gs) pc
                (BT.node sibc pc (BT.node C1 gs (BT.node C2 s C3))) := by
              refine Extracts.node hpcne2 ?_ ?_
              · have h1 : (nd (rotate arr g s gs) pc).child0 =
                    (nd arr pc).child0 := by
                  rw [← hgpc]
                  exact hgch.1
                rw [h1]
                exact hQl.of_agree fun m hm => by
                  rw [hsibagree m hm]; exact ⟨rfl, rfl⟩
              · have h1 : (nd (rotate arr g s gs) pc).child1 = gs := by
                  rw [← hgpc]
                  exact hgch.2
                rw [h1]
                exact hexS'
            have hframe2 : ∀ j ∈ (plug rest
                (BT.node sibc pc (BT.node (BT.node C1 gs C2) s C3))).inorder,
                j ∉ (BT.node sibc pc
                      (BT.node (BT.node C1 gs C2) s C3)).inorder →
                (nd (rotate arr g s gs) j).child0 = (nd arr j).child0 ∧
                (nd (rotate arr g s gs) j).child1 = (nd arr j).child1 := by
              intro j hj hjn
              have hjS : j ∉ (BT.node (BT.node C1 gs C2) s C3).inorder := by
                intro hmem
                exact hjn (by
                  rw [hshapeQ]
                  exact List.mem_append_right _ (List.mem_cons_of_mem _ hmem))
              have h := hrframe j (fun h => hjS (h ▸ hmem_s))
                (fun h => hjS (h ▸ hmem_gs))
                (by rw [hgpc]; exact fun h => hjn (by
                  rw [hshapeQ, h]
                  exact List.mem_append_right _ (List.mem_cons_self _ _))) ?_
              · rw [h]; exact ⟨rfl, rfl⟩
              · rcases hb2mem with h2 | h2
                · rw [h2]
                  exact hnz j (by rw [hctx, hpe]; exact hj)
                · intro hh
                  exact hjS (by rw [hh]; exact hmemC2 _ h2)
            have hexFinal := plug_replace_extract rest arr (rotate arr g s gs)
              (BT.node sibc pc (BT.node (BT.node C1 gs C2) s C3))
              (BT.node sibc pc (BT.node C1 gs (BT.node C2 s C3)))
              (nd arr 0).child0 hex hnd rfl hexQ' hframe2
            refine ⟨?_, ?_, ?_⟩
            · rw [hsent.1]
              exact hexFinal
            · refine plug_replace_parentOk rest arr (rotate arr g s gs)
                (BT.node sibc pc (BT.node (BT.node C1 gs C2) s C3))
                (BT.node sibc pc (BT.node C1 gs (BT.node C2 s C3)))
                0 hnd hpar ?_ ?_
              · intro q hOkQ
                obtain ⟨hqpc, hqsib, hqS⟩ := parentOkBT_node hOkQ
                refine parentOkBT_build ?_ ?_ (hq pc hqS)
                · have h1 : (nd (rotate arr g s gs) pc).parent =
                      (nd arr pc).parent := by
                    rw [← hgpc]
                    exact hrgp hb2gpc
                  rw [h1, hqpc]
                · exact parentOkBT_of_agree sibc pc hqsib
                    fun m hm => by rw [hsibagree m hm]
              · intro j hj hjn
                have hjS : j ∉ (BT.node (BT.node C1 gs C2) s C3).inorder := by
                  intro hmem
                  exact hjn (by
                    rw [hshapeQ]
                    exact List.mem_append_right _ (List.mem_cons_of_mem _ hmem))
                have h := hrframe j (fun h => hjS (h ▸ hmem_s))
                  (fun h => hjS (h ▸ hmem_gs))
                  (by rw [hgpc]; exact fun h => hjn (by
                    rw [hshapeQ, h]
                    exact List.mem_append_right _ (List.mem_cons_self _ _))) ?_
                · rw [h]
                · rcases hb2mem with h2 | h2
                  · rw [h2]
                    exact hnz j (by rw [hctx, hpe]; exact hj)
                  · intro hh
                    exact hjS (by rw [hh]; exact hmemC2 _ h2)
            · rw [hsent.2, hs1]

/-! ### The colour layer: black heights and the red-black conditions -/

/-- Colour of a subtree's root as stored in the arena (NIL is black). -/
def rootRed (arr : Array (Rbnode α β)) : BT → Bool
  | .leaf => false
  | .node _ i _ => (nd arr i).red

/-- Black height of a subtree along its left spine (NIL counts 1). -/
def bh (arr : Array (Rbnode α β)) : BT → Nat
  | .leaf => 1
  | .node l i _ => bh arr l + (if (nd arr i).red = true then 0 else 1)

/-- The red-black conditions inside a subtree: both children balance and
a red node has black children. -/
def rbOk (arr : Array (Rbnode α β)) : BT → Prop
  | .leaf => True
  | .node l i r => rbOk arr l ∧ rbOk arr r ∧ bh arr l = bh arr r ∧
      ((nd arr i).red = true →
        rootRed arr l = false ∧ rootRed arr r = false)

theorem rootRed_congr {arr arr' : Array (Rbnode α β)} :
    ∀ (T : BT), (∀ j ∈ T.inorder, (nd arr' j).red = (nd arr j).red) →
    rootRed arr' T = rootRed arr T := by
  intro T h
  cases T with
  | leaf => rfl
  | node l i r =>
    show (nd arr' i).red = (nd arr i).red
    exact h i (by simp [BT.inorder])

theorem bh_congr {arr arr' : Array (Rbnode α β)} :
    ∀ (T : BT), (∀ j ∈ T.inorder, (nd arr' j).red = (nd arr j).red) →
    bh arr' T = bh arr T := by
  intro T
  induction T with
  | leaf => intro _; rfl
  | node l i r ihl ihr =>
    intro h
    show bh arr' l + (if (nd arr' i).red = true then 0 else 1) = _
    rw [ihl fun m hm => h m (by simp [BT.inorder, hm]),
        h i (by simp [BT.inorder])]
    rfl

theorem rbOk_congr {arr arr' : Array (Rbnode α β)} :
    ∀ (T : BT), (∀ j ∈ T.inorder, (nd arr' j).red = (nd arr j).red) →
    rbOk arr T → rbOk arr' T := by
  intro T
  induction T with
  | leaf => intro _ _; trivial
  | node l i r ihl ihr =>
    intro h hOk
    obtain ⟨h1, h2, h3, h4⟩ := hOk
    have hl : ∀ m ∈ l.inorder, (nd arr' m).red = (nd arr m).red :=
      fun m hm => h m (by simp [BT.inorder, hm])
    have hr : ∀ m ∈ r.inorder, (nd arr' m).red = (nd arr m).red :=
      fun m hm => h m (by simp [BT.inorder, hm])
    refine ⟨ihl hl h1, ihr hr h2, ?_, ?_⟩
    · rw [bh_congr l hl, bh_congr r hr]
      exact h3
    · intro hred
      rw [h i (by simp [BT.inorder])] at hred
      rw [rootRed_congr l hl, rootRed_congr r hr]
      exact h4 hred

/-- Red-black conditions of a context around a hole of black height `n`
and root colour `c`, accumulating to total black height `m` at the top
(and requiring a black top root when `rootb` is set at the end). -/
def ctxRB (arr : Array (Rbnode α β)) :
    List (Nat × Nat × BT) → Nat → Bool → Nat → Prop
  | [], n, _, m => n = m
  | (_, i, sib) :: ctx, n, c, m =>
      rbOk arr sib ∧ bh arr sib = n ∧
      ((nd arr i).red = true → rootRed arr sib = false ∧ c = false) ∧
      ctxRB arr ctx (n + (if (nd arr i).red = true then 0 else 1))
        ((nd arr i).red) m

theorem rbOk_plug (arr : Array (Rbnode α β)) :
    ∀ (ctx : List (Nat × Nat × BT)) (S : BT) (m : Nat), rbOk arr S →
    ctxRB arr ctx (bh arr S) (rootRed arr S) m →
    rbOk arr (plug ctx S) := by
  intro ctx
  induction ctx with
  | nil => intro S m hS _; exact hS
  | cons layer rest ih =>
    intro S m hS hc
    obtain ⟨d, i, sib⟩ := layer
    obtain ⟨hsib, hbh, hcol, hrest⟩ := hc
    by_cases hd : d = 0
    · have hpe : plug ((d, i, sib) :: rest) S = plug rest (BT.node S i sib) := by
        show plug rest (if d = 0 then _ else _) = _
        rw [if_pos hd]
      rw [hpe]
      refine ih (BT.node S i sib) m ⟨hS, hsib, hbh.symm, ?_⟩ ?_
      · intro hred
        exact ⟨(hcol hred).2, (hcol hred).1⟩
      · show ctxRB arr rest
          (bh arr S + (if (nd arr i).red = true then 0 else 1))
          ((nd arr i).red) m
        exact hrest
    · have hpe : plug ((d, i, sib) :: rest) S = plug rest (BT.node sib i S) := by
        show plug rest (if d = 0 then _ else _) = _
        rw [if_neg hd]
      rw [hpe]
      refine ih (BT.node sib i S) m ⟨hsib, hS, hbh, ?_⟩ ?_
      · intro hred
        exact ⟨(hcol hred).1, (hcol hred).2⟩
      · show ctxRB arr rest
          (bh arr sib + (if (nd arr i).red = true then 0 else 1))
          ((nd arr i).red) m
        rw [hbh]
        exact hrest

theorem rbOk_unplug (arr : Array (Rbnode α β)) :
    ∀ (ctx : List (Nat × Nat × BT)) (S : BT), rbOk arr (plug ctx S) →
    rbOk arr S ∧
    ctxRB arr ctx (bh arr S) (rootRed arr S) (bh arr (plug ctx S)) := by
  intro ctx
  induction ctx with
  | nil => intro S h; exact ⟨h, rfl⟩
  | cons layer rest ih =>
    intro S h
    obtain ⟨d, i, sib⟩ := layer
    by_cases hd : d = 0
    · have hpe : plug ((d, i, sib) :: rest) S = plug rest (BT.node S i sib) := by
        show plug rest (if d = 0 then _ else _) = _
        rw [if_pos hd]
      rw [hpe] at h ⊢
      obtain ⟨hw, hrest⟩ := ih (BT.node S i sib) h
      obtain ⟨hS, hsib, hbal, hcol⟩ := hw
      refine ⟨hS, hsib, hbal.symm, ?_, ?_⟩
      · intro hred
        exact ⟨(hcol hred).2, (hcol hred).1⟩
      · show ctxRB arr rest
          (bh arr S + (if (nd arr i).red = true then 0 else 1))
          ((nd arr i).red) (bh arr (plug rest (BT.node S i sib)))
        exact hrest
    · have hpe : plug ((d, i, sib) :: rest) S = plug rest (BT.node sib i S) := by
        show plug rest (if d = 0 then _ else _) = _
        rw [if_neg hd]
      rw [hpe] at h ⊢
      obtain ⟨hw, hrest⟩ := ih (BT.node sib i S) h
      obtain ⟨hsib, hS, hbal, hcol⟩ := hw
      refine ⟨hS, hsib, hbal, ?_, ?_⟩
      · intro hred
        exact ⟨(hcol hred).1, (hcol hred).2⟩
      · show ctxRB arr rest
          (bh arr S + (if (nd arr i).red = true then 0 else 1))
          ((nd arr i).red) (bh arr (plug rest (BT.node sib i S)))
        have hb2 : bh arr (BT.node sib i S) =
            bh arr sib + (if (nd arr i).red = true then 0 else 1) := rfl
        rw [← hbal]
        exact hrest

/-- The full red-black invariant of an allocated tree: structural
well-formedness, sortedness per the comparator, the red-black colour
conditions, and a black root. -/
structure RBInv (cmp : α → α → β → β → Int) (t : Rbtree α β)
    (arr : Array (Rbnode α β)) (T : BT) : Prop where
  wf : WfArena t arr T
  sorted : sortedKV cmp (keysBT arr T)
  rb : rbOk arr T
  rootblack : rootRed arr T = false

theorem ctxPre_append : ∀ (c1 c2 : List (Nat × Nat × BT)),
    ctxPre (c1 ++ c2) = ctxPre c2 ++ ctxPre c1 := by
  intro c1
  induction c1 with
  | nil => intro c2; simp [ctxPre]
  | cons layer rest ih =>
    intro c2
    obtain ⟨d, i, sib⟩ := layer
    show (if d = 0 then ctxPre (rest ++ c2)
          else ctxPre (rest ++ c2) ++ sib.inorder ++ [i]) = _
    by_cases hd : d = 0
    · rw [if_pos hd, ih]
      show _ = ctxPre c2 ++ (if d = 0 then ctxPre rest
            else ctxPre rest ++ sib.inorder ++ [i])
      rw [if_pos hd]
    · rw [if_neg hd, ih]
      show _ = ctxPre c2 ++ (if d = 0 then ctxPre rest
            else ctxPre rest ++ sib.inorder ++ [i])
      rw [if_neg hd]
      simp [List.append_assoc]

theorem ctxPost_append : ∀ (c1 c2 : List (Nat × Nat × BT)),
    ctxPost (c1 ++ c2) = ctxPost c1 ++ ctxPost c2 := by
  intro c1
  induction c1 with
  | nil => intro c2; simp [ctxPost]
  | cons layer rest ih =>
    intro c2
    obtain ⟨d, i, sib⟩ := layer
    show (if d = 0 then i :: sib.inorder ++ ctxPost (rest ++ c2)
          else ctxPost (rest ++ c2)) = _
    by_cases hd : d = 0
    · rw [if_pos hd, ih]
      show _ = (if d = 0 then i :: sib.inorder ++ ctxPost rest
            else ctxPost rest) ++ ctxPost c2
      rw [if_pos hd]
      simp [List.append_assoc]
    · rw [if_neg hd, ih]
      show _ = (if d = 0 then i :: sib.inorder ++ ctxPost rest
            else ctxPost rest) ++ ctxPost c2
      rw [if_neg hd]

/-- Splitting sortedness of a node's key list. -/
theorem sortedKV_node {cmp : α → α → β → β → Int}
    {arr : Array (Rbnode α β)} {l : BT} {i : Nat} {r : BT}
    (hs : sortedKV cmp (keysBT arr (BT.node l i r))) :
    sortedKV cmp (keysBT arr l) ∧ sortedKV cmp (keysBT arr r) ∧
    (∀ m ∈ l.inorder, cmp (nd arr m).key (nd arr i).key
        (nd arr m).data (nd arr i).data ≤ 0) ∧
    (∀ m ∈ r.inorder, cmp (nd arr i).key (nd arr m).key
        (nd arr i).data (nd arr m).data ≤ 0) ∧
    (∀ m ∈ l.inorder, ∀ m2 ∈ r.inorder,
      cmp (nd arr m).key (nd arr m2).key
        (nd arr m).data (nd arr m2).data ≤ 0) := by
  have hkeys : keysBT arr (BT.node l i r) =
      keysBT arr l ++ ((nd arr i).key, (nd arr i).data) :: keysBT arr r := by
    simp [keysBT, BT.inorder]
  rw [hkeys] at hs
  rw [sortedKV, List.pairwise_append] at hs
  obtain ⟨hsl, hsir, hcross⟩ := hs
  rw [List.pairwise_cons] at hsir
  obtain ⟨hir, hsr⟩ := hsir
  refine ⟨hsl, hsr, ?_, ?_, ?_⟩
  · intro m hm
    exact hcross _ (List.mem_map_of_mem _ hm) _ (List.mem_cons_self _ _)
  · intro m hm
    exact hir _ (List.mem_map_of_mem _ hm)
  · intro m hm m2 hm2
    exact hcross _ (List.mem_map_of_mem _ hm) _
      (List.mem_cons_of_mem _ (List.mem_map_of_mem _ hm2))

end Nifty
